import Mathlib

/-!
# Text layout of `sf::MyText` and creation of `sf::priv::RenderTextureImplFBO`

A shallow embedding of two source files of the graphics module:

* src/SFML/Graphics/MyText.cpp, the drawable-text class: its setters, the lazy
  geometry update (`ensureGeometryUpdate`), `getLocalBounds` and
  `findCharacterPos`;
* src/SFML/Graphics/RenderTextureImplFBO.cpp, the framebuffer backend: the
  method `create`, over a model of the GL driver.

Modelling conventions
* `float` values are the rationals (`ℚ`) that are IEEE binary32 numbers; every
  `float` operation of the source (`+`, `-`, `*`, `/`, a conversion from an
  integer, the literal `0.208f`) is the exact operation followed by the
  rounding `roundF32` to the nearest binary32 number, ties to even, with
  subnormals (section "Binary32 arithmetic").  Expressions are evaluated in
  `float` precision in the order of the source, without contraction.  The
  values stay in the finite range: overflow to infinity and NaN are not
  modelled.
* the numeric members of the glyph provider (`advance`, `bounds`, kerning,
  line spacing, underline metrics) are `float` values of the source; the
  embedding reads each of them through `toFloat`, which leaves a binary32
  number unchanged.
* `unsigned int`, `Uint32`, `std::size_t`, `GLuint` values are natural numbers;
  the code performs no arithmetic on them apart from comparisons and casts to
  `float`.
* pointers (`const MyFont*`, `const Texture*`) are addresses, `0` is `NULL`;
  the fonts living at the addresses are given by a heap `Nat → MyFont`.
* `std::map<const Texture*, VertexArray>` is an association list; `operator[]`
  finds the entry of a key or adds a default-constructed one.  The loops of
  the source that run over the map treat every entry alike, so the order of
  the entries is not observable in the embedded functions.
* the GL driver is a record of answers (handles, completeness status) that may
  depend on the state of the context; the state records the bound objects and
  the calls issued.
-/

namespace sf

/-! ## Binary32 arithmetic -/

/-- Round to the nearest integer, ties to the even one. -/
def roundHalfEven (q : ℚ) : ℤ :=
  if q - (⌊q⌋ : ℤ) < 1 / 2 then ⌊q⌋
  else if 1 / 2 < q - (⌊q⌋ : ℤ) then ⌊q⌋ + 1
  else if ⌊q⌋ % 2 = 0 then ⌊q⌋ else ⌊q⌋ + 1

/-- The power of two `2 ^ e` for an integer exponent. -/
def pow2 (e : ℤ) : ℚ :=
  if 0 ≤ e then ((2 ^ e.toNat : ℕ) : ℚ) else 1 / ((2 ^ (-e).toNat : ℕ) : ℚ)

/-- The binary logarithm of a natural number, rounded down, by halving at
most `fuel` times. -/
def log2Fuel : ℕ → ℕ → ℕ
  | 0, _ => 0
  | fuel + 1, n => if n < 2 then 0 else log2Fuel fuel (n / 2) + 1

/-- The binary logarithm of a natural number, rounded down (0 for 0). -/
def natLog2 (n : ℕ) : ℕ := log2Fuel n n

/-- The binary exponent of a positive rational: the `e` with
`2 ^ e ≤ q < 2 ^ (e + 1)`. -/
def expo2 (q : ℚ) : ℤ :=
  if pow2 ((natLog2 q.num.natAbs : ℤ) - (natLog2 q.den : ℤ)) ≤ q
  then (natLog2 q.num.natAbs : ℤ) - (natLog2 q.den : ℤ)
  else (natLog2 q.num.natAbs : ℤ) - (natLog2 q.den : ℤ) - 1

/-- The spacing of the binary32 numbers around `q ≥ 0`: 24 significant bits,
smallest normal exponent -126 (below it the spacing is `2 ^ (-149)`). -/
def ulpOf (q : ℚ) : ℚ := pow2 (max (expo2 q) (-126) - 23)

/-- The binary32 number nearest to `q ≥ 0`, ties to even. -/
def roundPos (q : ℚ) : ℚ := (roundHalfEven (q / ulpOf q) : ℚ) * ulpOf q

/-- The binary32 number nearest to `q`, ties to even: the rounding of every
`float` operation and conversion.  The exponent is not bounded above: the
overflow to infinity of results beyond `2 ^ 128` is not modelled. -/
def roundF32 (q : ℚ) : ℚ := if 0 ≤ q then roundPos q else -roundPos (-q)

/-- The conversion of a value to `float`: `static_cast<float>`, a `float`
literal, the reading of a numeric member into a `float`. -/
def toFloat (q : ℚ) : ℚ := roundF32 q

/-- The `float` addition `a + b`. -/
def fadd (a b : ℚ) : ℚ := roundF32 (a + b)

/-- The `float` subtraction `a - b`. -/
def fsub (a b : ℚ) : ℚ := roundF32 (a - b)

/-- The `float` multiplication `a * b`. -/
def fmul (a b : ℚ) : ℚ := roundF32 (a * b)

/-- The `float` division `a / b`. -/
def fdiv (a b : ℚ) : ℚ := roundF32 (a / b)

/-- The function `std::floor` on a `float`; the result is an integer. -/
def ffloor (a : ℚ) : ℚ := ((⌊a⌋ : ℤ) : ℚ)

/-! ## Plain data of the graphics module -/

/-- A two-dimensional vector of floats, `sf::Vector2f`. -/
structure Vector2f where
  x : ℚ
  y : ℚ
deriving DecidableEq

/-- An axis-aligned rectangle of floats, `sf::FloatRect`. -/
structure FloatRect where
  left : ℚ
  top : ℚ
  width : ℚ
  height : ℚ
deriving DecidableEq

/-- An axis-aligned rectangle of ints, `sf::IntRect`. -/
structure IntRect where
  left : Int
  top : Int
  width : Int
  height : Int
deriving DecidableEq

/-- An RGBA colour, `sf::Color`. -/
structure Color where
  r : Nat
  g : Nat
  b : Nat
  a : Nat
deriving DecidableEq

/-- A point with a colour and a texture coordinate, `sf::Vertex`. -/
structure Vertex where
  position : Vector2f
  color : Color
  texCoords : Vector2f
deriving DecidableEq

/-- The primitive kinds of `sf::PrimitiveType`. -/
inductive PrimitiveType where
  | Points
  | Lines
  | LinesStrip
  | Triangles
  | TrianglesStrip
  | TrianglesFan
  | Quads
deriving DecidableEq

/-- Modelled from the spec: the library class `sf::VertexArray` (a batch of
vertices with a primitive kind) is not part of the sources; a batch is
"cleared (not deallocated) on every relayout", "repopulated by the layout
algorithm" and finally marked as a triangle list.  A default-constructed
array is empty and of kind `Points`. -/
structure VertexArray where
  m_vertices : List Vertex
  m_primitiveType : PrimitiveType
deriving DecidableEq

/-- The default-constructed vertex array. -/
def VertexArray.empty : VertexArray := ⟨[], PrimitiveType.Points⟩

/-- Number of vertices, `VertexArray::getVertexCount`. -/
def VertexArray.getVertexCount (va : VertexArray) : Nat := va.m_vertices.length

/-- Remove the vertices, keep the primitive kind: `VertexArray::clear`. -/
def VertexArray.clear (va : VertexArray) : VertexArray := { va with m_vertices := [] }

/-- Push vertices at the end: a run of `VertexArray::append` calls. -/
def VertexArray.append (va : VertexArray) (vs : List Vertex) : VertexArray :=
  { va with m_vertices := va.m_vertices ++ vs }

/-- Set the primitive kind: `VertexArray::setPrimitiveType`. -/
def VertexArray.setPrimitiveType (va : VertexArray) (p : PrimitiveType) : VertexArray :=
  { va with m_primitiveType := p }

/-- The texture-keyed batches, `std::map<const Texture*, VertexArray>`. -/
abbrev VertexArrayMap := List (Nat × VertexArray)

/-- The lookup `find` of the map. -/
def VertexArrayMap.find (m : VertexArrayMap) (key : Nat) : Option VertexArray :=
  match m with
  | [] => none
  | (k, va) :: rest => if k = key then some va else VertexArrayMap.find rest key

/-- The statement pair `VertexArray& vertices = m[key]; vertices.append(..)`:
the entry of `key` is created empty when it is missing, then extended. -/
def VertexArrayMap.appendAt (m : VertexArrayMap) (key : Nat) (vs : List Vertex) :
    VertexArrayMap :=
  match m with
  | [] => [(key, VertexArray.empty.append vs)]
  | (k, va) :: rest =>
    if k = key then (k, va.append vs) :: rest
    else (k, va) :: VertexArrayMap.appendAt rest key vs

/-- Number of vertices stored under a key (zero when the key is missing). -/
def VertexArrayMap.countAt (m : VertexArrayMap) (key : Nat) : Nat :=
  match VertexArrayMap.find m key with
  | none => 0
  | some va => va.getVertexCount

/-- Number of vertices of all the batches together. -/
def VertexArrayMap.totalCount (m : VertexArrayMap) : Nat :=
  (m.map (fun e => e.2.getVertexCount)).sum

/-- The keys of the map. -/
def VertexArrayMap.keys (m : VertexArrayMap) : List Nat := m.map (fun e => e.1)

/-! ## The glyph provider -/

/-- A glyph description, `sf::MyGlyph`: advance, visual bounds, rectangle in
the atlas and the texture holding the atlas. -/
structure MyGlyph where
  advance : ℚ
  bounds : FloatRect
  textureRect : IntRect
  texture : Nat

/-- The queries of `sf::MyFont` used by the text. -/
structure MyFont where
  getGlyph : Nat → Nat → Bool → MyGlyph
  getKerning : Nat → Nat → Nat → ℚ
  getLineSpacing : Nat → ℚ
  getUnderlinePosition : Nat → ℚ
  getUnderlineThickness : Nat → ℚ

/-- Modelled from the spec: the placement transform of the base class
`sf::Transformable` is not part of the sources; only its action on a point
is used ("then applying the text's placement transform"). -/
structure Transform where
  transformPoint : Vector2f → Vector2f

/-- The identity transform, `Transform::Identity`. -/
def Transform.Identity : Transform := ⟨fun p => p⟩

/-! ## Style flags -/

/-- Modelled from the spec: the enumeration `MyText::Style` of the header
(not part of the sources): "style flags (bold/italic/underline/strike-through,
independently combinable)", one bit each. -/
def Regular : Nat := 0

/-- The bold bit of the style. -/
def Bold : Nat := 1

/-- The italic bit of the style. -/
def Italic : Nat := 2

/-- The underline bit of the style. -/
def Underlined : Nat := 4

/-- The strike-through bit of the style. -/
def StrikeThrough : Nat := 8

/-! ## The text object -/

/-- The members of `sf::MyText`. -/
structure MyText where
  m_string : List Nat
  m_font : Nat
  m_characterSize : Nat
  m_style : Nat
  m_color : Color
  m_verticesMap : VertexArrayMap
  m_bounds : FloatRect
  m_geometryNeedUpdate : Bool
deriving DecidableEq

/-- The value-initialised rectangle `FloatRect()`. -/
def FloatRect.zero : FloatRect := ⟨0, 0, 0, 0⟩

/-- The default constructor `MyText::MyText()`. -/
def MyText.mk0 : MyText :=
  { m_string := []
    m_font := 0
    m_characterSize := 30
    m_style := Regular
    m_color := ⟨255, 255, 255, 255⟩
    m_verticesMap := []
    m_bounds := FloatRect.zero
    m_geometryNeedUpdate := false }

/-- The constructor `MyText::MyText(string, font, characterSize)`. -/
def MyText.mk3 (string : List Nat) (font : Nat) (characterSize : Nat) : MyText :=
  { m_string := string
    m_font := font
    m_characterSize := characterSize
    m_style := Regular
    m_color := ⟨255, 255, 255, 255⟩
    m_verticesMap := []
    m_bounds := FloatRect.zero
    m_geometryNeedUpdate := true }

/-- The setter `MyText::setString`. -/
def MyText.setString (t : MyText) (string : List Nat) : MyText :=
  if t.m_string ≠ string then
    { t with m_string := string, m_geometryNeedUpdate := true }
  else t

/-- The setter `MyText::setFont`; the argument is the address of the font. -/
def MyText.setFont (t : MyText) (font : Nat) : MyText :=
  if t.m_font ≠ font then
    { t with m_font := font, m_geometryNeedUpdate := true, m_verticesMap := [] }
  else t

/-- The setter `MyText::setCharacterSize`. -/
def MyText.setCharacterSize (t : MyText) (size : Nat) : MyText :=
  if t.m_characterSize ≠ size then
    { t with m_characterSize := size, m_geometryNeedUpdate := true, m_verticesMap := [] }
  else t

/-- The setter `MyText::setStyle`. -/
def MyText.setStyle (t : MyText) (style : Nat) : MyText :=
  if t.m_style ≠ style then
    { t with m_style := style, m_geometryNeedUpdate := true }
  else t

/-- The inner loops of `setColor`: every vertex of every batch is recoloured. -/
def recolor (m : VertexArrayMap) (c : Color) : VertexArrayMap :=
  m.map (fun e => (e.1, { e.2 with m_vertices := e.2.m_vertices.map (fun v => { v with color := c }) }))

/-- The setter `MyText::setColor`. -/
def MyText.setColor (t : MyText) (color : Color) : MyText :=
  if color ≠ t.m_color then
    if !t.m_geometryNeedUpdate then
      { t with m_color := color, m_verticesMap := recolor t.m_verticesMap color }
    else { t with m_color := color }
  else t

/-! ## The geometry update -/

/-- The six vertices of a decoration line from `x = 0` to `x`, between `top`
and `bottom` (the block repeated four times in `ensureGeometryUpdate`). -/
def lineQuad (x top bottom : ℚ) (color : Color) : List Vertex :=
  [ ⟨⟨0, top⟩, color, ⟨1, 1⟩⟩,
    ⟨⟨x, top⟩, color, ⟨1, 1⟩⟩,
    ⟨⟨0, bottom⟩, color, ⟨1, 1⟩⟩,
    ⟨⟨0, bottom⟩, color, ⟨1, 1⟩⟩,
    ⟨⟨x, top⟩, color, ⟨1, 1⟩⟩,
    ⟨⟨x, bottom⟩, color, ⟨1, 1⟩⟩ ]

/-- The `top` of a decoration line: `std::floor(y + offset - thickness / 2 + 0.5f)`. -/
def lineTop (y offset thickness : ℚ) : ℚ :=
  ffloor (fadd (fsub (fadd y offset) (fdiv thickness 2)) (1 / 2))

/-- The `bottom` of a decoration line: `top + std::floor(thickness + 0.5f)`. -/
def lineBottom (top thickness : ℚ) : ℚ :=
  fadd top (ffloor (fadd thickness (1 / 2)))

/-- The six vertices of the quad of a glyph placed at the pen `(x, y)`. -/
def glyphQuad (x y italic : ℚ) (glyph : MyGlyph) (color : Color) : List Vertex :=
  let left := toFloat glyph.bounds.left
  let top := toFloat glyph.bounds.top
  let right := fadd (toFloat glyph.bounds.left) (toFloat glyph.bounds.width)
  let bottom := fadd (toFloat glyph.bounds.top) (toFloat glyph.bounds.height)
  let u1 : ℚ := toFloat (glyph.textureRect.left : ℚ)
  let v1 : ℚ := toFloat (glyph.textureRect.top : ℚ)
  let u2 : ℚ := toFloat ((glyph.textureRect.left + glyph.textureRect.width : Int) : ℚ)
  let v2 : ℚ := toFloat ((glyph.textureRect.top + glyph.textureRect.height : Int) : ℚ)
  [ ⟨⟨fsub (fadd x left) (fmul italic top), fadd y top⟩, color, ⟨u1, v1⟩⟩,
    ⟨⟨fsub (fadd x right) (fmul italic top), fadd y top⟩, color, ⟨u2, v1⟩⟩,
    ⟨⟨fsub (fadd x left) (fmul italic bottom), fadd y bottom⟩, color, ⟨u1, v2⟩⟩,
    ⟨⟨fsub (fadd x left) (fmul italic bottom), fadd y bottom⟩, color, ⟨u1, v2⟩⟩,
    ⟨⟨fsub (fadd x right) (fmul italic top), fadd y top⟩, color, ⟨u2, v1⟩⟩,
    ⟨⟨fsub (fadd x right) (fmul italic bottom), fadd y bottom⟩, color, ⟨u2, v2⟩⟩ ]

/-- The values computed once before the loop of `ensureGeometryUpdate`. -/
structure LayoutVars where
  font : MyFont
  characterSize : Nat
  color : Color
  bold : Bool
  underlined : Bool
  strikeThrough : Bool
  italic : ℚ
  underlineOffset : ℚ
  underlineThickness : ℚ
  strikeThroughOffset : ℚ
  hspace : ℚ
  vspace : ℚ

/-- The precomputation of `ensureGeometryUpdate` (style bits and metrics). -/
def layoutVars (font : MyFont) (t : MyText) : LayoutVars :=
  let bold := (t.m_style &&& Bold) != 0
  let xBounds := (font.getGlyph 120 t.m_characterSize bold).bounds
  { font := font
    characterSize := t.m_characterSize
    color := t.m_color
    bold := bold
    underlined := (t.m_style &&& Underlined) != 0
    strikeThrough := (t.m_style &&& StrikeThrough) != 0
    italic := if (t.m_style &&& Italic) != 0 then toFloat (208 / 1000) else 0
    underlineOffset := toFloat (font.getUnderlinePosition t.m_characterSize)
    underlineThickness := toFloat (font.getUnderlineThickness t.m_characterSize)
    strikeThroughOffset := fadd (toFloat xBounds.top) (fdiv (toFloat xBounds.height) 2)
    hspace := toFloat (font.getGlyph 32 t.m_characterSize bold).advance
    vspace := toFloat (font.getLineSpacing t.m_characterSize) }

/-- The variables that the loop of `ensureGeometryUpdate` updates. -/
structure LayoutState where
  x : ℚ
  y : ℚ
  minX : ℚ
  minY : ℚ
  maxX : ℚ
  maxY : ℚ
  prevChar : Nat
  verticesMap : VertexArrayMap

/-- The values of the loop variables before the first code point. -/
def layoutInit (v : LayoutVars) (m : VertexArrayMap) : LayoutState :=
  { x := 0
    y := toFloat (v.characterSize : ℚ)
    minX := toFloat (v.characterSize : ℚ)
    minY := toFloat (v.characterSize : ℚ)
    maxX := 0
    maxY := 0
    prevChar := 0
    verticesMap := m }

/-- The decoration lines drawn for the current line: the underline block
followed by the strike-through block. -/
def addLines (v : LayoutVars) (x y : ℚ) (m : VertexArrayMap) : VertexArrayMap :=
  let m1 :=
    if v.underlined then
      let top := lineTop y v.underlineOffset v.underlineThickness
      let bottom := lineBottom top v.underlineThickness
      VertexArrayMap.appendAt m 0 (lineQuad x top bottom v.color)
    else m
  if v.strikeThrough then
    let top := lineTop y v.strikeThroughOffset v.underlineThickness
    let bottom := lineBottom top v.underlineThickness
    VertexArrayMap.appendAt m1 0 (lineQuad x top bottom v.color)
  else m1

/-- One iteration of the loop of `ensureGeometryUpdate`. -/
def layoutStep (v : LayoutVars) (s : LayoutState) (curChar : Nat) : LayoutState :=
  let x := fadd s.x (toFloat (v.font.getKerning s.prevChar curChar v.characterSize))
  let m := if curChar = 10 then addLines v x s.y s.verticesMap else s.verticesMap
  if curChar = 32 ∨ curChar = 9 ∨ curChar = 10 then
    let minX := min s.minX x
    let minY := min s.minY s.y
    let x1 := if curChar = 32 then fadd x v.hspace
              else if curChar = 9 then fadd x (fmul v.hspace 4)
              else 0
    let y1 := if curChar = 10 then fadd s.y v.vspace else s.y
    { x := x1
      y := y1
      minX := minX
      minY := minY
      maxX := max s.maxX x1
      maxY := max s.maxY y1
      prevChar := curChar
      verticesMap := m }
  else
    let glyph := v.font.getGlyph curChar v.characterSize v.bold
    let left := toFloat glyph.bounds.left
    let top := toFloat glyph.bounds.top
    let right := fadd (toFloat glyph.bounds.left) (toFloat glyph.bounds.width)
    let bottom := fadd (toFloat glyph.bounds.top) (toFloat glyph.bounds.height)
    { x := fadd x (toFloat glyph.advance)
      y := s.y
      minX := min s.minX (fsub (fadd x left) (fmul v.italic bottom))
      minY := min s.minY (fadd s.y top)
      maxX := max s.maxX (fsub (fadd x right) (fmul v.italic top))
      maxY := max s.maxY (fadd s.y bottom)
      prevChar := curChar
      verticesMap := VertexArrayMap.appendAt m glyph.texture (glyphQuad x s.y v.italic glyph v.color) }

/-- The loop of `ensureGeometryUpdate` over the code points of the string. -/
def layoutLoop (v : LayoutVars) (s : LayoutState) (str : List Nat) : LayoutState :=
  str.foldl (layoutStep v) s

/-- The first loop of the update: every batch is cleared, no entry is removed. -/
def clearAll (m : VertexArrayMap) : VertexArrayMap :=
  m.map (fun e => (e.1, e.2.clear))

/-- The last loop of the update: every batch becomes a list of triangles. -/
def setTriangles (m : VertexArrayMap) : VertexArrayMap :=
  m.map (fun e => (e.1, e.2.setPrimitiveType PrimitiveType.Triangles))

/-- The method `MyText::ensureGeometryUpdate`; `heap` gives the font stored at
an address. -/
def MyText.ensureGeometryUpdate (heap : Nat → MyFont) (t : MyText) : MyText :=
  if !t.m_geometryNeedUpdate then t
  else
    let t1 : MyText :=
      { t with m_geometryNeedUpdate := false
               m_verticesMap := clearAll t.m_verticesMap
               m_bounds := FloatRect.zero }
    if t.m_font = 0 then t1
    else if t.m_string.isEmpty then t1
    else
      let v := layoutVars (heap t.m_font) t
      let s := layoutLoop v (layoutInit v t1.m_verticesMap) t.m_string
      let m := addLines v s.x s.y s.verticesMap
      { t1 with m_verticesMap := setTriangles m
                m_bounds := ⟨s.minX, s.minY, fsub s.maxX s.minX, fsub s.maxY s.minY⟩ }

/-- The method `MyText::getLocalBounds`: the rectangle returned and the object
after the call (the cache members are `mutable`). -/
def MyText.getLocalBounds (heap : Nat → MyFont) (t : MyText) : FloatRect × MyText :=
  let t1 := t.ensureGeometryUpdate heap
  (t1.m_bounds, t1)

/-! ## The caret position -/

/-- One iteration of the loop of `findCharacterPos` on the pair
(position, previous code point). -/
def caretStep (font : MyFont) (characterSize : Nat) (bold : Bool) (hspace vspace : ℚ)
    (s : Vector2f × Nat) (curChar : Nat) : Vector2f × Nat :=
  let x := fadd s.1.x (toFloat (font.getKerning s.2 curChar characterSize))
  if curChar = 32 then (⟨fadd x hspace, s.1.y⟩, curChar)
  else if curChar = 9 then (⟨fadd x (fmul hspace 4), s.1.y⟩, curChar)
  else if curChar = 10 then (⟨0, fadd s.1.y vspace⟩, curChar)
  else (⟨fadd x (toFloat (font.getGlyph curChar characterSize bold).advance), s.1.y⟩, curChar)

/-- The method `MyText::findCharacterPos`; `tr` is the transform returned by
`getTransform()`. -/
def MyText.findCharacterPos (heap : Nat → MyFont) (tr : Transform) (t : MyText)
    (index : Nat) : Vector2f :=
  if t.m_font = 0 then ⟨0, 0⟩
  else
    let index := if index > t.m_string.length then t.m_string.length else index
    let font := heap t.m_font
    let bold := (t.m_style &&& Bold) != 0
    let hspace := toFloat (font.getGlyph 32 t.m_characterSize bold).advance
    let vspace := toFloat (font.getLineSpacing t.m_characterSize)
    let s := (t.m_string.take index).foldl
      (caretStep font t.m_characterSize bold hspace vspace) (⟨0, 0⟩, 0)
    tr.transformPoint s.1

/-! ## The framebuffer backend (src/SFML/Graphics/RenderTextureImplFBO.cpp) -/

/-- The GL entry points called by `RenderTextureImplFBO::create`, with the
arguments that vary. -/
inductive GLCall where
  | GenFramebuffers
  | BindFramebuffer (framebuffer : Nat)
  | GenRenderbuffers
  | BindRenderbuffer (renderbuffer : Nat)
  | RenderbufferStorage (width height : Nat)
  | FramebufferRenderbuffer (renderbuffer : Nat)
  | FramebufferTexture2D (texture level : Nat)
  | CheckFramebufferStatus
deriving DecidableEq

/-- The part of the state of the GL context that `create` acts on: the bound
framebuffer and renderbuffer, and the calls issued so far (oldest first). -/
structure GLState where
  boundFramebuffer : Nat
  boundRenderbuffer : Nat
  calls : List GLCall
deriving DecidableEq

/-- The answers of the GL driver: the handle written by `glGenFramebuffers`
and by `glGenRenderbuffers` (`0` when none is produced) and the value of
`glCheckFramebufferStatus`, each as a function of the state of the context. -/
structure GLDriver where
  genFramebuffer : GLState → Nat
  genRenderbuffer : GLState → Nat
  checkFramebufferStatus : GLState → Nat

/-- The constant `GLEXT_GL_FRAMEBUFFER_COMPLETE` (0x8CD5). -/
def GLEXT_GL_FRAMEBUFFER_COMPLETE : Nat := 0x8CD5

/-- The call `glGenFramebuffers(1, &frameBuffer)`: the handle and the state. -/
def glGenFramebuffers (d : GLDriver) (gl : GLState) : Nat × GLState :=
  (d.genFramebuffer gl, { gl with calls := gl.calls ++ [GLCall.GenFramebuffers] })

/-- The call `glBindFramebuffer(GL_FRAMEBUFFER, framebuffer)`. -/
def glBindFramebuffer (gl : GLState) (framebuffer : Nat) : GLState :=
  { gl with boundFramebuffer := framebuffer
            calls := gl.calls ++ [GLCall.BindFramebuffer framebuffer] }

/-- The call `glGenRenderbuffers(1, &depth)`: the handle and the state. -/
def glGenRenderbuffers (d : GLDriver) (gl : GLState) : Nat × GLState :=
  (d.genRenderbuffer gl, { gl with calls := gl.calls ++ [GLCall.GenRenderbuffers] })

/-- The call `glBindRenderbuffer(GL_RENDERBUFFER, renderbuffer)`. -/
def glBindRenderbuffer (gl : GLState) (renderbuffer : Nat) : GLState :=
  { gl with boundRenderbuffer := renderbuffer
            calls := gl.calls ++ [GLCall.BindRenderbuffer renderbuffer] }

/-- The call `glRenderbufferStorage(GL_RENDERBUFFER, GL_DEPTH_COMPONENT, width, height)`. -/
def glRenderbufferStorage (gl : GLState) (width height : Nat) : GLState :=
  { gl with calls := gl.calls ++ [GLCall.RenderbufferStorage width height] }

/-- The call `glFramebufferRenderbuffer(GL_FRAMEBUFFER, GL_DEPTH_ATTACHMENT,
GL_RENDERBUFFER, renderbuffer)`. -/
def glFramebufferRenderbuffer (gl : GLState) (renderbuffer : Nat) : GLState :=
  { gl with calls := gl.calls ++ [GLCall.FramebufferRenderbuffer renderbuffer] }

/-- The call `glFramebufferTexture2D(GL_FRAMEBUFFER, GL_COLOR_ATTACHMENT0,
GL_TEXTURE_2D, texture, level)`. -/
def glFramebufferTexture2D (gl : GLState) (texture level : Nat) : GLState :=
  { gl with calls := gl.calls ++ [GLCall.FramebufferTexture2D texture level] }

/-- The call `glCheckFramebufferStatus(GL_FRAMEBUFFER)`: the status and the state. -/
def glCheckFramebufferStatus (d : GLDriver) (gl : GLState) : Nat × GLState :=
  (d.checkFramebufferStatus gl,
    { gl with calls := gl.calls ++ [GLCall.CheckFramebufferStatus] })

/-- The messages that `create` writes to `err()`. -/
inductive CreateError where
  | failedFrameBufferObject
  | failedDepthBuffer
  | failedLinkTexture
deriving DecidableEq

/-- The members of `priv::RenderTextureImplFBO`; `m_context` tells whether the
context object has been allocated. -/
structure priv.RenderTextureImplFBO where
  m_context : Bool
  m_frameBuffer : Nat
  m_depthBuffer : Nat
deriving DecidableEq

/-- The constructor `RenderTextureImplFBO::RenderTextureImplFBO()`. -/
def priv.RenderTextureImplFBO.mk0 : priv.RenderTextureImplFBO := ⟨false, 0, 0⟩

/-- What a call of `create` leaves: the value returned, the object, the state
of the GL context and the messages written to `err()`. -/
structure CreateOutcome where
  result : Bool
  self : priv.RenderTextureImplFBO
  gl : GLState
  err : List CreateError

/-- The tail of `create`: the texture is linked to the framebuffer and the
completeness is checked. -/
def priv.RenderTextureImplFBO.linkAndCheck (d : GLDriver) (self : priv.RenderTextureImplFBO)
    (gl : GLState) (textureId : Nat) : CreateOutcome :=
  let gl1 := glFramebufferTexture2D gl textureId 0
  let r := glCheckFramebufferStatus d gl1
  if r.1 ≠ GLEXT_GL_FRAMEBUFFER_COMPLETE then
    ⟨false, self, glBindFramebuffer r.2 0, [CreateError.failedLinkTexture]⟩
  else
    ⟨true, self, r.2, []⟩

/-- The method `RenderTextureImplFBO::create`.  The macro `glCheck` runs the
call (and reports a GL error in debug builds), it does not change the flow. -/
def priv.RenderTextureImplFBO.create (d : GLDriver) (self : priv.RenderTextureImplFBO)
    (gl : GLState) (width height textureId : Nat) (depthBuffer : Bool) : CreateOutcome :=
  let self1 := { self with m_context := true }
  let r1 := glGenFramebuffers d gl
  let self2 := { self1 with m_frameBuffer := r1.1 }
  if self2.m_frameBuffer = 0 then
    ⟨false, self2, r1.2, [CreateError.failedFrameBufferObject]⟩
  else
    let gl2 := glBindFramebuffer r1.2 self2.m_frameBuffer
    if depthBuffer then
      let r2 := glGenRenderbuffers d gl2
      let self3 := { self2 with m_depthBuffer := r2.1 }
      if self3.m_depthBuffer = 0 then
        ⟨false, self3, r2.2, [CreateError.failedDepthBuffer]⟩
      else
        let gl3 := glBindRenderbuffer r2.2 self3.m_depthBuffer
        let gl4 := glRenderbufferStorage gl3 width height
        let gl5 := glFramebufferRenderbuffer gl4 self3.m_depthBuffer
        priv.RenderTextureImplFBO.linkAndCheck d self3 gl5 textureId
    else
      priv.RenderTextureImplFBO.linkAndCheck d self2 gl2 textureId

/-! ## Reachable states and test data -/

/-- The states of a text object that a program can produce: a constructor
followed by setters and geometry updates (`getLocalBounds` and `draw` change
the object only through `ensureGeometryUpdate`). -/
inductive Reachable (heap : Nat → MyFont) : MyText → Prop where
  | mk0 : Reachable heap MyText.mk0
  | mk3 (string : List Nat) (font characterSize : Nat) :
      Reachable heap (MyText.mk3 string font characterSize)
  | setString {t : MyText} (string : List Nat) :
      Reachable heap t → Reachable heap (t.setString string)
  | setFont {t : MyText} (font : Nat) :
      Reachable heap t → Reachable heap (t.setFont font)
  | setCharacterSize {t : MyText} (size : Nat) :
      Reachable heap t → Reachable heap (t.setCharacterSize size)
  | setStyle {t : MyText} (style : Nat) :
      Reachable heap t → Reachable heap (t.setStyle style)
  | setColor {t : MyText} (color : Color) :
      Reachable heap t → Reachable heap (t.setColor color)
  | ensureGeometryUpdate {t : MyText} :
      Reachable heap t → Reachable heap (t.ensureGeometryUpdate heap)

/-- A monospace test font: advance 10, no kerning, line spacing 24, every
glyph on the texture at address 7. -/
def monoFont : MyFont :=
  { getGlyph := fun _ _ _ => ⟨10, ⟨1, -14, 8, 14⟩, ⟨0, 0, 8, 14⟩, 7⟩
    getKerning := fun _ _ _ => 0
    getLineSpacing := fun _ => 24
    getUnderlinePosition := fun _ => 2
    getUnderlineThickness := fun _ => 1 }

/-- A heap holding the test font at every address. -/
def monoHeap : Nat → MyFont := fun _ => monoFont

/-- A test font with one glyph for every code point: the advance, the glyph
bounds, the atlas rectangle, the line spacing and the underline metrics are
parameters; no kerning, every glyph on the texture at address 7. -/
def uniformFont (advance : ℚ) (bounds : FloatRect) (textureRect : IntRect)
    (lineSpacing underlinePosition underlineThickness : ℚ) : MyFont :=
  { getGlyph := fun _ _ _ => ⟨advance, bounds, textureRect, 7⟩
    getKerning := fun _ _ _ => 0
    getLineSpacing := fun _ => lineSpacing
    getUnderlinePosition := fun _ => underlinePosition
    getUnderlineThickness := fun _ => underlineThickness }

/-- A heap of fonts whose advance and line spacing are the `float` nearest to
0.1, that is 13421773 / 2 ^ 27. -/
def tenthHeap : Nat → MyFont :=
  fun _ => uniformFont (13421773 / 134217728) ⟨0, 0, 1, 1⟩ ⟨0, 0, 8, 14⟩
    (13421773 / 134217728) 2 1

/-- A heap of fonts whose advance is the `float` nearest to 0.3, that is
5033165 / 2 ^ 24. -/
def threeTenthsHeap : Nat → MyFont :=
  fun _ => uniformFont (5033165 / 16777216) ⟨0, 0, 1, 1⟩ ⟨0, 0, 8, 14⟩ 24 2 1

/-- A heap of fonts with the metrics of the monospace test font and the
underline thickness 16777215 / 2 ^ 25, the `float` just below 0.5. -/
def thinLineHeap : Nat → MyFont :=
  fun _ => uniformFont 10 ⟨1, -14, 8, 14⟩ ⟨0, 0, 8, 14⟩ 24 2 (16777215 / 33554432)

/-- A heap of fonts with the metrics of the monospace test font and the
underline position 16777215 / 2 ^ 24, the `float` just below 1. -/
def lowLineHeap : Nat → MyFont :=
  fun _ => uniformFont 10 ⟨1, -14, 8, 14⟩ ⟨0, 0, 8, 14⟩ 24 (16777215 / 16777216) 1

/-- A heap of fonts whose glyph bounds are the segment at `left = -1` of
height 1 and width 0. -/
def leftBoxHeap : Nat → MyFont :=
  fun _ => uniformFont 1 ⟨-1, 0, 0, 1⟩ ⟨0, 0, 8, 14⟩ 24 2 1

/-- A laid out "A" in the test font: a fresh cache with one glyph batch. -/
def laidOutA : MyText := (MyText.mk3 [65] 1 20).ensureGeometryUpdate monoHeap

/-- The state of a new context: nothing bound, no call issued. -/
def GLState.initial : GLState := ⟨0, 0, []⟩

/-- A test driver: framebuffer handle 1, renderbuffer handle 2, and a
framebuffer is complete unless the texture 0 has been attached to it. -/
def testDriver : GLDriver :=
  { genFramebuffer := fun _ => 1
    genRenderbuffer := fun _ => 2
    checkFramebufferStatus := fun gl =>
      if GLCall.FramebufferTexture2D 0 0 ∈ gl.calls then 0x8CD6
      else GLEXT_GL_FRAMEBUFFER_COMPLETE }

/-- A test driver that produces no framebuffer. -/
def nullDriver : GLDriver :=
  { genFramebuffer := fun _ => 0
    genRenderbuffer := fun _ => 2
    checkFramebufferStatus := fun _ => GLEXT_GL_FRAMEBUFFER_COMPLETE }

/-! ## Predicates and measures used in the statements -/

/-- Every batch of the map is empty. -/
def AllEmpty (m : VertexArrayMap) : Prop := ∀ e ∈ m, e.2.getVertexCount = 0

/-- Every vertex of the map has the colour `c`. -/
def AllColor (c : Color) (m : VertexArrayMap) : Prop :=
  ∀ e ∈ m, ∀ v ∈ e.2.m_vertices, v.color = c

/-- The geometry of a map without the colours: per batch, the key and the
positions and texture coordinates of the vertices. -/
def geometryOf (m : VertexArrayMap) : List (Nat × List (Vector2f × Vector2f)) :=
  m.map (fun e => (e.1, e.2.m_vertices.map (fun v => (v.position, v.texCoords))))

/-- The advance of the glyph of a code point for the size and weight of a text. -/
def advanceOf (heap : Nat → MyFont) (t : MyText) (c : Nat) : ℚ :=
  ((heap t.m_font).getGlyph c t.m_characterSize ((t.m_style &&& Bold) != 0)).advance

/-- The sum of a list of provider values accumulated in `float` from left to
right, starting from 0: every addition is rounded. -/
def floatSum (l : List ℚ) : ℚ := l.foldl (fun acc a => fadd acc (toFloat a)) 0

/-- The number of decoration lines per text line: one for each of the styles
`Underlined` and `StrikeThrough` that is set. -/
def decorationCount (style : Nat) : Nat :=
  (if (style &&& Underlined) != 0 then 1 else 0) +
    (if (style &&& StrikeThrough) != 0 then 1 else 0)

/-- The same number read from the precomputed flags. -/
def LayoutVars.decorations (v : LayoutVars) : Nat :=
  (if v.underlined then 1 else 0) + (if v.strikeThrough then 1 else 0)

/-- A code point that is not a space, a tab or a newline. -/
def isRegular (c : Nat) : Bool := decide (c ≠ 32 ∧ c ≠ 9 ∧ c ≠ 10)

/-- Number of regular code points of a string. -/
def regularCount (str : List Nat) : Nat := str.countP isRegular

/-- Number of regular code points of a string whose glyph is on texture `key`. -/
def regularCountOn (font : MyFont) (size : Nat) (bold : Bool) (key : Nat)
    (str : List Nat) : Nat :=
  str.countP (fun c => isRegular c && decide ((font.getGlyph c size bold).texture = key))

/-- With a fresh cache and no font or no text, the cache holds nothing. -/
def EmptyWhenNothing (t : MyText) : Prop :=
  t.m_geometryNeedUpdate = false → (t.m_font = 0 ∨ t.m_string = []) →
    t.m_bounds = FloatRect.zero ∧ AllEmpty t.m_verticesMap

/-- With a fresh cache, every cached vertex has the colour of the text. -/
def ColorCoherent (t : MyText) : Prop :=
  t.m_geometryNeedUpdate = false → AllColor t.m_color t.m_verticesMap

/-- The object with its geometry marked stale and nothing else changed. -/
def MyText.markStale (t : MyText) : MyText := { t with m_geometryNeedUpdate := true }

/-- The framebuffer handle that the driver gives to `create`. -/
def createFramebufferHandle (d : GLDriver) (gl : GLState) : Nat :=
  (glGenFramebuffers d gl).1

/-- The state of the context after `create` has bound its framebuffer. -/
def createStateBound (d : GLDriver) (gl : GLState) : GLState :=
  glBindFramebuffer (glGenFramebuffers d gl).2 (createFramebufferHandle d gl)

/-- The depth renderbuffer handle that the driver gives to `create`. -/
def createDepthHandle (d : GLDriver) (gl : GLState) : Nat :=
  (glGenRenderbuffers d (createStateBound d gl)).1

/-- The state of the context when `create` links the texture. -/
def createStateBeforeLink (d : GLDriver) (gl : GLState) (width height : Nat)
    (depthBuffer : Bool) : GLState :=
  if depthBuffer then
    glFramebufferRenderbuffer
      (glRenderbufferStorage
        (glBindRenderbuffer (glGenRenderbuffers d (createStateBound d gl)).2
          (createDepthHandle d gl)) width height)
      (createDepthHandle d gl)
  else createStateBound d gl

/-- The completeness status that the driver reports to `create`. -/
def createStatus (d : GLDriver) (gl : GLState) (width height textureId : Nat)
    (depthBuffer : Bool) : Nat :=
  (glCheckFramebufferStatus d
    (glFramebufferTexture2D (createStateBeforeLink d gl width height depthBuffer)
      textureId 0)).1

/-- The top of a decoration band in the words of the specification:
`floor(y + offset - thickness/2 + 0.5)`. -/
def bandTop (y offset thickness : ℚ) : ℚ :=
  ((⌊y + offset - thickness / 2 + 1 / 2⌋ : ℤ) : ℚ)

/-- The bottom of a decoration band in the words of the specification:
`floor(top + thickness + 0.5)`. -/
def bandBottom (top thickness : ℚ) : ℚ :=
  ((⌊top + thickness + 1 / 2⌋ : ℤ) : ℚ)

/-- The decoration quad of the specification for the pen `(x, y)`: two
triangles over the rectangle from `x = 0` to `x` between the band limits. -/
def bandQuad (x y offset thickness : ℚ) (color : Color) : List Vertex :=
  lineQuad x (bandTop y offset thickness)
    (bandBottom (bandTop y offset thickness) thickness) color

/-- The decoration lines of the specification for a line closed at the pen
`(x, y)`: the underline band if `Underlined` is set, then the strike-through
band if `StrikeThrough` is set, both in the no-texture batch. -/
def bandLines (v : LayoutVars) (x y : ℚ) (m : VertexArrayMap) : VertexArrayMap :=
  let m1 :=
    if v.underlined then
      VertexArrayMap.appendAt m 0 (bandQuad x y v.underlineOffset v.underlineThickness v.color)
    else m
  if v.strikeThrough then
    VertexArrayMap.appendAt m1 0
      (bandQuad x y v.strikeThroughOffset v.underlineThickness v.color)
  else m1

/-- The top of a decoration band with the operations of the specification
carried out in `float`, each one rounded:
`floor(((y + offset) - thickness / 2) + 0.5)`. -/
def bandTopRounded (y offset thickness : ℚ) : ℚ :=
  ffloor (fadd (fsub (fadd y offset) (fdiv thickness 2)) (1 / 2))

/-- The bottom of a decoration band in `float`: the top plus the rounded
thickness, `top + floor(thickness + 0.5)`, each addition rounded. -/
def bandBottomRounded (top thickness : ℚ) : ℚ :=
  fadd top (ffloor (fadd thickness (1 / 2)))

/-- The decoration quad for the pen `(x, y)` with the band limits computed in
`float`: two triangles over the rectangle from `x = 0` to `x`. -/
def bandQuadRounded (x y offset thickness : ℚ) (color : Color) : List Vertex :=
  lineQuad x (bandTopRounded y offset thickness)
    (bandBottomRounded (bandTopRounded y offset thickness) thickness) color

/-- The decoration lines for a line closed at the pen `(x, y)`, with the band
limits computed in `float`: the underline band if `Underlined` is set, then
the strike-through band if `StrikeThrough` is set, both in the no-texture
batch. -/
def bandLinesRounded (v : LayoutVars) (x y : ℚ) (m : VertexArrayMap) : VertexArrayMap :=
  let m1 :=
    if v.underlined then
      VertexArrayMap.appendAt m 0
        (bandQuadRounded x y v.underlineOffset v.underlineThickness v.color)
    else m
  if v.strikeThrough then
    VertexArrayMap.appendAt m1 0
      (bandQuadRounded x y v.strikeThroughOffset v.underlineThickness v.color)
  else m1

/-- The loop variables when the loop of the update ends. -/
def layoutResult (heap : Nat → MyFont) (t : MyText) : LayoutState :=
  layoutLoop (layoutVars (heap t.m_font) t)
    (layoutInit (layoutVars (heap t.m_font) t) (clearAll t.m_verticesMap)) t.m_string

/-- The vertices stored under a key (none when the key is missing). -/
def VertexArrayMap.verticesAt (m : VertexArrayMap) (key : Nat) : List Vertex :=
  match VertexArrayMap.find m key with
  | none => []
  | some va => va.m_vertices

/-- The text with the same content, font, size, style and colour, an empty
cache and the geometry marked stale: the object before its first layout. -/
def freshText (t : MyText) : MyText :=
  { t with m_verticesMap := [], m_bounds := FloatRect.zero, m_geometryNeedUpdate := true }

/-- The layout of the current content, font, size, style and colour on an
empty cache. -/
def freshLayout (heap : Nat → MyFont) (t : MyText) : MyText :=
  (freshText t).ensureGeometryUpdate heap

/-- Two batch maps hold the same vertices under every key. -/
def SameBatches (m m1 : VertexArrayMap) : Prop :=
  ∀ key : Nat, VertexArrayMap.verticesAt m key = VertexArrayMap.verticesAt m1 key

/-- The batches of `m1` are the batches of `m` with every vertex in colour `c`. -/
def RecoloredBatches (c : Color) (m m1 : VertexArrayMap) : Prop :=
  ∀ key : Nat, VertexArrayMap.verticesAt m1 key =
    (VertexArrayMap.verticesAt m key).map (fun v => { v with color := c })

/-- With a fresh cache, the bounds and the batches are those of a layout of
the current attributes on an empty cache. -/
def CacheCoherent (heap : Nat → MyFont) (t : MyText) : Prop :=
  t.m_geometryNeedUpdate = false →
    t.m_bounds = (freshLayout heap t).m_bounds ∧
      SameBatches t.m_verticesMap (freshLayout heap t).m_verticesMap

/-- The rectangle `outer` contains the rectangle `r`: its left and top are not
greater, its right and bottom edges are not smaller. -/
def rectContains (outer r : FloatRect) : Prop :=
  outer.left ≤ r.left ∧ outer.top ≤ r.top ∧
    r.left + r.width ≤ outer.left + outer.width ∧
    r.top + r.height ≤ outer.top + outer.height

/-- The rectangle `outer` extends the rectangle `r`: its left and top are not
greater, its width and height are not smaller. -/
def rectExtends (outer r : FloatRect) : Prop :=
  outer.left ≤ r.left ∧ outer.top ≤ r.top ∧ r.width ≤ outer.width ∧ r.height ≤ outer.height

/-- The ordinate after `n` line feeds from `y`: the line spacing added `n`
times in `float`. -/
def lineFeeds (vspace : ℚ) : Nat → ℚ → ℚ
  | 0, y => y
  | n + 1, y => lineFeeds vspace n (fadd y vspace)

/-! ## Auxiliary definitions of the proofs -/

/-- The pen abscissa after the kerning of the current code point is applied. -/
def kernedX (v : LayoutVars) (s : LayoutState) (curChar : Nat) : ℚ :=
  fadd s.x (toFloat (v.font.getKerning s.prevChar curChar v.characterSize))

/-- The object after the clearing prologue of the update. -/
def clearedText (t : MyText) : MyText :=
  { t with m_geometryNeedUpdate := false
           m_verticesMap := clearAll t.m_verticesMap
           m_bounds := FloatRect.zero }

/-- The loop variables with another batch map. -/
def LayoutState.withMap (s : LayoutState) (m : VertexArrayMap) : LayoutState :=
  { s with verticesMap := m }

/-- The batch map that the update stores, from the cleared map `m`. -/
def laidOutMap (v : LayoutVars) (str : List Nat) (m : VertexArrayMap) : VertexArrayMap :=
  setTriangles (addLines v (layoutLoop v (layoutInit v m) str).x
    (layoutLoop v (layoutInit v m) str).y (layoutLoop v (layoutInit v m) str).verticesMap)

/-- The bounds that the update stores, from the cleared map `m`. -/
def laidOutBounds (v : LayoutVars) (str : List Nat) (m : VertexArrayMap) : FloatRect :=
  ⟨(layoutLoop v (layoutInit v m) str).minX, (layoutLoop v (layoutInit v m) str).minY,
    fsub (layoutLoop v (layoutInit v m) str).maxX (layoutLoop v (layoutInit v m) str).minX,
    fsub (layoutLoop v (layoutInit v m) str).maxY (layoutLoop v (layoutInit v m) str).minY⟩

/-- A batch map without the primitive kinds: keys and vertex lists. -/
abbrev PlainMap := List (Nat × List Vertex)

/-- Forget the primitive kinds of the batches. -/
def plainOf (m : VertexArrayMap) : PlainMap := m.map (fun e => (e.1, e.2.m_vertices))

/-- The counterpart of `VertexArrayMap.appendAt` on plain maps. -/
def plainAppendAt (m : PlainMap) (key : Nat) (vs : List Vertex) : PlainMap :=
  match m with
  | [] => [(key, vs)]
  | (k, l) :: rest =>
    if k = key then (k, l ++ vs) :: rest else (k, l) :: plainAppendAt rest key vs

/-- A plain map with the given keys and empty batches. -/
def blank (ks : List Nat) : PlainMap := ks.map (fun k => (k, []))

/-- A run of `appendAt` operations, in order. -/
def applyEvents (evs : List (Nat × List Vertex)) (m : VertexArrayMap) : VertexArrayMap :=
  evs.foldl (fun acc e => VertexArrayMap.appendAt acc e.1 e.2) m

/-- A run of `plainAppendAt` operations, in order. -/
def plainApply (evs : List (Nat × List Vertex)) (m : PlainMap) : PlainMap :=
  evs.foldl (fun acc e => plainAppendAt acc e.1 e.2) m

/-- The pair (position, previous code point) of the loop of `findCharacterPos`
after the code points of `str`. -/
def caretLoop (heap : Nat → MyFont) (t : MyText) (str : List Nat) : Vector2f × Nat :=
  str.foldl
    (caretStep (heap t.m_font) t.m_characterSize ((t.m_style &&& Bold) != 0)
      (toFloat (advanceOf heap t 32))
      (toFloat ((heap t.m_font).getLineSpacing t.m_characterSize)))
    (⟨0, 0⟩, 0)

/-- The running box of `s` is inside the running box of `s1`. -/
def boxLe (s s1 : LayoutState) : Prop :=
  s1.minX ≤ s.minX ∧ s.maxX ≤ s1.maxX ∧ s1.minY ≤ s.minY ∧ s.maxY ≤ s1.maxY

theorem pow2_eq (e : ℤ) : pow2 e = (2 : ℚ) ^ e := by
  unfold pow2
  split
  · rename_i h
    have h1 := Int.toNat_of_nonneg h
    have h2 : (2 : ℚ) ^ e = (2 : ℚ) ^ ((e.toNat : ℤ)) := by rw [h1]
    rw [h2, zpow_natCast]
    push_cast
    rfl
  · rename_i h
    have h' : 0 ≤ -e := by omega
    have h1 := Int.toNat_of_nonneg h'
    have h2 : (2 : ℚ) ^ e = ((2 : ℚ) ^ (((-e).toNat : ℤ)))⁻¹ := by
      rw [h1, zpow_neg, inv_inv]
    rw [h2, zpow_natCast]
    push_cast
    rw [one_div]

theorem log2Fuel_spec : ∀ (f n : ℕ), n ≤ f → n ≠ 0 →
    2 ^ log2Fuel f n ≤ n ∧ n < 2 ^ (log2Fuel f n + 1) := by
  intro f
  induction f with
  | zero =>
    intro n hn h0
    exact absurd (Nat.le_zero.1 hn) h0
  | succ f ih =>
    intro n hn h0
    unfold log2Fuel
    by_cases h2 : n < 2
    · have h1 : n = 1 := by omega
      subst h1
      simp
    · simp only [h2, if_false]
      have hle : n / 2 ≤ f := by omega
      have hne : n / 2 ≠ 0 := by omega
      obtain ⟨i1, i2⟩ := ih (n / 2) hle hne
      constructor
      · have : 2 ^ log2Fuel f (n / 2) * 2 ≤ n := by omega
        rw [pow_succ]
        exact this
      · have : n < 2 ^ (log2Fuel f (n / 2) + 1) * 2 := by omega
        rw [pow_succ]
        exact this

theorem natLog2_spec (n : ℕ) (h : n ≠ 0) :
    2 ^ natLog2 n ≤ n ∧ n < 2 ^ (natLog2 n + 1) :=
  log2Fuel_spec n n (le_refl n) h

theorem two_zpow_pos (e : ℤ) : (0 : ℚ) < (2 : ℚ) ^ e := zpow_pos (by norm_num) e

theorem two_zpow_lt {m n : ℤ} (h : (2 : ℚ) ^ m < (2 : ℚ) ^ n) : m < n :=
  (zpow_lt_zpow_iff_right₀ (by norm_num : (1 : ℚ) < 2)).1 h

theorem two_zpow_le_of_le {m n : ℤ} (h : m ≤ n) : (2 : ℚ) ^ m ≤ (2 : ℚ) ^ n :=
  zpow_le_zpow_right₀ (by norm_num) h

theorem expo2_spec (q : ℚ) (hq : 0 < q) :
    (2 : ℚ) ^ expo2 q ≤ q ∧ q < (2 : ℚ) ^ (expo2 q + 1) := by
  have hnum : 0 < q.num := Rat.num_pos.2 hq
  have hnat : (q.num.natAbs : ℤ) = q.num := Int.natAbs_of_nonneg hnum.le
  have hn0 : q.num.natAbs ≠ 0 := by
    intro h
    rw [h] at hnat
    omega
  have hd0 : q.den ≠ 0 := q.den_nz
  obtain ⟨a1, a2⟩ := natLog2_spec q.num.natAbs hn0
  obtain ⟨b1, b2⟩ := natLog2_spec q.den hd0
  have hqeq : q = (q.num.natAbs : ℚ) / (q.den : ℚ) := by
    have h1 : ((q.num.natAbs : ℤ) : ℚ) = (q.num : ℚ) := by rw [hnat]
    have h2 : ((q.num.natAbs : ℤ) : ℚ) = (q.num.natAbs : ℚ) := Int.cast_natCast _
    rw [← h2, h1, Rat.num_div_den]
  have hdpos : (0 : ℚ) < (q.den : ℚ) := by exact_mod_cast Nat.pos_of_ne_zero hd0
  have A1 : (2 : ℚ) ^ (natLog2 q.num.natAbs : ℤ) ≤ (q.num.natAbs : ℚ) := by
    rw [zpow_natCast]; exact_mod_cast a1
  have A2 : (q.num.natAbs : ℚ) < (2 : ℚ) ^ ((natLog2 q.num.natAbs : ℤ) + 1) := by
    have : ((natLog2 q.num.natAbs : ℤ) + 1) = ((natLog2 q.num.natAbs + 1 : ℕ) : ℤ) := by
      push_cast; rfl
    rw [this, zpow_natCast]; exact_mod_cast a2
  have B1 : (2 : ℚ) ^ (natLog2 q.den : ℤ) ≤ (q.den : ℚ) := by
    rw [zpow_natCast]; exact_mod_cast b1
  have B2 : (q.den : ℚ) < (2 : ℚ) ^ ((natLog2 q.den : ℤ) + 1) := by
    have : ((natLog2 q.den : ℤ) + 1) = ((natLog2 q.den + 1 : ℕ) : ℤ) := by
      push_cast; rfl
    rw [this, zpow_natCast]; exact_mod_cast b2
  have two_ne : (2 : ℚ) ≠ 0 := by norm_num
  have U0 : (q.num.natAbs : ℚ) / (q.den : ℚ) <
      (2 : ℚ) ^ ((natLog2 q.num.natAbs : ℤ) - (natLog2 q.den : ℤ) + 1) := by
    have e1 : ((natLog2 q.num.natAbs : ℤ) - (natLog2 q.den : ℤ) + 1) =
        ((natLog2 q.num.natAbs : ℤ) + 1) - (natLog2 q.den : ℤ) := by ring
    rw [e1, zpow_sub₀ two_ne, div_lt_div_iff₀ hdpos (two_zpow_pos _)]
    calc (q.num.natAbs : ℚ) * (2 : ℚ) ^ (natLog2 q.den : ℤ)
        ≤ (q.num.natAbs : ℚ) * (q.den : ℚ) :=
          mul_le_mul_of_nonneg_left B1 (by positivity)
      _ < (2 : ℚ) ^ ((natLog2 q.num.natAbs : ℤ) + 1) * (q.den : ℚ) :=
          mul_lt_mul_of_pos_right A2 hdpos
  have U : q < (2 : ℚ) ^ ((natLog2 q.num.natAbs : ℤ) - (natLog2 q.den : ℤ) + 1) :=
    lt_of_eq_of_lt hqeq U0
  have L0 : (2 : ℚ) ^ ((natLog2 q.num.natAbs : ℤ) - (natLog2 q.den : ℤ) - 1) ≤
      (q.num.natAbs : ℚ) / (q.den : ℚ) := by
    have e1 : ((natLog2 q.num.natAbs : ℤ) - (natLog2 q.den : ℤ) - 1) =
        (natLog2 q.num.natAbs : ℤ) - ((natLog2 q.den : ℤ) + 1) := by ring
    rw [e1, zpow_sub₀ two_ne, div_le_div_iff₀ (two_zpow_pos _) hdpos]
    calc (2 : ℚ) ^ (natLog2 q.num.natAbs : ℤ) * (q.den : ℚ)
        ≤ (q.num.natAbs : ℚ) * (q.den : ℚ) :=
          mul_le_mul_of_nonneg_right A1 hdpos.le
      _ ≤ (q.num.natAbs : ℚ) * (2 : ℚ) ^ ((natLog2 q.den : ℤ) + 1) :=
          mul_le_mul_of_nonneg_left B2.le (by positivity)
  have L : (2 : ℚ) ^ ((natLog2 q.num.natAbs : ℤ) - (natLog2 q.den : ℤ) - 1) ≤ q :=
    le_of_le_of_eq L0 hqeq.symm
  unfold expo2
  rw [pow2_eq]
  split
  · rename_i h
    exact ⟨h, U⟩
  · rename_i h
    refine ⟨L, ?_⟩
    have e1 : ((natLog2 q.num.natAbs : ℤ) - (natLog2 q.den : ℤ) - 1 + 1) =
        (natLog2 q.num.natAbs : ℤ) - (natLog2 q.den : ℤ) := by ring
    rw [e1]
    exact not_le.1 h

theorem expo2_unique (q : ℚ) (hq : 0 < q) (E : ℤ) (h1 : (2 : ℚ) ^ E ≤ q)
    (h2 : q < (2 : ℚ) ^ (E + 1)) : expo2 q = E := by
  obtain ⟨s1, s2⟩ := expo2_spec q hq
  have a : expo2 q < E + 1 := two_zpow_lt (lt_of_le_of_lt s1 h2)
  have b : E < expo2 q + 1 := two_zpow_lt (lt_of_le_of_lt h1 s2)
  omega

theorem expo2_mono {a b : ℚ} (ha : 0 < a) (hab : a ≤ b) : expo2 a ≤ expo2 b := by
  obtain ⟨s1, _⟩ := expo2_spec a ha
  obtain ⟨_, t2⟩ := expo2_spec b (lt_of_lt_of_le ha hab)
  have : expo2 a < expo2 b + 1 := two_zpow_lt (lt_of_le_of_lt (le_trans s1 hab) t2)
  omega

theorem roundHalfEven_intCast (n : ℤ) : roundHalfEven (n : ℚ) = n := by
  unfold roundHalfEven
  simp

theorem roundHalfEven_bounds (q : ℚ) :
    ⌊q⌋ ≤ roundHalfEven q ∧ roundHalfEven q ≤ ⌊q⌋ + 1 := by
  unfold roundHalfEven
  split_ifs <;> constructor <;> omega

theorem roundHalfEven_mono {a b : ℚ} (h : a ≤ b) : roundHalfEven a ≤ roundHalfEven b := by
  have hfl : ⌊a⌋ ≤ ⌊b⌋ := Int.floor_le_floor h
  rcases lt_or_eq_of_le hfl with hlt | heq
  · have h1 := (roundHalfEven_bounds a).2
    have h2 := (roundHalfEven_bounds b).1
    omega
  · unfold roundHalfEven
    rw [heq]
    have hfr : a - (⌊b⌋ : ℤ) ≤ b - (⌊b⌋ : ℤ) := by linarith
    split_ifs <;> first | omega | linarith

theorem roundHalfEven_ge_of_le (m : ℤ) {q : ℚ} (h : (m : ℚ) ≤ q) : m ≤ roundHalfEven q := by
  have := roundHalfEven_mono h
  rwa [roundHalfEven_intCast] at this

theorem roundHalfEven_le_of_le (m : ℤ) {q : ℚ} (h : q ≤ (m : ℚ)) : roundHalfEven q ≤ m := by
  have := roundHalfEven_mono h
  rwa [roundHalfEven_intCast] at this

theorem ulpOf_eq (q : ℚ) : ulpOf q = (2 : ℚ) ^ (max (expo2 q) (-126) - 23) := pow2_eq _

theorem ulpOf_pos (q : ℚ) : 0 < ulpOf q := by
  rw [ulpOf_eq]; exact two_zpow_pos _

theorem two_zpow_split (E : ℤ) :
    (2 : ℚ) ^ E = 8388608 * (2 : ℚ) ^ (E - 23) ∧
    (2 : ℚ) ^ (E + 1) = 16777216 * (2 : ℚ) ^ (E - 23) ∧
    (2 : ℚ) ^ (E + 1 - 23) = 2 * (2 : ℚ) ^ (E - 23) ∧
    (2 : ℚ) ^ (E + 2) = 33554432 * (2 : ℚ) ^ (E - 23) := by
  have two_ne : (2 : ℚ) ≠ 0 := by norm_num
  have e1 : E = (E - 23) + 23 := by ring
  have e2 : E + 1 = (E - 23) + 24 := by ring
  have e3 : E + 1 - 23 = (E - 23) + 1 := by ring
  have e4 : E + 2 = (E - 23) + 25 := by ring
  refine ⟨?_, ?_, ?_, ?_⟩
  · conv_lhs => rw [e1, zpow_add₀ two_ne]
    norm_num; ring
  · conv_lhs => rw [e2, zpow_add₀ two_ne]
    norm_num; ring
  · conv_lhs => rw [e3, zpow_add₀ two_ne]
    norm_num; ring
  · conv_lhs => rw [e4, zpow_add₀ two_ne]
    norm_num; ring

theorem roundPos_zero : roundPos 0 = 0 := by
  unfold roundPos
  simp [roundHalfEven]

theorem roundPos_nonneg {q : ℚ} (hq : 0 ≤ q) : 0 ≤ roundPos q := by
  unfold roundPos
  have hu := ulpOf_pos q
  have h0 : ((0 : ℤ) : ℚ) ≤ q / ulpOf q := by
    simp only [Int.cast_zero]
    exact div_nonneg hq hu.le
  have := roundHalfEven_ge_of_le 0 h0
  have h1 : (0 : ℚ) ≤ (roundHalfEven (q / ulpOf q) : ℚ) := by exact_mod_cast this
  exact mul_nonneg h1 hu.le

/-- Upper and lower bound of the rounded value in terms of the binade. -/
theorem roundPos_bounds {q : ℚ} (hq : 0 < q) :
    roundPos q ≤ (2 : ℚ) ^ (max (expo2 q) (-126) + 1) ∧
    (-126 ≤ expo2 q → (2 : ℚ) ^ (max (expo2 q) (-126)) ≤ roundPos q) ∧
    roundHalfEven (q / ulpOf q) ≤ 16777216 ∧
    (-126 ≤ expo2 q → 8388608 ≤ roundHalfEven (q / ulpOf q)) := by
  obtain ⟨s1, s2⟩ := expo2_spec q hq
  obtain ⟨p1, p2, _, _⟩ := two_zpow_split (max (expo2 q) (-126))
  have hu := ulpOf_pos q
  have hueq := ulpOf_eq q
  have hup : q / ulpOf q ≤ ((16777216 : ℤ) : ℚ) := by
    rw [div_le_iff₀ hu, hueq]
    push_cast
    rw [← p2]
    exact le_trans s2.le (two_zpow_le_of_le (by omega))
  have hn_up := roundHalfEven_le_of_le 16777216 hup
  have hlow : -126 ≤ expo2 q → ((8388608 : ℤ) : ℚ) ≤ q / ulpOf q := by
    intro he
    rw [le_div_iff₀ hu, hueq]
    push_cast
    rw [← p1, max_eq_left he]
    exact s1
  refine ⟨?_, ?_, hn_up, fun he => roundHalfEven_ge_of_le 8388608 (hlow he)⟩
  · unfold roundPos
    rw [p2, ← hueq]
    have : (roundHalfEven (q / ulpOf q) : ℚ) ≤ 16777216 := by exact_mod_cast hn_up
    exact mul_le_mul_of_nonneg_right this hu.le
  · intro he
    unfold roundPos
    rw [p1, ← hueq]
    have h := roundHalfEven_ge_of_le 8388608 (hlow he)
    have : (8388608 : ℚ) ≤ (roundHalfEven (q / ulpOf q) : ℚ) := by exact_mod_cast h
    exact mul_le_mul_of_nonneg_right this hu.le

theorem roundPos_mono {a b : ℚ} (ha : 0 ≤ a) (hab : a ≤ b) : roundPos a ≤ roundPos b := by
  rcases eq_or_lt_of_le ha with h0 | hpos
  · rw [← h0, roundPos_zero]
    exact roundPos_nonneg (le_trans ha hab)
  · have hb : 0 < b := lt_of_lt_of_le hpos hab
    have hE : max (expo2 a) (-126) ≤ max (expo2 b) (-126) :=
      max_le_max (expo2_mono hpos hab) (le_refl _)
    rcases eq_or_lt_of_le hE with heq | hlt
    · have hu : ulpOf a = ulpOf b := by rw [ulpOf_eq, ulpOf_eq, heq]
      unfold roundPos
      rw [hu]
      have hq : a / ulpOf b ≤ b / ulpOf b := div_le_div_of_nonneg_right hab (ulpOf_pos b).le
      have := roundHalfEven_mono hq
      have h1 : (roundHalfEven (a / ulpOf b) : ℚ) ≤ (roundHalfEven (b / ulpOf b) : ℚ) := by
        exact_mod_cast this
      exact mul_le_mul_of_nonneg_right h1 (ulpOf_pos b).le
    · have hbE : -126 ≤ expo2 b := by
        by_contra hcon
        have : max (expo2 b) (-126) = -126 := max_eq_right (by omega)
        have h2 : -126 ≤ max (expo2 a) (-126) := le_max_right _ _
        omega
      have h1 := (roundPos_bounds hpos).1
      have h2 := (roundPos_bounds hb).2.1 hbE
      exact le_trans h1 (le_trans (two_zpow_le_of_le (by omega)) h2)

/-- A multiple `n * 2 ^ (E - 23)` with at most 24 significant bits is a
binary32 number. -/
theorem roundPos_representable (n E : ℤ) (hE : -126 ≤ E) (hn0 : 0 ≤ n) (hn : n ≤ 16777216)
    (hnorm : 8388608 ≤ n ∨ E = -126) :
    roundPos ((n : ℚ) * (2 : ℚ) ^ (E - 23)) = (n : ℚ) * (2 : ℚ) ^ (E - 23) := by
  obtain ⟨p1, p2, p3, p4⟩ := two_zpow_split E
  have hupos := two_zpow_pos (E - 23)
  rcases eq_or_lt_of_le hn0 with h0 | hnpos
  · rw [← h0]
    simp [roundPos_zero]
  have hnq : (0 : ℚ) < (n : ℚ) := by exact_mod_cast hnpos
  have hr : 0 < (n : ℚ) * (2 : ℚ) ^ (E - 23) := mul_pos hnq hupos
  have key : ∀ E1 : ℤ, max (expo2 ((n : ℚ) * (2 : ℚ) ^ (E - 23))) (-126) = E1 →
      ∀ k : ℤ, (n : ℚ) * (2 : ℚ) ^ (E - 23) = (k : ℚ) * (2 : ℚ) ^ (E1 - 23) →
      roundPos ((n : ℚ) * (2 : ℚ) ^ (E - 23)) = (n : ℚ) * (2 : ℚ) ^ (E - 23) := by
    intro E1 hE1 k hk
    have hu : ulpOf ((n : ℚ) * (2 : ℚ) ^ (E - 23)) = (2 : ℚ) ^ (E1 - 23) := by
      rw [ulpOf_eq, hE1]
    unfold roundPos
    rw [hu]
    have hdiv : (n : ℚ) * (2 : ℚ) ^ (E - 23) / (2 : ℚ) ^ (E1 - 23) = (k : ℚ) := by
      rw [hk]
      field_simp
    rw [hdiv, roundHalfEven_intCast, ← hk]
  rcases eq_or_lt_of_le hn with htop | hlt
  · -- n = 2 ^ 24: the value is 2 ^ (E + 1)
    have hval : (n : ℚ) * (2 : ℚ) ^ (E - 23) = (2 : ℚ) ^ (E + 1) := by
      rw [p2, htop]; norm_num
    have hexp : expo2 ((n : ℚ) * (2 : ℚ) ^ (E - 23)) = E + 1 := by
      apply expo2_unique _ hr
      · rw [hval]
      · rw [hval]
        exact zpow_lt_zpow_right₀ (by norm_num) (by omega)
    apply key (E + 1) (by rw [hexp]; exact max_eq_left (by omega)) 8388608
    rw [p3, htop]
    push_cast
    ring
  · rcases hnorm with hbig | hsub
    · have hexp : expo2 ((n : ℚ) * (2 : ℚ) ^ (E - 23)) = E := by
        apply expo2_unique _ hr
        · rw [p1]
          have : (8388608 : ℚ) ≤ (n : ℚ) := by exact_mod_cast hbig
          exact mul_le_mul_of_nonneg_right this hupos.le
        · rw [p2]
          have : (n : ℚ) < 16777216 := by exact_mod_cast hlt
          exact mul_lt_mul_of_pos_right this hupos
      exact key E (by rw [hexp]; exact max_eq_left hE) n rfl
    · by_cases hbig : 8388608 ≤ n
      · have hexp : expo2 ((n : ℚ) * (2 : ℚ) ^ (E - 23)) = E := by
          apply expo2_unique _ hr
          · rw [p1]
            have : (8388608 : ℚ) ≤ (n : ℚ) := by exact_mod_cast hbig
            exact mul_le_mul_of_nonneg_right this hupos.le
          · rw [p2]
            have : (n : ℚ) < 16777216 := by exact_mod_cast hlt
            exact mul_lt_mul_of_pos_right this hupos
        exact key E (by rw [hexp]; exact max_eq_left hE) n rfl
      · have hsmall : (n : ℚ) < 8388608 := by exact_mod_cast (not_le.1 hbig)
        have hlt2 : (n : ℚ) * (2 : ℚ) ^ (E - 23) < (2 : ℚ) ^ E := by
          rw [p1]
          exact mul_lt_mul_of_pos_right hsmall hupos
        obtain ⟨s1, _⟩ := expo2_spec _ hr
        have hexp : expo2 ((n : ℚ) * (2 : ℚ) ^ (E - 23)) < E :=
          two_zpow_lt (lt_of_le_of_lt s1 hlt2)
        exact key E (by rw [hsub] at hexp ⊢; exact max_eq_right (by omega)) n rfl

theorem roundPos_idem {q : ℚ} (hq : 0 ≤ q) : roundPos (roundPos q) = roundPos q := by
  rcases eq_or_lt_of_le hq with h0 | hpos
  · rw [← h0, roundPos_zero, roundPos_zero]
  · obtain ⟨_, _, hn, hlow⟩ := roundPos_bounds hpos
    have hn0 : 0 ≤ roundHalfEven (q / ulpOf q) := by
      apply roundHalfEven_ge_of_le 0
      simp only [Int.cast_zero]
      exact div_nonneg hq (ulpOf_pos q).le
    have hform : roundPos q =
        (roundHalfEven (q / ulpOf q) : ℚ) * (2 : ℚ) ^ (max (expo2 q) (-126) - 23) := by
      unfold roundPos
      rw [ulpOf_eq]
    rw [hform]
    apply roundPos_representable _ _ (le_max_right _ _) hn0 hn
    by_cases he : -126 ≤ expo2 q
    · exact Or.inl (hlow he)
    · exact Or.inr (max_eq_right (by omega))

theorem roundF32_zero : roundF32 0 = 0 := by
  unfold roundF32
  simp [roundPos_zero]

theorem roundF32_mono {a b : ℚ} (h : a ≤ b) : roundF32 a ≤ roundF32 b := by
  unfold roundF32
  by_cases ha : 0 ≤ a
  · have hb : 0 ≤ b := le_trans ha h
    simp only [ha, hb, if_true]
    exact roundPos_mono ha h
  · by_cases hb : 0 ≤ b
    · simp only [ha, hb, if_true, if_false]
      have h1 : 0 ≤ roundPos (-a) := roundPos_nonneg (by linarith)
      have h2 : 0 ≤ roundPos b := roundPos_nonneg hb
      linarith
    · simp only [ha, hb, if_false]
      have : roundPos (-b) ≤ roundPos (-a) := roundPos_mono (by linarith) (by linarith)
      linarith

theorem roundF32_idem (q : ℚ) : roundF32 (roundF32 q) = roundF32 q := by
  by_cases hq : 0 ≤ q
  · have h1 : roundF32 q = roundPos q := by unfold roundF32; simp [hq]
    rw [h1]
    have h2 : 0 ≤ roundPos q := roundPos_nonneg hq
    unfold roundF32
    simp only [h2, if_true]
    exact roundPos_idem hq
  · have h1 : roundF32 q = -roundPos (-q) := by unfold roundF32; simp [hq]
    rw [h1]
    have hnq : 0 ≤ -q := by linarith
    have h2 : 0 ≤ roundPos (-q) := roundPos_nonneg hnq
    rcases eq_or_lt_of_le h2 with h0 | hpos
    · rw [← h0]
      simp [roundF32_zero]
    · have h3 : ¬ 0 ≤ -roundPos (-q) := by linarith
      unfold roundF32
      simp only [h3, if_false, neg_neg]
      rw [roundPos_idem hnq]

theorem roundF32_nonneg {q : ℚ} (h : 0 ≤ q) : 0 ≤ roundF32 q := by
  have := roundF32_mono h
  rwa [roundF32_zero] at this

/-! ## Lemmas on the batch map, the loop and the update -/

attribute [irreducible] roundF32

theorem toFloat_zero : toFloat 0 = 0 := roundF32_zero

theorem toFloat_nonneg {q : ℚ} (h : 0 ≤ q) : 0 ≤ toFloat q := roundF32_nonneg h

theorem toFloat_idem (q : ℚ) : toFloat (toFloat q) = toFloat q := roundF32_idem q

theorem fadd_idem (a b : ℚ) : roundF32 (fadd a b) = fadd a b := roundF32_idem _

theorem fsub_mono {a b c d : ℚ} (h1 : a ≤ b) (h2 : d ≤ c) : fsub a c ≤ fsub b d :=
  roundF32_mono (sub_le_sub h1 h2)

theorem fadd_nonneg {a b : ℚ} (ha : 0 ≤ a) (hb : 0 ≤ b) : 0 ≤ fadd a b :=
  roundF32_nonneg (add_nonneg ha hb)

/-- Adding a zero kerning leaves a binary32 pen where it is. -/
theorem fadd_toFloat_zero {a : ℚ} (ha : roundF32 a = a) : fadd a (toFloat 0) = a := by
  unfold fadd
  rw [toFloat_zero, add_zero, ha]

theorem fadd_zero_left (a : ℚ) : fadd 0 (toFloat a) = toFloat a := by
  unfold fadd toFloat
  rw [zero_add, roundF32_idem]

theorem allEmpty_clearAll (m : VertexArrayMap) : AllEmpty (clearAll m) := by
  intro e he
  simp only [clearAll, List.mem_map] at he
  obtain ⟨a, _, rfl⟩ := he
  rfl

theorem allColor_clearAll (c : Color) (m : VertexArrayMap) : AllColor c (clearAll m) := by
  intro e he v hv
  simp only [clearAll, List.mem_map] at he
  obtain ⟨a, _, rfl⟩ := he
  simp [VertexArray.clear] at hv

theorem allColor_recolor (c : Color) (m : VertexArrayMap) : AllColor c (recolor m c) := by
  intro e he v hv
  simp only [recolor, List.mem_map] at he
  obtain ⟨a, _, rfl⟩ := he
  simp only [List.mem_map] at hv
  obtain ⟨w, _, rfl⟩ := hv
  rfl

theorem allColor_setTriangles {c : Color} {m : VertexArrayMap} (h : AllColor c m) :
    AllColor c (setTriangles m) := by
  intro e he v hv
  simp only [setTriangles, List.mem_map] at he
  obtain ⟨a, ha, rfl⟩ := he
  exact h a ha v hv

theorem allColor_appendAt {c : Color} {vs : List Vertex} (hvs : ∀ v ∈ vs, v.color = c)
    (key : Nat) : ∀ {m : VertexArrayMap}, AllColor c m →
      AllColor c (VertexArrayMap.appendAt m key vs)
  | [], _ => by
    intro e he v hv
    simp only [VertexArrayMap.appendAt, List.mem_singleton] at he
    subst he
    simp only [VertexArray.append, VertexArray.empty, List.nil_append] at hv
    exact hvs v hv
  | (k, va) :: rest, h => by
    have hrest : AllColor c rest := fun e he => h e (List.mem_cons_of_mem _ he)
    have hhead : ∀ v ∈ va.m_vertices, v.color = c := h (k, va) (List.mem_cons_self _ _)
    intro e he v hv
    unfold VertexArrayMap.appendAt at he
    split at he
    · rcases List.mem_cons.1 he with rfl | he
      · simp only [VertexArray.append, List.mem_append] at hv
        rcases hv with hv | hv
        · exact hhead v hv
        · exact hvs v hv
      · exact hrest e he v hv
    · rcases List.mem_cons.1 he with rfl | he
      · exact hhead v hv
      · exact allColor_appendAt hvs key hrest e he v hv

theorem lineQuad_color (x top bottom : ℚ) (c : Color) :
    ∀ v ∈ lineQuad x top bottom c, v.color = c := by
  intro v hv
  simp only [lineQuad, List.mem_cons, List.mem_singleton, List.not_mem_nil, or_false] at hv
  rcases hv with rfl | rfl | rfl | rfl | rfl | rfl <;> rfl

theorem glyphQuad_color (x y italic : ℚ) (g : MyGlyph) (c : Color) :
    ∀ v ∈ glyphQuad x y italic g c, v.color = c := by
  intro v hv
  simp only [glyphQuad, List.mem_cons, List.mem_singleton, List.not_mem_nil, or_false] at hv
  rcases hv with rfl | rfl | rfl | rfl | rfl | rfl <;> rfl

theorem allColor_addLines (v : LayoutVars) (x y : ℚ) {m : VertexArrayMap}
    (h : AllColor v.color m) : AllColor v.color (addLines v x y m) := by
  unfold addLines
  by_cases hu : v.underlined <;> by_cases hs : v.strikeThrough <;>
    simp only [hu, hs, if_true, if_false, Bool.false_eq_true]
  · exact allColor_appendAt (lineQuad_color _ _ _ _) 0
      (allColor_appendAt (lineQuad_color _ _ _ _) 0 h)
  · exact allColor_appendAt (lineQuad_color _ _ _ _) 0 h
  · exact allColor_appendAt (lineQuad_color _ _ _ _) 0 h
  · exact h

theorem layoutStep_map_newline (v : LayoutVars) (s : LayoutState) :
    (layoutStep v s 10).verticesMap = addLines v (kernedX v s 10) s.y s.verticesMap := by
  simp [layoutStep, kernedX]

theorem layoutStep_map_blank (v : LayoutVars) (s : LayoutState) (c : Nat)
    (h : c = 32 ∨ c = 9) : (layoutStep v s c).verticesMap = s.verticesMap := by
  rcases h with rfl | rfl <;> simp [layoutStep]

theorem layoutStep_map_glyph (v : LayoutVars) (s : LayoutState) (c : Nat)
    (h32 : c ≠ 32) (h9 : c ≠ 9) (h10 : c ≠ 10) :
    (layoutStep v s c).verticesMap =
      VertexArrayMap.appendAt s.verticesMap (v.font.getGlyph c v.characterSize v.bold).texture
        (glyphQuad (kernedX v s c) s.y v.italic (v.font.getGlyph c v.characterSize v.bold)
          v.color) := by
  simp [layoutStep, kernedX, h32, h9, h10]

theorem allColor_layoutStep (v : LayoutVars) (s : LayoutState) (c : Nat)
    (h : AllColor v.color s.verticesMap) :
    AllColor v.color (layoutStep v s c).verticesMap := by
  by_cases h10 : c = 10
  · subst h10
    rw [layoutStep_map_newline]
    exact allColor_addLines v _ _ h
  · by_cases hb : c = 32 ∨ c = 9
    · rw [layoutStep_map_blank v s c hb]
      exact h
    · rw [layoutStep_map_glyph v s c (fun e => hb (Or.inl e)) (fun e => hb (Or.inr e)) h10]
      exact allColor_appendAt (glyphQuad_color _ _ _ _ _) _ h

theorem allColor_layoutLoop (v : LayoutVars) (str : List Nat) :
    ∀ s : LayoutState, AllColor v.color s.verticesMap →
      AllColor v.color (layoutLoop v s str).verticesMap := by
  induction str with
  | nil => intro s h; exact h
  | cons c rest ih =>
    intro s h
    exact ih (layoutStep v s c) (allColor_layoutStep v s c h)

theorem ensure_clean (heap : Nat → MyFont) (t : MyText)
    (h : t.m_geometryNeedUpdate = false) : t.ensureGeometryUpdate heap = t := by
  simp [MyText.ensureGeometryUpdate, h]

theorem ensure_noFont (heap : Nat → MyFont) (t : MyText)
    (h : t.m_geometryNeedUpdate = true) (hf : t.m_font = 0) :
    t.ensureGeometryUpdate heap = clearedText t := by
  simp [MyText.ensureGeometryUpdate, h, hf, clearedText]

theorem ensure_noText (heap : Nat → MyFont) (t : MyText)
    (h : t.m_geometryNeedUpdate = true) (hs : t.m_string = []) :
    t.ensureGeometryUpdate heap = clearedText t := by
  simp [MyText.ensureGeometryUpdate, h, hs, clearedText]

theorem ensure_layout (heap : Nat → MyFont) (t : MyText)
    (h : t.m_geometryNeedUpdate = true) (hf : t.m_font ≠ 0) (hs : t.m_string ≠ []) :
    t.ensureGeometryUpdate heap =
      { clearedText t with
        m_verticesMap := setTriangles
          (addLines (layoutVars (heap t.m_font) t) (layoutResult heap t).x
            (layoutResult heap t).y (layoutResult heap t).verticesMap)
        m_bounds := ⟨(layoutResult heap t).minX, (layoutResult heap t).minY,
          fsub (layoutResult heap t).maxX (layoutResult heap t).minX,
          fsub (layoutResult heap t).maxY (layoutResult heap t).minY⟩ } := by
  have hs' : t.m_string.isEmpty = false := by
    cases hstr : t.m_string with
    | nil => exact absurd hstr hs
    | cons a l => rfl
  simp [MyText.ensureGeometryUpdate, h, hf, hs', clearedText, layoutResult]

theorem ensure_not_dirty (heap : Nat → MyFont) (t : MyText) :
    (t.ensureGeometryUpdate heap).m_geometryNeedUpdate = false := by
  cases h : t.m_geometryNeedUpdate with
  | false => rw [ensure_clean heap t h]; exact h
  | true =>
    by_cases hf : t.m_font = 0
    · rw [ensure_noFont heap t h hf]; rfl
    · by_cases hs : t.m_string = []
      · rw [ensure_noText heap t h hs]; rfl
      · rw [ensure_layout heap t h hf hs]; rfl

theorem ensure_fields (heap : Nat → MyFont) (t : MyText) :
    (t.ensureGeometryUpdate heap).m_string = t.m_string ∧
    (t.ensureGeometryUpdate heap).m_font = t.m_font ∧
    (t.ensureGeometryUpdate heap).m_characterSize = t.m_characterSize ∧
    (t.ensureGeometryUpdate heap).m_style = t.m_style ∧
    (t.ensureGeometryUpdate heap).m_color = t.m_color := by
  cases h : t.m_geometryNeedUpdate with
  | false => rw [ensure_clean heap t h]; simp
  | true =>
    by_cases hf : t.m_font = 0
    · rw [ensure_noFont heap t h hf]; simp [clearedText]
    · by_cases hs : t.m_string = []
      · rw [ensure_noText heap t h hs]; simp [clearedText]
      · rw [ensure_layout heap t h hf hs]; simp [clearedText]

theorem allEmpty_recolor {m : VertexArrayMap} (c : Color) (h : AllEmpty m) :
    AllEmpty (recolor m c) := by
  intro e he
  simp only [recolor, List.mem_map] at he
  obtain ⟨a, ha, rfl⟩ := he
  have := h a ha
  simp only [VertexArray.getVertexCount, List.length_map] at this ⊢
  exact this

theorem emptyWhenNothing_ensure (heap : Nat → MyFont) (t : MyText)
    (ht : EmptyWhenNothing t) : EmptyWhenNothing (t.ensureGeometryUpdate heap) := by
  cases h : t.m_geometryNeedUpdate with
  | false => rw [ensure_clean heap t h]; exact ht
  | true =>
    by_cases hf : t.m_font = 0
    · rw [ensure_noFont heap t h hf]
      intro _ _
      exact ⟨rfl, allEmpty_clearAll _⟩
    · by_cases hs : t.m_string = []
      · rw [ensure_noText heap t h hs]
        intro _ _
        exact ⟨rfl, allEmpty_clearAll _⟩
      · intro _ hno
        obtain ⟨e1, e2, _⟩ := ensure_fields heap t
        rw [e1, e2] at hno
        rcases hno with h0 | h0
        · exact absurd h0 hf
        · exact absurd h0 hs

theorem reachable_emptyWhenNothing (heap : Nat → MyFont) (t : MyText)
    (hr : Reachable heap t) : EmptyWhenNothing t := by
  induction hr with
  | mk0 => intro _ _; exact ⟨rfl, fun e he => by cases he⟩
  | mk3 string font size => intro h; cases h
  | @setString t string _ ih =>
    unfold MyText.setString
    split
    · intro h; cases h
    · exact ih
  | @setFont t font _ ih =>
    unfold MyText.setFont
    split
    · intro h; cases h
    · exact ih
  | @setCharacterSize t size _ ih =>
    unfold MyText.setCharacterSize
    split
    · intro h; cases h
    · exact ih
  | @setStyle t style _ ih =>
    unfold MyText.setStyle
    split
    · intro h; cases h
    · exact ih
  | @setColor t color _ ih =>
    unfold MyText.setColor
    split
    · split
      · intro h hno
        obtain ⟨hb, he⟩ := ih h hno
        exact ⟨hb, allEmpty_recolor color he⟩
      · intro h hno
        exact ih h hno
    · exact ih
  | @ensureGeometryUpdate t _ ih => exact emptyWhenNothing_ensure heap t ih

theorem colorCoherent_ensure (heap : Nat → MyFont) (t : MyText)
    (ht : ColorCoherent t) : ColorCoherent (t.ensureGeometryUpdate heap) := by
  cases h : t.m_geometryNeedUpdate with
  | false => rw [ensure_clean heap t h]; exact ht
  | true =>
    by_cases hf : t.m_font = 0
    · rw [ensure_noFont heap t h hf]
      intro _
      exact allColor_clearAll _ _
    · by_cases hs : t.m_string = []
      · rw [ensure_noText heap t h hs]
        intro _
        exact allColor_clearAll _ _
      · rw [ensure_layout heap t h hf hs]
        intro _
        have hloop : AllColor t.m_color (layoutResult heap t).verticesMap :=
          allColor_layoutLoop (layoutVars (heap t.m_font) t) t.m_string _
            (allColor_clearAll _ _)
        exact allColor_setTriangles
          (allColor_addLines (layoutVars (heap t.m_font) t) _ _ hloop)

theorem reachable_colorCoherent (heap : Nat → MyFont) (t : MyText)
    (hr : Reachable heap t) : ColorCoherent t := by
  induction hr with
  | mk0 => intro _ e he; cases he
  | mk3 string font size => intro h; cases h
  | @setString t string _ ih =>
    unfold MyText.setString
    split
    · intro h; cases h
    · exact ih
  | @setFont t font _ ih =>
    unfold MyText.setFont
    split
    · intro h; cases h
    · exact ih
  | @setCharacterSize t size _ ih =>
    unfold MyText.setCharacterSize
    split
    · intro h; cases h
    · exact ih
  | @setStyle t style _ ih =>
    unfold MyText.setStyle
    split
    · intro h; cases h
    · exact ih
  | @setColor t color _ ih =>
    unfold MyText.setColor
    split
    · split
      · intro _
        exact allColor_recolor color _
      · rename_i hd
        intro h
        simp only at h
        simp [h] at hd
    · exact ih
  | @ensureGeometryUpdate t _ ih => exact colorCoherent_ensure heap t ih

theorem caret_fold_regular (font : MyFont) (size : Nat) (bold : Bool) (hspace vspace : ℚ)
    (hk : ∀ a b : Nat, font.getKerning a b size = 0) :
    ∀ (l : List Nat) (p : Vector2f × Nat), roundF32 p.1.x = p.1.x →
      (∀ c ∈ l, c ≠ 32 ∧ c ≠ 9 ∧ c ≠ 10) →
      (l.foldl (caretStep font size bold hspace vspace) p).1 =
        ⟨(l.map (fun c => (font.getGlyph c size bold).advance)).foldl
          (fun acc a => fadd acc (toFloat a)) p.1.x, p.1.y⟩ := by
  intro l
  induction l with
  | nil => intro p _ _; rfl
  | cons c rest ih =>
    intro p hx hreg
    obtain ⟨h32, h9, h10⟩ := hreg c (List.mem_cons_self _ _)
    have hstep : caretStep font size bold hspace vspace p c =
        (⟨fadd p.1.x (toFloat (font.getGlyph c size bold).advance), p.1.y⟩, c) := by
      simp [caretStep, h32, h9, h10, hk, fadd_toFloat_zero hx]
    rw [List.foldl_cons, hstep,
      ih _ (fadd_idem _ _) (fun d hd => hreg d (List.mem_cons_of_mem _ hd))]
    simp only [List.map_cons, List.foldl_cons]

theorem setColor_same (t : MyText) : t.setColor t.m_color = t := by
  simp [MyText.setColor]

theorem lineQuad_length (x top bottom : ℚ) (c : Color) :
    (lineQuad x top bottom c).length = 6 := rfl

theorem glyphQuad_length (x y italic : ℚ) (g : MyGlyph) (c : Color) :
    (glyphQuad x y italic g c).length = 6 := rfl

theorem countAt_appendAt (key : Nat) (vs : List Vertex) (k : Nat) :
    ∀ m : VertexArrayMap,
      VertexArrayMap.countAt (VertexArrayMap.appendAt m key vs) k =
        VertexArrayMap.countAt m k + (if key = k then vs.length else 0)
  | [] => by
    by_cases h : key = k <;>
      simp [VertexArrayMap.appendAt, VertexArrayMap.countAt, VertexArrayMap.find, h,
        VertexArray.append, VertexArray.empty, VertexArray.getVertexCount]
  | (k0, va) :: rest => by
    have ih := countAt_appendAt key vs k rest
    unfold VertexArrayMap.countAt at ih ⊢
    unfold VertexArrayMap.appendAt
    by_cases h0 : k0 = key
    · subst h0
      by_cases h : k0 = k
      · simp [VertexArrayMap.find, h, VertexArray.append, VertexArray.getVertexCount]
      · simp [VertexArrayMap.find, h]
    · by_cases h : k0 = k
      · subst h
        have hne : ¬ key = k0 := fun e => h0 e.symm
        simp [VertexArrayMap.find, h0, hne]
      · simp only [h0, if_false, VertexArrayMap.find, h]
        exact ih

theorem countAt_clearAll (k : Nat) :
    ∀ m : VertexArrayMap, VertexArrayMap.countAt (clearAll m) k = 0
  | [] => rfl
  | (k0, va) :: rest => by
    have ih := countAt_clearAll k rest
    unfold VertexArrayMap.countAt at ih ⊢
    by_cases h : k0 = k
    · simp [clearAll, VertexArrayMap.find, h, VertexArray.clear, VertexArray.getVertexCount]
    · simp only [clearAll, List.map_cons, VertexArrayMap.find, h, if_false] at ih ⊢
      exact ih

theorem countAt_setTriangles (k : Nat) :
    ∀ m : VertexArrayMap,
      VertexArrayMap.countAt (setTriangles m) k = VertexArrayMap.countAt m k
  | [] => rfl
  | (k0, va) :: rest => by
    have ih := countAt_setTriangles k rest
    unfold VertexArrayMap.countAt at ih ⊢
    by_cases h : k0 = k
    · simp [setTriangles, VertexArrayMap.find, h, VertexArray.setPrimitiveType,
        VertexArray.getVertexCount]
    · simp only [setTriangles, List.map_cons, VertexArrayMap.find, h, if_false] at ih ⊢
      exact ih

theorem totalCount_appendAt (key : Nat) (vs : List Vertex) :
    ∀ m : VertexArrayMap,
      VertexArrayMap.totalCount (VertexArrayMap.appendAt m key vs) =
        VertexArrayMap.totalCount m + vs.length
  | [] => by
    simp [VertexArrayMap.appendAt, VertexArrayMap.totalCount, VertexArray.append,
      VertexArray.empty, VertexArray.getVertexCount]
  | (k0, va) :: rest => by
    have ih := totalCount_appendAt key vs rest
    unfold VertexArrayMap.totalCount at ih ⊢
    unfold VertexArrayMap.appendAt
    by_cases h0 : k0 = key
    · simp [h0, VertexArray.append, VertexArray.getVertexCount]
      omega
    · simp only [h0, if_false, List.map_cons, List.sum_cons, ih]
      omega

theorem totalCount_clearAll (m : VertexArrayMap) :
    VertexArrayMap.totalCount (clearAll m) = 0 := by
  induction m with
  | nil => rfl
  | cons e rest ih =>
    unfold VertexArrayMap.totalCount at ih ⊢
    simp only [clearAll, List.map_cons, List.sum_cons] at ih ⊢
    rw [ih]
    rfl

theorem totalCount_setTriangles (m : VertexArrayMap) :
    VertexArrayMap.totalCount (setTriangles m) = VertexArrayMap.totalCount m := by
  simp [VertexArrayMap.totalCount, setTriangles, List.map_map, Function.comp_def,
    VertexArray.setPrimitiveType, VertexArray.getVertexCount]

theorem countAt_addLines (v : LayoutVars) (x y : ℚ) (m : VertexArrayMap) (k : Nat) :
    VertexArrayMap.countAt (addLines v x y m) k =
      VertexArrayMap.countAt m k + (if k = 0 then 6 * v.decorations else 0) := by
  unfold addLines LayoutVars.decorations
  by_cases hk : k = 0
  · subst hk
    by_cases hu : v.underlined <;> by_cases hs : v.strikeThrough <;>
      simp [hu, hs, countAt_appendAt, lineQuad_length]
  · have hk' : ¬ 0 = k := fun e => hk e.symm
    by_cases hu : v.underlined <;> by_cases hs : v.strikeThrough <;>
      simp [hu, hs, countAt_appendAt, hk, hk']

theorem totalCount_addLines (v : LayoutVars) (x y : ℚ) (m : VertexArrayMap) :
    VertexArrayMap.totalCount (addLines v x y m) =
      VertexArrayMap.totalCount m + 6 * v.decorations := by
  unfold addLines LayoutVars.decorations
  by_cases hu : v.underlined <;> by_cases hs : v.strikeThrough <;>
    simp [hu, hs, totalCount_appendAt, lineQuad_length]

theorem countAt_layoutStep (v : LayoutVars) (s : LayoutState) (c k : Nat) :
    VertexArrayMap.countAt (layoutStep v s c).verticesMap k =
      VertexArrayMap.countAt s.verticesMap k +
        (if (isRegular c && decide ((v.font.getGlyph c v.characterSize v.bold).texture = k))
          then 6 else 0) +
        (if c = 10 ∧ k = 0 then 6 * v.decorations else 0) := by
  by_cases h10 : c = 10
  · subst h10
    rw [layoutStep_map_newline, countAt_addLines]
    simp [isRegular]
  · by_cases hb : c = 32 ∨ c = 9
    · rw [layoutStep_map_blank v s c hb]
      rcases hb with rfl | rfl <;> simp [isRegular]
    · have h32 : c ≠ 32 := fun e => hb (Or.inl e)
      have h9 : c ≠ 9 := fun e => hb (Or.inr e)
      rw [layoutStep_map_glyph v s c h32 h9 h10, countAt_appendAt, glyphQuad_length]
      simp [isRegular, h32, h9, h10]

theorem totalCount_layoutStep (v : LayoutVars) (s : LayoutState) (c : Nat) :
    VertexArrayMap.totalCount (layoutStep v s c).verticesMap =
      VertexArrayMap.totalCount s.verticesMap + (if isRegular c then 6 else 0) +
        (if c = 10 then 6 * v.decorations else 0) := by
  by_cases h10 : c = 10
  · subst h10
    rw [layoutStep_map_newline, totalCount_addLines]
    simp [isRegular]
  · by_cases hb : c = 32 ∨ c = 9
    · rw [layoutStep_map_blank v s c hb]
      rcases hb with rfl | rfl <;> simp [isRegular]
    · have h32 : c ≠ 32 := fun e => hb (Or.inl e)
      have h9 : c ≠ 9 := fun e => hb (Or.inr e)
      rw [layoutStep_map_glyph v s c h32 h9 h10, totalCount_appendAt, glyphQuad_length]
      simp [isRegular, h32, h9, h10]

theorem countAt_layoutLoop (v : LayoutVars) (k : Nat) (str : List Nat) :
    ∀ s : LayoutState,
      VertexArrayMap.countAt (layoutLoop v s str).verticesMap k =
        VertexArrayMap.countAt s.verticesMap k +
          6 * regularCountOn v.font v.characterSize v.bold k str +
          (if k = 0 then 6 * v.decorations * str.count 10 else 0) := by
  induction str with
  | nil => intro s; simp [layoutLoop, regularCountOn]
  | cons c rest ih =>
    intro s
    have hstep := countAt_layoutStep v s c k
    have hrec := ih (layoutStep v s c)
    simp only [layoutLoop, List.foldl_cons] at hrec ⊢
    rw [hrec, hstep]
    unfold regularCountOn
    rw [List.countP_cons, List.count_cons]
    have hcnt : (if (c == 10) = true then 1 else 0) = if c = 10 then 1 else 0 := by
      by_cases h10 : c = 10 <;> simp [h10]
    rw [hcnt]
    by_cases hk : k = 0 <;> by_cases h10 : c = 10 <;>
      simp only [hk, h10, if_true, if_false, and_self, and_true, and_false, true_and,
        false_and] <;> split_ifs <;> ring

theorem totalCount_layoutLoop (v : LayoutVars) (str : List Nat) :
    ∀ s : LayoutState,
      VertexArrayMap.totalCount (layoutLoop v s str).verticesMap =
        VertexArrayMap.totalCount s.verticesMap + 6 * regularCount str +
          6 * v.decorations * str.count 10 := by
  induction str with
  | nil => intro s; simp [layoutLoop, regularCount]
  | cons c rest ih =>
    intro s
    have hstep := totalCount_layoutStep v s c
    have hrec := ih (layoutStep v s c)
    simp only [layoutLoop, List.foldl_cons] at hrec ⊢
    rw [hrec, hstep]
    unfold regularCount
    rw [List.countP_cons, List.count_cons]
    have hcnt : (if (c == 10) = true then 1 else 0) = if c = 10 then 1 else 0 := by
      by_cases h10 : c = 10 <;> simp [h10]
    rw [hcnt]
    by_cases h10 : c = 10 <;>
      simp only [h10, if_true, if_false] <;> split_ifs <;> ring

theorem layoutVars_decorations (font : MyFont) (t : MyText) :
    (layoutVars font t).decorations = decorationCount t.m_style := rfl

theorem mem_appendAt_of_ne (key : Nat) (vs : List Vertex) (e : Nat × VertexArray)
    (hne : e.1 ≠ key) :
    ∀ m : VertexArrayMap, e ∈ VertexArrayMap.appendAt m key vs → e ∈ m
  | [] => by
    intro he
    simp only [VertexArrayMap.appendAt, List.mem_singleton] at he
    subst he
    exact absurd rfl hne
  | (k0, va) :: rest => by
    intro he
    unfold VertexArrayMap.appendAt at he
    split at he
    · rename_i hk
      rcases List.mem_cons.1 he with rfl | he
      · exact absurd hk hne
      · exact List.mem_cons_of_mem _ he
    · rcases List.mem_cons.1 he with rfl | he
      · exact List.mem_cons_self _ _
      · exact List.mem_cons_of_mem _ (mem_appendAt_of_ne key vs e hne rest he)

theorem mem_addLines_of_ne (v : LayoutVars) (x y : ℚ) (m : VertexArrayMap)
    (e : Nat × VertexArray) (hne : e.1 ≠ 0) (he : e ∈ addLines v x y m) : e ∈ m := by
  unfold addLines at he
  by_cases hu : v.underlined <;> by_cases hs : v.strikeThrough <;>
    simp only [hu, hs, if_true, if_false, Bool.false_eq_true] at he
  · exact mem_appendAt_of_ne 0 _ e hne m (mem_appendAt_of_ne 0 _ e hne _ he)
  · exact mem_appendAt_of_ne 0 _ e hne m he
  · exact mem_appendAt_of_ne 0 _ e hne m he
  · exact he

theorem allEmpty_of_totalCount (m : VertexArrayMap)
    (h : VertexArrayMap.totalCount m = 0) : AllEmpty m := by
  intro e he
  unfold VertexArrayMap.totalCount at h
  exact List.sum_eq_zero_iff.1 h _ (List.mem_map_of_mem (fun e => e.2.getVertexCount) he)

theorem mem_setTriangles_count (m : VertexArrayMap) (e : Nat × VertexArray)
    (he : e ∈ setTriangles m) :
    ∃ a ∈ m, a.1 = e.1 ∧ a.2.getVertexCount = e.2.getVertexCount := by
  simp only [setTriangles, List.mem_map] at he
  obtain ⟨a, ha, rfl⟩ := he
  exact ⟨a, ha, rfl, rfl⟩

theorem addLines_none (v : LayoutVars) (x y : ℚ) (m : VertexArrayMap)
    (h : v.decorations = 0) : addLines v x y m = m := by
  unfold LayoutVars.decorations at h
  unfold addLines
  by_cases hu : v.underlined <;> by_cases hs : v.strikeThrough <;> simp [hu, hs] at h ⊢

theorem decorationCount_zero (style : Nat) (hu : style &&& Underlined = 0)
    (hst : style &&& StrikeThrough = 0) : decorationCount style = 0 := by
  simp [decorationCount, hu, hst]

theorem plainOf_appendAt (key : Nat) (vs : List Vertex) :
    ∀ m : VertexArrayMap,
      plainOf (VertexArrayMap.appendAt m key vs) = plainAppendAt (plainOf m) key vs
  | [] => by simp [VertexArrayMap.appendAt, plainOf, plainAppendAt, VertexArray.append,
      VertexArray.empty]
  | (k, va) :: rest => by
    have ih := plainOf_appendAt key vs rest
    unfold plainOf at ih ⊢
    unfold VertexArrayMap.appendAt
    by_cases h : k = key
    · simp [h, plainAppendAt, VertexArray.append]
    · simp only [h, if_false, List.map_cons, plainAppendAt, ih]

theorem plainOf_applyEvents (evs : List (Nat × List Vertex)) :
    ∀ m : VertexArrayMap, plainOf (applyEvents evs m) = plainApply evs (plainOf m) := by
  induction evs with
  | nil => intro m; rfl
  | cons e rest ih =>
    intro m
    simp only [applyEvents, plainApply, List.foldl_cons] at ih ⊢
    rw [ih, plainOf_appendAt]

theorem plainOf_clearAll (m : VertexArrayMap) :
    plainOf (clearAll m) = blank (VertexArrayMap.keys m) := by
  simp [plainOf, clearAll, blank, VertexArrayMap.keys, List.map_map, Function.comp_def,
    VertexArray.clear]

theorem plainOf_setTriangles (m : VertexArrayMap) : plainOf (setTriangles m) = plainOf m := by
  simp [plainOf, setTriangles, List.map_map, Function.comp_def, VertexArray.setPrimitiveType]

theorem keys_setTriangles (m : VertexArrayMap) :
    VertexArrayMap.keys (setTriangles m) = VertexArrayMap.keys m := by
  simp [VertexArrayMap.keys, setTriangles, List.map_map, Function.comp_def]

theorem keys_eq_plain (m : VertexArrayMap) :
    VertexArrayMap.keys m = (plainOf m).map (fun e => e.1) := by
  simp [VertexArrayMap.keys, plainOf, List.map_map, Function.comp_def]

theorem setTriangles_eq_of_plain {m1 m2 : VertexArrayMap} (h : plainOf m1 = plainOf m2) :
    setTriangles m1 = setTriangles m2 := by
  have key : ∀ m : VertexArrayMap, setTriangles m =
      (plainOf m).map (fun e => (e.1, (⟨e.2, PrimitiveType.Triangles⟩ : VertexArray))) := by
    intro m
    simp [setTriangles, plainOf, List.map_map, Function.comp_def,
      VertexArray.setPrimitiveType]
  rw [key m1, key m2, h]

theorem plainAppendAt_mem (key : Nat) (vs : List Vertex) (x : PlainMap) :
    ∀ m : PlainMap, key ∈ m.map (fun e => e.1) →
      plainAppendAt (m ++ x) key vs = plainAppendAt m key vs ++ x ∧
        (plainAppendAt m key vs).map (fun e => e.1) = m.map (fun e => e.1)
  | [] => by intro h; cases h
  | (k, l) :: rest => by
    intro h
    by_cases hk : k = key
    · simp [plainAppendAt, hk]
    · have hrest : key ∈ rest.map (fun e => e.1) := by
        simp only [List.map_cons, List.mem_cons] at h
        rcases h with h | h
        · exact absurd h.symm hk
        · exact h
      obtain ⟨h1, h2⟩ := plainAppendAt_mem key vs x rest hrest
      constructor
      · rw [List.cons_append]
        simp only [plainAppendAt, hk, if_false]
        rw [h1]
        rfl
      · simp only [plainAppendAt, hk, if_false, List.map_cons, h2]

theorem plainAppendAt_not_mem (key : Nat) (vs : List Vertex) :
    ∀ m : PlainMap, key ∉ m.map (fun e => e.1) →
      plainAppendAt m key vs = m ++ [(key, vs)] ∧
        ∀ (l : List Vertex) (x : PlainMap),
          plainAppendAt (m ++ (key, l) :: x) key vs = m ++ (key, l ++ vs) :: x
  | [] => by
    intro _
    simp [plainAppendAt]
  | (k, l0) :: rest => by
    intro h
    have hk : ¬ k = key := by
      intro e
      apply h
      simp [e]
    have hrest : key ∉ rest.map (fun e => e.1) := by
      intro hm
      apply h
      simp only [List.map_cons, List.mem_cons]
      exact Or.inr hm
    obtain ⟨h1, h2⟩ := plainAppendAt_not_mem key vs rest hrest
    refine ⟨?_, ?_⟩
    · simp only [plainAppendAt, hk, if_false, h1, List.cons_append]
    · intro l x
      rw [List.cons_append]
      simp only [plainAppendAt, hk, if_false]
      rw [h2]
      rfl

theorem plainApply_keys (evs : List (Nat × List Vertex)) :
    ∀ m : PlainMap, ∃ extra : List Nat,
      (plainApply evs m).map (fun e => e.1) = m.map (fun e => e.1) ++ extra := by
  induction evs with
  | nil => intro m; exact ⟨[], by simp [plainApply]⟩
  | cons e rest ih =>
    intro m
    obtain ⟨extra, hex⟩ := ih (plainAppendAt m e.1 e.2)
    simp only [plainApply, List.foldl_cons] at hex ⊢
    by_cases hmem : e.1 ∈ m.map (fun e => e.1)
    · refine ⟨extra, ?_⟩
      rw [hex, (plainAppendAt_mem e.1 e.2 [] m hmem).2]
    · refine ⟨e.1 :: extra, ?_⟩
      rw [hex, (plainAppendAt_not_mem e.1 e.2 m hmem).1]
      simp

theorem plainApply_blank_extra (evs : List (Nat × List Vertex)) :
    ∀ (m : PlainMap) (extra : List Nat),
      (plainApply evs m).map (fun e => e.1) = m.map (fun e => e.1) ++ extra →
        plainApply evs (m ++ blank extra) = plainApply evs m := by
  induction evs with
  | nil =>
    intro m extra h
    simp only [plainApply, List.foldl_nil] at h ⊢
    have : extra = [] := by
      have h2 := congrArg List.length h
      simp only [List.length_append, List.length_map] at h2
      exact List.length_eq_zero.1 (by omega)
    subst this
    simp [blank]
  | cons e rest ih =>
    intro m extra h
    simp only [plainApply, List.foldl_cons] at h ih ⊢
    by_cases hmem : e.1 ∈ m.map (fun e => e.1)
    · obtain ⟨h1, h2⟩ := plainAppendAt_mem e.1 e.2 (blank extra) m hmem
      rw [h1]
      apply ih
      rw [h, h2]
    · obtain ⟨h1, h2⟩ := plainAppendAt_not_mem e.1 e.2 m hmem
      obtain ⟨extra1, hex⟩ := plainApply_keys rest (plainAppendAt m e.1 e.2)
      simp only [plainApply] at hex
      have hsplit : extra = e.1 :: extra1 := by
        rw [hex, h1] at h
        simp only [List.map_append, List.map_cons, List.map_nil, List.append_assoc,
          List.singleton_append] at h
        exact (List.append_cancel_left h).symm
      subst hsplit
      have hb : blank (e.1 :: extra1) = (e.1, []) :: blank extra1 := rfl
      rw [hb, h2 [] (blank extra1), List.nil_append]
      have h3 : m ++ (e.1, e.2) :: blank extra1 =
          plainAppendAt m e.1 e.2 ++ blank extra1 := by
        rw [h1]; simp
      rw [h3]
      apply ih
      rw [hex]

theorem blank_append (a b : List Nat) : blank (a ++ b) = blank a ++ blank b := by
  simp [blank]

theorem blank_keys (ks : List Nat) : (blank ks).map (fun e => e.1) = ks := by
  simp [blank, List.map_map, Function.comp_def]

/-- Running the same appends on the cleared result of a run on a cleared map
gives that result again (up to the primitive kinds). -/
theorem applyEvents_again (evs : List (Nat × List Vertex)) (m : VertexArrayMap) :
    setTriangles (applyEvents evs (clearAll (setTriangles (applyEvents evs (clearAll m))))) =
      setTriangles (applyEvents evs (clearAll m)) := by
  apply setTriangles_eq_of_plain
  rw [plainOf_applyEvents, plainOf_clearAll, keys_setTriangles, keys_eq_plain,
    plainOf_applyEvents, plainOf_clearAll]
  obtain ⟨extra, hex⟩ := plainApply_keys evs (blank (VertexArrayMap.keys m))
  rw [hex, blank_keys, blank_append]
  apply plainApply_blank_extra
  rw [hex, blank_keys]

theorem applyEvents_append (e1 e2 : List (Nat × List Vertex)) (m : VertexArrayMap) :
    applyEvents (e1 ++ e2) m = applyEvents e2 (applyEvents e1 m) := by
  simp [applyEvents, List.foldl_append]

theorem addLines_events (v : LayoutVars) (x y : ℚ) :
    ∃ evs : List (Nat × List Vertex), ∀ m : VertexArrayMap,
      addLines v x y m = applyEvents evs m := by
  by_cases hu : v.underlined <;> by_cases hs : v.strikeThrough
  · exact ⟨[(0, lineQuad x (lineTop y v.underlineOffset v.underlineThickness)
        (lineBottom (lineTop y v.underlineOffset v.underlineThickness) v.underlineThickness)
        v.color),
      (0, lineQuad x (lineTop y v.strikeThroughOffset v.underlineThickness)
        (lineBottom (lineTop y v.strikeThroughOffset v.underlineThickness)
          v.underlineThickness) v.color)],
      fun m => by simp [addLines, hu, hs, applyEvents]⟩
  · exact ⟨[(0, lineQuad x (lineTop y v.underlineOffset v.underlineThickness)
        (lineBottom (lineTop y v.underlineOffset v.underlineThickness) v.underlineThickness)
        v.color)],
      fun m => by simp [addLines, hu, hs, applyEvents]⟩
  · exact ⟨[(0, lineQuad x (lineTop y v.strikeThroughOffset v.underlineThickness)
        (lineBottom (lineTop y v.strikeThroughOffset v.underlineThickness)
          v.underlineThickness) v.color)],
      fun m => by simp [addLines, hu, hs, applyEvents]⟩
  · exact ⟨[], fun m => by simp [addLines, hu, hs, applyEvents]⟩

theorem layoutStep_withMap (v : LayoutVars) (s : LayoutState) (c : Nat) :
    ∃ evs : List (Nat × List Vertex), ∀ m : VertexArrayMap,
      layoutStep v (s.withMap m) c = (layoutStep v s c).withMap (applyEvents evs m) := by
  by_cases h10 : c = 10
  · subst h10
    obtain ⟨evs, hev⟩ := addLines_events v (kernedX v s 10) s.y
    refine ⟨evs, fun m => ?_⟩
    rw [← hev m]
    simp [layoutStep, LayoutState.withMap, kernedX]
  · by_cases hb : c = 32 ∨ c = 9
    · refine ⟨[], fun m => ?_⟩
      rcases hb with rfl | rfl <;> simp [layoutStep, LayoutState.withMap, applyEvents]
    · have h32 : c ≠ 32 := fun e => hb (Or.inl e)
      have h9 : c ≠ 9 := fun e => hb (Or.inr e)
      refine ⟨[((v.font.getGlyph c v.characterSize v.bold).texture,
        glyphQuad (kernedX v s c) s.y v.italic (v.font.getGlyph c v.characterSize v.bold)
          v.color)], fun m => ?_⟩
      simp [layoutStep, LayoutState.withMap, applyEvents, kernedX, h32, h9, h10]

theorem withMap_withMap (s : LayoutState) (m m1 : VertexArrayMap) :
    (s.withMap m).withMap m1 = s.withMap m1 := rfl

theorem layoutLoop_withMap (v : LayoutVars) (str : List Nat) :
    ∀ s : LayoutState, ∃ evs : List (Nat × List Vertex), ∀ m : VertexArrayMap,
      layoutLoop v (s.withMap m) str = (layoutLoop v s str).withMap (applyEvents evs m) := by
  induction str with
  | nil =>
    intro s
    exact ⟨[], fun m => rfl⟩
  | cons c rest ih =>
    intro s
    obtain ⟨e1, h1⟩ := layoutStep_withMap v s c
    obtain ⟨e2, h2⟩ := ih (layoutStep v s c)
    refine ⟨e1 ++ e2, fun m => ?_⟩
    show layoutLoop v (layoutStep v (s.withMap m) c) rest =
      (layoutLoop v (layoutStep v s c) rest).withMap (applyEvents (e1 ++ e2) m)
    rw [h1 m, h2 (applyEvents e1 m), applyEvents_append]

theorem layoutLoop_init (v : LayoutVars) (str : List Nat) :
    ∃ evs : List (Nat × List Vertex), ∀ m : VertexArrayMap,
      layoutLoop v (layoutInit v m) str =
        (layoutLoop v (layoutInit v []) str).withMap (applyEvents evs m) := by
  obtain ⟨evs, h⟩ := layoutLoop_withMap v str (layoutInit v [])
  exact ⟨evs, fun m => h m⟩

theorem laidOutBounds_indep (v : LayoutVars) (str : List Nat) (m m1 : VertexArrayMap) :
    laidOutBounds v str m = laidOutBounds v str m1 := by
  obtain ⟨evs, h⟩ := layoutLoop_init v str
  unfold laidOutBounds
  rw [h m, h m1]
  rfl

theorem laidOutMap_events (v : LayoutVars) (str : List Nat) :
    ∃ evs : List (Nat × List Vertex), ∀ m : VertexArrayMap,
      laidOutMap v str m = setTriangles (applyEvents evs m) := by
  obtain ⟨e1, h1⟩ := layoutLoop_init v str
  obtain ⟨e2, h2⟩ := addLines_events v (layoutLoop v (layoutInit v []) str).x
    (layoutLoop v (layoutInit v []) str).y
  refine ⟨e1 ++ e2, fun m => ?_⟩
  unfold laidOutMap
  rw [h1 m, applyEvents_append, ← h2]
  rfl

theorem laidOutMap_again (v : LayoutVars) (str : List Nat) (m : VertexArrayMap) :
    laidOutMap v str (clearAll (laidOutMap v str (clearAll m))) =
      laidOutMap v str (clearAll m) := by
  obtain ⟨evs, h⟩ := laidOutMap_events v str
  rw [h (clearAll m), h]
  exact applyEvents_again evs m

theorem ensure_layout_eq (heap : Nat → MyFont) (t : MyText)
    (h : t.m_geometryNeedUpdate = true) (hf : t.m_font ≠ 0) (hs : t.m_string ≠ []) :
    t.ensureGeometryUpdate heap =
      { clearedText t with
        m_verticesMap :=
          laidOutMap (layoutVars (heap t.m_font) t) t.m_string (clearAll t.m_verticesMap)
        m_bounds :=
          laidOutBounds (layoutVars (heap t.m_font) t) t.m_string
            (clearAll t.m_verticesMap) } :=
  ensure_layout heap t h hf hs

theorem clearAll_clearAll (m : VertexArrayMap) : clearAll (clearAll m) = clearAll m := by
  simp [clearAll, List.map_map, Function.comp_def, VertexArray.clear]

theorem ensure_markStale_layout (heap : Nat → MyFont) (t : MyText)
    (hf : t.m_font ≠ 0) (hs : t.m_string ≠ []) :
    t.markStale.ensureGeometryUpdate heap =
      { clearedText t with
        m_verticesMap :=
          laidOutMap (layoutVars (heap t.m_font) t) t.m_string (clearAll t.m_verticesMap)
        m_bounds :=
          laidOutBounds (layoutVars (heap t.m_font) t) t.m_string
            (clearAll t.m_verticesMap) } :=
  ensure_layout_eq heap t.markStale rfl hf hs

theorem findCharacterPos_eq_caretLoop (heap : Nat → MyFont) (t : MyText)
    (hf : t.m_font ≠ 0) (i : Nat) (hi : i ≤ t.m_string.length) :
    t.findCharacterPos heap Transform.Identity i = (caretLoop heap t (t.m_string.take i)).1 := by
  unfold MyText.findCharacterPos
  simp only [hf, if_false, gt_iff_lt, not_lt.2 hi, Transform.Identity]
  rfl

theorem caretLoop_snoc (heap : Nat → MyFont) (t : MyText) (p : List Nat) (c : Nat) :
    caretLoop heap t (p ++ [c]) =
      caretStep (heap t.m_font) t.m_characterSize ((t.m_style &&& Bold) != 0)
        (toFloat (advanceOf heap t 32))
        (toFloat ((heap t.m_font).getLineSpacing t.m_characterSize))
        (caretLoop heap t p) c := by
  simp [caretLoop, List.foldl_append]

theorem caretStep_x_float (font : MyFont) (size : Nat) (bold : Bool) (hspace vspace : ℚ)
    (p : Vector2f × Nat) (c : Nat) :
    roundF32 (caretStep font size bold hspace vspace p c).1.x =
      (caretStep font size bold hspace vspace p c).1.x := by
  unfold caretStep
  simp only
  split_ifs
  · exact fadd_idem _ _
  · exact fadd_idem _ _
  · exact roundF32_zero
  · exact fadd_idem _ _

theorem caret_fold_x_float (font : MyFont) (size : Nat) (bold : Bool) (hspace vspace : ℚ) :
    ∀ (l : List Nat) (p : Vector2f × Nat), roundF32 p.1.x = p.1.x →
      roundF32 (l.foldl (caretStep font size bold hspace vspace) p).1.x =
        (l.foldl (caretStep font size bold hspace vspace) p).1.x := by
  intro l
  induction l with
  | nil => intro p hx; exact hx
  | cons c rest ih =>
    intro p _
    rw [List.foldl_cons]
    exact ih _ (caretStep_x_float font size bold hspace vspace p c)

theorem caretLoop_x_float (heap : Nat → MyFont) (t : MyText) (p : List Nat) :
    roundF32 (caretLoop heap t p).1.x = (caretLoop heap t p).1.x :=
  caret_fold_x_float _ _ _ _ _ p _ roundF32_zero

theorem caretLoop_setString (heap : Nat → MyFont) (t : MyText) (s str : List Nat) :
    caretLoop heap (t.setString s) str = caretLoop heap t str := by
  unfold MyText.setString
  split <;> rfl

theorem setString_string (t : MyText) (s : List Nat) : (t.setString s).m_string = s := by
  unfold MyText.setString
  split
  · rfl
  · rename_i h
    exact not_not.1 h

theorem setString_font (t : MyText) (s : List Nat) : (t.setString s).m_font = t.m_font := by
  unfold MyText.setString
  split <;> rfl

theorem caret_prefix (heap : Nat → MyFont) (t : MyText) (hf : t.m_font ≠ 0)
    (p q : List Nat) (hs : t.m_string = p ++ q) :
    t.findCharacterPos heap Transform.Identity p.length = (caretLoop heap t p).1 := by
  rw [findCharacterPos_eq_caretLoop heap t hf p.length (by rw [hs]; simp), hs]
  simp

theorem caret_clamp_identity (heap : Nat → MyFont) (t : MyText)
    (hf : t.m_font ≠ 0) (i : Nat) (hi : t.m_string.length ≤ i) :
    t.findCharacterPos heap Transform.Identity i =
      t.findCharacterPos heap Transform.Identity t.m_string.length := by
  unfold MyText.findCharacterPos
  simp only [hf, if_false, lt_irrefl, gt_iff_lt]
  by_cases hlt : t.m_string.length < i
  · simp only [hlt, if_true]
  · have hi2 : i = t.m_string.length := le_antisymm (not_lt.1 hlt) hi
    simp only [hi2, lt_irrefl, if_false]

theorem keys_clearAll (m : VertexArrayMap) :
    VertexArrayMap.keys (clearAll m) = VertexArrayMap.keys m := by
  simp [VertexArrayMap.keys, clearAll, List.map_map, Function.comp_def]

theorem keys_applyEvents (evs : List (Nat × List Vertex)) (m : VertexArrayMap) :
    ∃ extra : List Nat,
      VertexArrayMap.keys (applyEvents evs m) = VertexArrayMap.keys m ++ extra := by
  obtain ⟨extra, h⟩ := plainApply_keys evs (plainOf m)
  refine ⟨extra, ?_⟩
  rw [keys_eq_plain, keys_eq_plain, plainOf_applyEvents, h]

theorem keys_laidOutMap (v : LayoutVars) (str : List Nat) (m : VertexArrayMap) :
    ∃ extra : List Nat,
      VertexArrayMap.keys (laidOutMap v str m) = VertexArrayMap.keys m ++ extra := by
  obtain ⟨evs, h⟩ := laidOutMap_events v str
  obtain ⟨extra, hk⟩ := keys_applyEvents evs m
  exact ⟨extra, by rw [h m, keys_setTriangles, hk]⟩

theorem keys_ensure (heap : Nat → MyFont) (t : MyText) :
    ∃ extra : List Nat,
      VertexArrayMap.keys (t.ensureGeometryUpdate heap).m_verticesMap =
        VertexArrayMap.keys t.m_verticesMap ++ extra := by
  cases h : t.m_geometryNeedUpdate with
  | false => exact ⟨[], by rw [ensure_clean heap t h]; simp⟩
  | true =>
    by_cases hf : t.m_font = 0
    · exact ⟨[], by rw [ensure_noFont heap t h hf]; simp [clearedText, keys_clearAll]⟩
    · by_cases hs : t.m_string = []
      · exact ⟨[], by rw [ensure_noText heap t h hs]; simp [clearedText, keys_clearAll]⟩
      · obtain ⟨extra, hk⟩ := keys_laidOutMap (layoutVars (heap t.m_font) t) t.m_string
          (clearAll t.m_verticesMap)
        refine ⟨extra, ?_⟩
        rw [ensure_layout_eq heap t h hf hs]
        show VertexArrayMap.keys (laidOutMap _ _ _) = _
        rw [hk, keys_clearAll]

theorem setString_map (t : MyText) (s : List Nat) :
    (t.setString s).m_verticesMap = t.m_verticesMap := by
  unfold MyText.setString
  split <;> rfl

theorem create_reaches_link (d : GLDriver) (self : priv.RenderTextureImplFBO) (gl : GLState)
    (width height textureId : Nat) (depthBuffer : Bool)
    (hfb : createFramebufferHandle d gl ≠ 0)
    (hrb : depthBuffer = true → createDepthHandle d gl ≠ 0) :
    ∃ self1 : priv.RenderTextureImplFBO,
      priv.RenderTextureImplFBO.create d self gl width height textureId depthBuffer =
        priv.RenderTextureImplFBO.linkAndCheck d self1
          (createStateBeforeLink d gl width height depthBuffer) textureId := by
  have hfb' : ¬ (glGenFramebuffers d gl).1 = 0 := hfb
  cases depthBuffer with
  | false =>
    refine ⟨{ m_context := true, m_frameBuffer := (glGenFramebuffers d gl).1,
              m_depthBuffer := self.m_depthBuffer }, ?_⟩
    simp only [priv.RenderTextureImplFBO.create, hfb', if_false, Bool.false_eq_true,
      createStateBeforeLink, createStateBound, createFramebufferHandle]
  | true =>
    have hrb' := hrb rfl
    simp only [createDepthHandle, createStateBound, createFramebufferHandle] at hrb'
    refine ⟨{ m_context := true, m_frameBuffer := (glGenFramebuffers d gl).1,
              m_depthBuffer := (glGenRenderbuffers d
                (glBindFramebuffer (glGenFramebuffers d gl).2 (glGenFramebuffers d gl).1)).1 },
      ?_⟩
    simp only [priv.RenderTextureImplFBO.create, hfb', hrb', if_false, if_true,
      createStateBeforeLink, createStateBound, createFramebufferHandle, createDepthHandle]

theorem linkAndCheck_incomplete (d : GLDriver) (self : priv.RenderTextureImplFBO)
    (gl : GLState) (textureId : Nat)
    (hst : (glCheckFramebufferStatus d (glFramebufferTexture2D gl textureId 0)).1 ≠
      GLEXT_GL_FRAMEBUFFER_COMPLETE) :
    (priv.RenderTextureImplFBO.linkAndCheck d self gl textureId).result = false ∧
    (priv.RenderTextureImplFBO.linkAndCheck d self gl textureId).gl.boundFramebuffer = 0 := by
  simp only [priv.RenderTextureImplFBO.linkAndCheck, hst, if_true, ne_eq, not_false_eq_true]
  exact ⟨trivial, rfl⟩

/-- When the additions of the band are exact, the bottom computed by the
code is the bottom of the specification. -/
theorem lineBottom_eq_bandBottom (top : ℤ) (thickness : ℚ)
    (h1 : fadd thickness (1 / 2) = thickness + 1 / 2)
    (h2 : fadd (top : ℚ) (ffloor (thickness + 1 / 2)) = (top : ℚ) + ffloor (thickness + 1 / 2)) :
    lineBottom (top : ℚ) thickness = bandBottom (top : ℚ) thickness := by
  unfold lineBottom bandBottom
  rw [h1, h2]
  unfold ffloor
  have h : (top : ℚ) + thickness + 1 / 2 = (top : ℚ) + (thickness + 1 / 2) := by ring
  rw [h, Int.floor_int_add]
  push_cast
  rfl

theorem addLines_eq_band (v : LayoutVars) (x y : ℚ) (m : VertexArrayMap) :
    addLines v x y m = bandLinesRounded v x y m := rfl

theorem layoutStep_space (v : LayoutVars) (s : LayoutState) :
    layoutStep v s 32 =
      { x := fadd (kernedX v s 32) v.hspace
        y := s.y
        minX := min s.minX (kernedX v s 32)
        minY := min s.minY s.y
        maxX := max s.maxX (fadd (kernedX v s 32) v.hspace)
        maxY := max s.maxY s.y
        prevChar := 32
        verticesMap := s.verticesMap } := by
  simp [layoutStep, kernedX]

theorem layoutStep_tab (v : LayoutVars) (s : LayoutState) :
    layoutStep v s 9 =
      { x := fadd (kernedX v s 9) (fmul v.hspace 4)
        y := s.y
        minX := min s.minX (kernedX v s 9)
        minY := min s.minY s.y
        maxX := max s.maxX (fadd (kernedX v s 9) (fmul v.hspace 4))
        maxY := max s.maxY s.y
        prevChar := 9
        verticesMap := s.verticesMap } := by
  simp [layoutStep, kernedX]

theorem layoutStep_newline (v : LayoutVars) (s : LayoutState) :
    layoutStep v s 10 =
      { x := 0
        y := fadd s.y v.vspace
        minX := min s.minX (kernedX v s 10)
        minY := min s.minY s.y
        maxX := max s.maxX 0
        maxY := max s.maxY (fadd s.y v.vspace)
        prevChar := 10
        verticesMap := addLines v (kernedX v s 10) s.y s.verticesMap } := by
  simp [layoutStep, kernedX]

theorem layoutStep_glyph (v : LayoutVars) (s : LayoutState) (c : Nat)
    (h32 : c ≠ 32) (h9 : c ≠ 9) (h10 : c ≠ 10) :
    layoutStep v s c =
      { x := fadd (kernedX v s c) (toFloat (v.font.getGlyph c v.characterSize v.bold).advance)
        y := s.y
        minX := min s.minX
          (fsub (fadd (kernedX v s c)
              (toFloat (v.font.getGlyph c v.characterSize v.bold).bounds.left))
            (fmul v.italic
              (fadd (toFloat (v.font.getGlyph c v.characterSize v.bold).bounds.top)
                (toFloat (v.font.getGlyph c v.characterSize v.bold).bounds.height))))
        minY := min s.minY
          (fadd s.y (toFloat (v.font.getGlyph c v.characterSize v.bold).bounds.top))
        maxX := max s.maxX
          (fsub (fadd (kernedX v s c)
              (fadd (toFloat (v.font.getGlyph c v.characterSize v.bold).bounds.left)
                (toFloat (v.font.getGlyph c v.characterSize v.bold).bounds.width)))
            (fmul v.italic (toFloat (v.font.getGlyph c v.characterSize v.bold).bounds.top)))
        maxY := max s.maxY
          (fadd s.y
            (fadd (toFloat (v.font.getGlyph c v.characterSize v.bold).bounds.top)
              (toFloat (v.font.getGlyph c v.characterSize v.bold).bounds.height)))
        prevChar := c
        verticesMap :=
          VertexArrayMap.appendAt s.verticesMap
            (v.font.getGlyph c v.characterSize v.bold).texture
            (glyphQuad (kernedX v s c) s.y v.italic
              (v.font.getGlyph c v.characterSize v.bold) v.color) } := by
  simp [layoutStep, kernedX, h32, h9, h10]

theorem layoutLoop_cons (v : LayoutVars) (s : LayoutState) (c : Nat) (rest : List Nat) :
    layoutLoop v s (c :: rest) = layoutLoop v (layoutStep v s c) rest := rfl

theorem layoutLoop_snoc (v : LayoutVars) (s : LayoutState) (p : List Nat) (c : Nat) :
    layoutLoop v s (p ++ [c]) = layoutStep v (layoutLoop v s p) c := by
  simp [layoutLoop, List.foldl_append]

theorem pen_step (v : LayoutVars) (s : LayoutState) (p : Vector2f × Nat) (c : Nat)
    (hx : p.1.x = s.x) (hp : p.2 = s.prevChar) :
    (caretStep v.font v.characterSize v.bold v.hspace v.vspace p c).1.x =
        (layoutStep v s c).x ∧
    (caretStep v.font v.characterSize v.bold v.hspace v.vspace p c).2 =
        (layoutStep v s c).prevChar ∧
    (caretStep v.font v.characterSize v.bold v.hspace v.vspace p c).1.y =
        (if c = 10 then fadd p.1.y v.vspace else p.1.y) ∧
    (layoutStep v s c).y = (if c = 10 then fadd s.y v.vspace else s.y) := by
  by_cases h32 : c = 32
  · subst h32
    rw [layoutStep_space]
    simp [caretStep, kernedX, hx, hp]
  · by_cases h9 : c = 9
    · subst h9
      rw [layoutStep_tab]
      simp [caretStep, kernedX, hx, hp]
    · by_cases h10 : c = 10
      · subst h10
        rw [layoutStep_newline]
        simp [caretStep]
      · rw [layoutStep_glyph v s c h32 h9 h10]
        simp [caretStep, kernedX, hx, hp, h32, h9, h10]

theorem pen_loop (v : LayoutVars) (str : List Nat) :
    ∀ (s : LayoutState) (p : Vector2f × Nat), p.1.x = s.x → p.2 = s.prevChar →
      (str.foldl (caretStep v.font v.characterSize v.bold v.hspace v.vspace) p).1 =
          ⟨(layoutLoop v s str).x, lineFeeds v.vspace (str.count 10) p.1.y⟩ ∧
        (layoutLoop v s str).y = lineFeeds v.vspace (str.count 10) s.y := by
  induction str with
  | nil =>
    intro s p hx _
    cases p with
    | mk pos prev =>
      cases pos with
      | mk px py =>
        simp only [List.foldl_nil, layoutLoop, List.count_nil, lineFeeds] at hx ⊢
        simp [hx]
  | cons c rest ih =>
    intro s p hx hp
    obtain ⟨h1, h2, h3, h4⟩ := pen_step v s p c hx hp
    obtain ⟨i1, i2⟩ := ih _ _ h1 h2
    rw [List.foldl_cons, layoutLoop_cons, i1, i2, h3, h4]
    by_cases h10 : c = 10
    · subst h10
      simp [lineFeeds]
    · have hne : ¬ (10 = c) := fun e => h10 e.symm
      simp [h10, hne, List.count_cons]

theorem boxLe_step (v : LayoutVars) (s : LayoutState) (c : Nat) :
    boxLe s (layoutStep v s c) := by
  by_cases h32 : c = 32
  · subst h32
    rw [layoutStep_space]
    exact ⟨min_le_left _ _, le_max_left _ _, min_le_left _ _, le_max_left _ _⟩
  · by_cases h9 : c = 9
    · subst h9
      rw [layoutStep_tab]
      exact ⟨min_le_left _ _, le_max_left _ _, min_le_left _ _, le_max_left _ _⟩
    · by_cases h10 : c = 10
      · subst h10
        rw [layoutStep_newline]
        exact ⟨min_le_left _ _, le_max_left _ _, min_le_left _ _, le_max_left _ _⟩
      · rw [layoutStep_glyph v s c h32 h9 h10]
        exact ⟨min_le_left _ _, le_max_left _ _, min_le_left _ _, le_max_left _ _⟩

theorem verticesAt_appendAt (key : Nat) (vs : List Vertex) (k : Nat) :
    ∀ m : VertexArrayMap,
      VertexArrayMap.verticesAt (VertexArrayMap.appendAt m key vs) k =
        VertexArrayMap.verticesAt m k ++ (if key = k then vs else [])
  | [] => by
    by_cases h : key = k <;>
      simp [VertexArrayMap.appendAt, VertexArrayMap.verticesAt, VertexArrayMap.find, h,
        VertexArray.append, VertexArray.empty]
  | (k0, va) :: rest => by
    have ih := verticesAt_appendAt key vs k rest
    unfold VertexArrayMap.verticesAt at ih ⊢
    unfold VertexArrayMap.appendAt
    by_cases h0 : k0 = key
    · subst h0
      by_cases h : k0 = k
      · simp [VertexArrayMap.find, h, VertexArray.append]
      · simp [VertexArrayMap.find, h]
    · by_cases h : k0 = k
      · subst h
        have hne : ¬ key = k0 := fun e => h0 e.symm
        simp [VertexArrayMap.find, h0, hne]
      · simp only [h0, if_false, VertexArrayMap.find, h]
        exact ih

theorem verticesAt_clearAll (k : Nat) :
    ∀ m : VertexArrayMap, VertexArrayMap.verticesAt (clearAll m) k = []
  | [] => rfl
  | (k0, va) :: rest => by
    have ih := verticesAt_clearAll k rest
    unfold VertexArrayMap.verticesAt at ih ⊢
    by_cases h : k0 = k
    · simp [clearAll, VertexArrayMap.find, h, VertexArray.clear]
    · simp only [clearAll, List.map_cons, VertexArrayMap.find, h, if_false] at ih ⊢
      exact ih

theorem verticesAt_setTriangles (k : Nat) :
    ∀ m : VertexArrayMap,
      VertexArrayMap.verticesAt (setTriangles m) k = VertexArrayMap.verticesAt m k
  | [] => rfl
  | (k0, va) :: rest => by
    have ih := verticesAt_setTriangles k rest
    unfold VertexArrayMap.verticesAt at ih ⊢
    by_cases h : k0 = k
    · simp [setTriangles, VertexArrayMap.find, h, VertexArray.setPrimitiveType]
    · simp only [setTriangles, List.map_cons, VertexArrayMap.find, h, if_false] at ih ⊢
      exact ih

theorem verticesAt_recolor (c : Color) (k : Nat) :
    ∀ m : VertexArrayMap,
      VertexArrayMap.verticesAt (recolor m c) k =
        (VertexArrayMap.verticesAt m k).map (fun v => { v with color := c })
  | [] => rfl
  | (k0, va) :: rest => by
    have ih := verticesAt_recolor c k rest
    unfold VertexArrayMap.verticesAt at ih ⊢
    by_cases h : k0 = k
    · simp [recolor, VertexArrayMap.find, h]
    · simp only [recolor, List.map_cons, VertexArrayMap.find, h, if_false] at ih ⊢
      exact ih

theorem sameBatches_appendAt {m m1 : VertexArrayMap} (h : SameBatches m m1) (key : Nat)
    (vs : List Vertex) :
    SameBatches (VertexArrayMap.appendAt m key vs) (VertexArrayMap.appendAt m1 key vs) := by
  intro k
  rw [verticesAt_appendAt, verticesAt_appendAt, h k]

theorem sameBatches_applyEvents (evs : List (Nat × List Vertex)) :
    ∀ {m m1 : VertexArrayMap}, SameBatches m m1 →
      SameBatches (applyEvents evs m) (applyEvents evs m1) := by
  induction evs with
  | nil => intro m m1 h; exact h
  | cons e rest ih =>
    intro m m1 h
    simp only [applyEvents, List.foldl_cons] at ih ⊢
    exact ih (sameBatches_appendAt h e.1 e.2)

theorem sameBatches_clearAll_nil (m : VertexArrayMap) : SameBatches (clearAll m) [] := by
  intro k
  rw [verticesAt_clearAll]
  rfl

theorem sameBatches_laidOutMap (v : LayoutVars) (str : List Nat) (m : VertexArrayMap) :
    SameBatches (laidOutMap v str (clearAll m)) (laidOutMap v str (clearAll [])) := by
  obtain ⟨evs, h⟩ := laidOutMap_events v str
  intro k
  rw [h, h, verticesAt_setTriangles, verticesAt_setTriangles]
  exact sameBatches_applyEvents evs (sameBatches_clearAll_nil m) k

theorem freshLayout_ensure (heap : Nat → MyFont) (t : MyText) :
    freshLayout heap (t.ensureGeometryUpdate heap) = freshLayout heap t := by
  obtain ⟨h1, h2, h3, h4, h5⟩ := ensure_fields heap t
  unfold freshLayout freshText
  rw [h1, h2, h3, h4, h5]

/-- The update of a stale object gives the bounds and the batches of the
layout on an empty cache. -/
theorem ensure_eq_fresh (heap : Nat → MyFont) (t : MyText)
    (hd : t.m_geometryNeedUpdate = true) :
    (t.ensureGeometryUpdate heap).m_bounds = (freshLayout heap t).m_bounds ∧
    SameBatches (t.ensureGeometryUpdate heap).m_verticesMap
      (freshLayout heap t).m_verticesMap := by
  unfold freshLayout
  by_cases hf : t.m_font = 0
  · rw [ensure_noFont heap t hd hf, ensure_noFont heap (freshText t) rfl hf]
    exact ⟨rfl, sameBatches_clearAll_nil _⟩
  · by_cases hs : t.m_string = []
    · rw [ensure_noText heap t hd hs, ensure_noText heap (freshText t) rfl hs]
      exact ⟨rfl, sameBatches_clearAll_nil _⟩
    · rw [ensure_layout_eq heap t hd hf hs, ensure_layout_eq heap (freshText t) rfl hf hs]
      refine ⟨?_, ?_⟩
      · exact laidOutBounds_indep (layoutVars (heap t.m_font) t) _ _ _
      · exact sameBatches_laidOutMap (layoutVars (heap t.m_font) t) t.m_string t.m_verticesMap

theorem recolored_appendAt {c : Color} {m m1 : VertexArrayMap}
    (h : RecoloredBatches c m m1) (key : Nat) (vs : List Vertex) :
    RecoloredBatches c (VertexArrayMap.appendAt m key vs)
      (VertexArrayMap.appendAt m1 key (vs.map (fun v => { v with color := c }))) := by
  intro k
  rw [verticesAt_appendAt, verticesAt_appendAt, h k, List.map_append]
  by_cases hk : key = k <;> simp [hk]

theorem recolored_addLines (v : LayoutVars) (c : Color) (x y : ℚ) {m m1 : VertexArrayMap}
    (h : RecoloredBatches c m m1) :
    RecoloredBatches c (addLines v x y m) (addLines { v with color := c } x y m1) := by
  unfold addLines
  by_cases hu : v.underlined <;> by_cases hs : v.strikeThrough <;>
    simp only [hu, hs, if_true, if_false, Bool.false_eq_true]
  · exact recolored_appendAt (recolored_appendAt h 0 _) 0 _
  · exact recolored_appendAt h 0 _
  · exact recolored_appendAt h 0 _
  · exact h

theorem recolored_step (v : LayoutVars) (c : Color) (s : LayoutState) (ch : Nat)
    {m1 : VertexArrayMap} (h : RecoloredBatches c s.verticesMap m1) :
    ∃ m2 : VertexArrayMap,
      layoutStep { v with color := c } (s.withMap m1) ch = (layoutStep v s ch).withMap m2 ∧
        RecoloredBatches c (layoutStep v s ch).verticesMap m2 := by
  by_cases h32 : ch = 32
  · subst h32
    exact ⟨m1, by rw [layoutStep_space, layoutStep_space]; rfl,
      by rw [layoutStep_space]; exact h⟩
  · by_cases h9 : ch = 9
    · subst h9
      exact ⟨m1, by rw [layoutStep_tab, layoutStep_tab]; rfl,
        by rw [layoutStep_tab]; exact h⟩
    · by_cases h10 : ch = 10
      · subst h10
        refine ⟨addLines { v with color := c } (kernedX v s 10) s.y m1, ?_, ?_⟩
        · rw [layoutStep_newline, layoutStep_newline]; rfl
        · rw [layoutStep_newline]
          exact recolored_addLines v c _ _ h
      · refine ⟨VertexArrayMap.appendAt m1 (v.font.getGlyph ch v.characterSize v.bold).texture
          ((glyphQuad (kernedX v s ch) s.y v.italic
            (v.font.getGlyph ch v.characterSize v.bold) v.color).map
              (fun w => { w with color := c })), ?_, ?_⟩
        · rw [layoutStep_glyph _ _ ch h32 h9 h10, layoutStep_glyph _ _ ch h32 h9 h10]; rfl
        · rw [layoutStep_glyph _ _ ch h32 h9 h10]
          exact recolored_appendAt h _ _

theorem recolored_loop (v : LayoutVars) (c : Color) (str : List Nat) :
    ∀ (s : LayoutState) {m1 : VertexArrayMap}, RecoloredBatches c s.verticesMap m1 →
      ∃ m2 : VertexArrayMap,
        layoutLoop { v with color := c } (s.withMap m1) str =
            (layoutLoop v s str).withMap m2 ∧
          RecoloredBatches c (layoutLoop v s str).verticesMap m2 := by
  induction str with
  | nil => intro s m1 h; exact ⟨m1, rfl, h⟩
  | cons ch rest ih =>
    intro s m1 h
    obtain ⟨m2, e2, h2⟩ := recolored_step v c s ch h
    obtain ⟨m3, e3, h3⟩ := ih (layoutStep v s ch) h2
    refine ⟨m3, ?_, h3⟩
    rw [layoutLoop_cons, layoutLoop_cons, e2, e3]

theorem recolored_setTriangles {c : Color} {m m1 : VertexArrayMap}
    (h : RecoloredBatches c m m1) : RecoloredBatches c (setTriangles m) (setTriangles m1) := by
  intro k
  rw [verticesAt_setTriangles, verticesAt_setTriangles, h k]

theorem recolored_laidOut (v : LayoutVars) (c : Color) (str : List Nat) :
    laidOutBounds { v with color := c } str [] = laidOutBounds v str [] ∧
    RecoloredBatches c (laidOutMap v str []) (laidOutMap { v with color := c } str []) := by
  have h0 : RecoloredBatches c (layoutInit v []).verticesMap [] := fun _ => rfl
  obtain ⟨m2, e2, h2⟩ := recolored_loop v c str (layoutInit v []) h0
  have einit : layoutInit { v with color := c } [] = (layoutInit v []).withMap [] := rfl
  constructor
  · unfold laidOutBounds
    rw [einit, e2]
    rfl
  · unfold laidOutMap
    rw [einit, e2]
    exact recolored_setTriangles (recolored_addLines v c _ _ h2)

/-- The layout on an empty cache in another colour has the same bounds and the
same batches recoloured. -/
theorem freshLayout_color (heap : Nat → MyFont) (t : MyText) (c : Color) :
    (freshLayout heap { t with m_color := c }).m_bounds = (freshLayout heap t).m_bounds ∧
    RecoloredBatches c (freshLayout heap t).m_verticesMap
      (freshLayout heap { t with m_color := c }).m_verticesMap := by
  unfold freshLayout
  by_cases hf : t.m_font = 0
  · rw [ensure_noFont heap (freshText t) rfl hf,
      ensure_noFont heap (freshText { t with m_color := c }) rfl hf]
    exact ⟨rfl, fun _ => rfl⟩
  · by_cases hs : t.m_string = []
    · rw [ensure_noText heap (freshText t) rfl hs,
        ensure_noText heap (freshText { t with m_color := c }) rfl hs]
      exact ⟨rfl, fun _ => rfl⟩
    · rw [ensure_layout_eq heap (freshText t) rfl hf hs,
        ensure_layout_eq heap (freshText { t with m_color := c }) rfl hf hs]
      obtain ⟨hb, hm⟩ := recolored_laidOut (layoutVars (heap t.m_font) t) c t.m_string
      exact ⟨hb, hm⟩

theorem plainAppendAt_keys_nodup (key : Nat) (vs : List Vertex) (m : PlainMap)
    (h : (m.map (fun e => e.1)).Nodup) :
    ((plainAppendAt m key vs).map (fun e => e.1)).Nodup := by
  by_cases hmem : key ∈ m.map (fun e => e.1)
  · rw [(plainAppendAt_mem key vs [] m hmem).2]
    exact h
  · rw [(plainAppendAt_not_mem key vs m hmem).1]
    simp only [List.map_append, List.map_cons, List.map_nil]
    exact List.Nodup.append h (List.nodup_singleton _)
      (by
        intro a ha hb
        rw [List.mem_singleton] at hb
        subst hb
        exact hmem ha)

theorem keys_nodup_applyEvents (evs : List (Nat × List Vertex)) :
    ∀ m : VertexArrayMap, (VertexArrayMap.keys m).Nodup →
      (VertexArrayMap.keys (applyEvents evs m)).Nodup := by
  induction evs with
  | nil => intro m h; exact h
  | cons e rest ih =>
    intro m h
    simp only [applyEvents, List.foldl_cons] at ih ⊢
    apply ih
    rw [keys_eq_plain, plainOf_appendAt]
    apply plainAppendAt_keys_nodup
    rw [← keys_eq_plain]
    exact h

theorem keys_nodup_ensure (heap : Nat → MyFont) (t : MyText)
    (h : (VertexArrayMap.keys t.m_verticesMap).Nodup) :
    (VertexArrayMap.keys (t.ensureGeometryUpdate heap).m_verticesMap).Nodup := by
  cases hd : t.m_geometryNeedUpdate with
  | false => rw [ensure_clean heap t hd]; exact h
  | true =>
    by_cases hf : t.m_font = 0
    · rw [ensure_noFont heap t hd hf]
      show (VertexArrayMap.keys (clearAll t.m_verticesMap)).Nodup
      rw [keys_clearAll]; exact h
    · by_cases hs : t.m_string = []
      · rw [ensure_noText heap t hd hs]
        show (VertexArrayMap.keys (clearAll t.m_verticesMap)).Nodup
        rw [keys_clearAll]; exact h
      · rw [ensure_layout_eq heap t hd hf hs]
        show (VertexArrayMap.keys (laidOutMap _ _ _)).Nodup
        obtain ⟨evs, hev⟩ := laidOutMap_events (layoutVars (heap t.m_font) t) t.m_string
        rw [hev, keys_setTriangles]
        apply keys_nodup_applyEvents
        rw [keys_clearAll]; exact h

theorem keys_recolor (m : VertexArrayMap) (c : Color) :
    VertexArrayMap.keys (recolor m c) = VertexArrayMap.keys m := by
  simp [VertexArrayMap.keys, recolor, List.map_map, Function.comp_def]

theorem reachable_keys_nodup (heap : Nat → MyFont) (t : MyText) (hr : Reachable heap t) :
    (VertexArrayMap.keys t.m_verticesMap).Nodup := by
  induction hr with
  | mk0 => exact List.nodup_nil
  | mk3 string font size => exact List.nodup_nil
  | @setString t string _ ih =>
    rw [setString_map]; exact ih
  | @setFont t font _ ih =>
    unfold MyText.setFont
    split
    · exact List.nodup_nil
    · exact ih
  | @setCharacterSize t size _ ih =>
    unfold MyText.setCharacterSize
    split
    · exact List.nodup_nil
    · exact ih
  | @setStyle t style _ ih =>
    unfold MyText.setStyle
    split
    · exact ih
    · exact ih
  | @setColor t color _ ih =>
    unfold MyText.setColor
    split
    · split
      · show (VertexArrayMap.keys (recolor t.m_verticesMap color)).Nodup
        rw [keys_recolor]; exact ih
      · exact ih
    · exact ih
  | @ensureGeometryUpdate t _ ih => exact keys_nodup_ensure heap t ih

theorem cacheCoherent_ensure (heap : Nat → MyFont) (t : MyText)
    (ht : CacheCoherent heap t) : CacheCoherent heap (t.ensureGeometryUpdate heap) := by
  cases hd : t.m_geometryNeedUpdate with
  | false => rw [ensure_clean heap t hd]; exact ht
  | true =>
    intro _
    rw [freshLayout_ensure]
    exact ensure_eq_fresh heap t hd

theorem reachable_cacheCoherent (heap : Nat → MyFont) (t : MyText)
    (hr : Reachable heap t) : CacheCoherent heap t := by
  induction hr with
  | mk0 => intro _; exact ⟨rfl, fun _ => rfl⟩
  | mk3 string font size => intro h; cases h
  | @setString t string _ ih =>
    unfold MyText.setString
    split
    · intro h; cases h
    · exact ih
  | @setFont t font _ ih =>
    unfold MyText.setFont
    split
    · intro h; cases h
    · exact ih
  | @setCharacterSize t size _ ih =>
    unfold MyText.setCharacterSize
    split
    · intro h; cases h
    · exact ih
  | @setStyle t style _ ih =>
    unfold MyText.setStyle
    split
    · intro h; cases h
    · exact ih
  | @setColor t color _ ih =>
    unfold MyText.setColor
    split
    · split
      · rename_i hfresh
        have hfresh' : t.m_geometryNeedUpdate = false := by simpa using hfresh
        obtain ⟨hb, hm⟩ := ih hfresh'
        obtain ⟨cb, cm⟩ := freshLayout_color heap t color
        intro _
        refine ⟨?_, ?_⟩
        · show t.m_bounds = (freshLayout heap { t with m_color := color }).m_bounds
          rw [cb]; exact hb
        · intro k
          show VertexArrayMap.verticesAt (recolor t.m_verticesMap color) k =
            VertexArrayMap.verticesAt (freshLayout heap { t with m_color := color }).m_verticesMap k
          rw [verticesAt_recolor, hm k, cm k]
      · rename_i hd
        intro h
        simp only at h
        simp [h] at hd
    · exact ih
  | @ensureGeometryUpdate t _ ih => exact cacheCoherent_ensure heap t ih

theorem freshText_eq_constructed (t : MyText) :
    freshText t =
      ((MyText.mk3 t.m_string t.m_font t.m_characterSize).setStyle t.m_style).setColor
        t.m_color := by
  unfold MyText.setColor MyText.setStyle MyText.mk3 freshText
  by_cases hs : Regular = t.m_style <;> by_cases hc : t.m_color = ⟨255, 255, 255, 255⟩ <;>
    simp [hs, hc, FloatRect.zero]

theorem setColor_flag (t : MyText) (c : Color) :
    (t.setColor c).m_geometryNeedUpdate = t.m_geometryNeedUpdate := by
  unfold MyText.setColor
  split
  · split <;> rfl
  · rfl

theorem laidOutBounds_snoc (v : LayoutVars) (str : List Nat) (c : Nat) (m : VertexArrayMap) :
    rectExtends (laidOutBounds v (str ++ [c]) m) (laidOutBounds v str m) := by
  have hmono := boxLe_step v (layoutLoop v (layoutInit v m) str) c
  unfold laidOutBounds rectExtends
  rw [layoutLoop_snoc]
  obtain ⟨h1, h2, h3, h4⟩ := hmono
  exact ⟨h1, h3, fsub_mono h2 h1, fsub_mono h4 h3⟩

theorem freshLayout_bounds (heap : Nat → MyFont) (t : MyText) :
    (freshLayout heap t).m_bounds =
      if t.m_font = 0 ∨ t.m_string = [] then FloatRect.zero
      else laidOutBounds (layoutVars (heap t.m_font) t) t.m_string [] := by
  unfold freshLayout
  by_cases hf : t.m_font = 0
  · rw [ensure_noFont heap (freshText t) rfl hf]
    simp [hf, clearedText]
  · by_cases hs : t.m_string = []
    · rw [ensure_noText heap (freshText t) rfl hs]
      simp [hs, clearedText]
    · rw [ensure_layout_eq heap (freshText t) rfl hf hs]
      simp only [hf, hs, or_self, if_false]
      rfl

theorem freshLayout_setString (heap : Nat → MyFont) (t : MyText) (s : List Nat) :
    (freshLayout heap (t.setString s)).m_bounds =
      (freshLayout heap { t with m_string := s }).m_bounds := by
  unfold MyText.setString
  split
  · rfl
  · rename_i h
    have h' : t.m_string = s := not_not.1 h
    subst h'
    rfl

theorem getLocalBounds_fresh (heap : Nat → MyFont) (t : MyText) (hr : Reachable heap t) :
    (t.getLocalBounds heap).1 = (freshLayout heap t).m_bounds := by
  show (t.ensureGeometryUpdate heap).m_bounds = _
  cases hd : t.m_geometryNeedUpdate with
  | false =>
    rw [ensure_clean heap t hd]
    exact (reachable_cacheCoherent heap t hr hd).1
  | true => exact (ensure_eq_fresh heap t hd).1

theorem freshLayout_bounds_snoc (heap : Nat → MyFont) (t : MyText) (c : Nat)
    (hs : t.m_string ≠ []) :
    rectExtends (freshLayout heap (t.setString (t.m_string ++ [c]))).m_bounds
      (freshLayout heap t).m_bounds := by
  rw [freshLayout_setString, freshLayout_bounds, freshLayout_bounds]
  by_cases hf : t.m_font = 0
  · simp only [hf, true_or, if_true]
    exact ⟨le_refl _, le_refl _, le_refl _, le_refl _⟩
  · have h1 : ¬ (t.m_font = 0 ∨ t.m_string = []) := fun h => h.elim hf hs
    have h2 : ¬ (t.m_font = 0 ∨ t.m_string ++ [c] = []) := by
      intro h
      rcases h with h | h
      · exact hf h
      · simp at h
    simp only [h1, h2, if_false]
    exact laidOutBounds_snoc (layoutVars (heap t.m_font) t) t.m_string c []

theorem setString_dirty (t : MyText) (s : List Nat) (hd : t.m_geometryNeedUpdate = true) :
    (t.setString s).m_geometryNeedUpdate = true := by
  unfold MyText.setString
  split
  · rfl
  · exact hd

/-! ## The claims -/

/-- C1: in every reachable state, when the font is absent or the content is
empty, `getLocalBounds` returns the zero rectangle and, in the object left by
the update it performs, every cached batch holds zero vertices. -/
theorem C1_degenerate_bounds (heap : Nat → MyFont) (t : MyText)
    (hr : Reachable heap t) (h : t.m_font = 0 ∨ t.m_string = []) :
    (t.getLocalBounds heap).1 = ⟨0, 0, 0, 0⟩ ∧
      ∀ e ∈ (t.getLocalBounds heap).2.m_verticesMap, e.2.getVertexCount = 0 := by
  have hinv := reachable_emptyWhenNothing heap _ (Reachable.ensureGeometryUpdate hr)
  obtain ⟨e1, e2, _⟩ := ensure_fields heap t
  have := hinv (ensure_not_dirty heap t) (by rw [e1, e2]; exact h)
  exact this

/-- C1 at a concrete object: a laid out "A" whose content is then emptied. -/
theorem C1_degenerate_bounds_witness :
    ((((MyText.mk3 [65] 1 20).ensureGeometryUpdate monoHeap).setString []).getLocalBounds
        monoHeap).1 = ⟨0, 0, 0, 0⟩ ∧
      ∀ e ∈ ((((MyText.mk3 [65] 1 20).ensureGeometryUpdate monoHeap).setString
        []).getLocalBounds monoHeap).2.m_verticesMap, e.2.getVertexCount = 0 :=
  C1_degenerate_bounds monoHeap
    (((MyText.mk3 [65] 1 20).ensureGeometryUpdate monoHeap).setString [])
    (Reachable.setString [] (Reachable.ensureGeometryUpdate (Reachable.mk3 [65] 1 20)))
    (Or.inr (by decide))

/-- C2: with a font, an index at or beyond the content length gives the caret
of the content length; without a font the caret is the zero vector for every
index. -/
theorem C2_findCharacterPos_clamp (heap : Nat → MyFont) (tr : Transform) (t : MyText) :
    (t.m_font ≠ 0 → ∀ i : Nat, t.m_string.length ≤ i →
      t.findCharacterPos heap tr i = t.findCharacterPos heap tr t.m_string.length) ∧
    (t.m_font = 0 → ∀ i : Nat, t.findCharacterPos heap tr i = ⟨0, 0⟩) := by
  constructor
  · intro hf i hi
    unfold MyText.findCharacterPos
    simp only [hf, if_false, lt_irrefl, gt_iff_lt]
    by_cases hlt : t.m_string.length < i
    · simp only [hlt, if_true]
    · have hi2 : i = t.m_string.length := le_antisymm (not_lt.1 hlt) hi
      simp only [hi2, lt_irrefl, if_false]
  · intro hf i
    simp [MyText.findCharacterPos, hf]

/-- C2 at concrete objects: index 5 in "A" with the test font, and index 3 in
the default-constructed text. -/
theorem C2_findCharacterPos_clamp_witness :
    ((MyText.mk3 [65] 1 20).findCharacterPos monoHeap Transform.Identity 5 =
      (MyText.mk3 [65] 1 20).findCharacterPos monoHeap Transform.Identity
        (MyText.mk3 [65] 1 20).m_string.length) ∧
    (MyText.mk0.findCharacterPos monoHeap Transform.Identity 3 = ⟨0, 0⟩) :=
  ⟨(C2_findCharacterPos_clamp monoHeap Transform.Identity (MyText.mk3 [65] 1 20)).1
      (by decide) 5 (by decide),
   (C2_findCharacterPos_clamp monoHeap Transform.Identity MyText.mk0).2 rfl 3⟩

/-- C3, as stated, fails: in a font without kerning whose glyphs advance by
the `float` nearest to 0.1, the caret after the three regular characters of
"AAA" is at x = 5033165 / 2 ^ 24, the result of three rounded additions, and
not at the sum 40265319 / 2 ^ 27 of the three advances. -/
theorem C3_counterexample :
    (MyText.mk3 [65, 65, 65] 1 20).m_font ≠ 0 ∧
    (∀ c ∈ (MyText.mk3 [65, 65, 65] 1 20).m_string, c ≠ 32 ∧ c ≠ 9 ∧ c ≠ 10) ∧
    (∀ a b : Nat, (tenthHeap (MyText.mk3 [65, 65, 65] 1 20).m_font).getKerning a b
      (MyText.mk3 [65, 65, 65] 1 20).m_characterSize = 0) ∧
    toFloat (advanceOf tenthHeap (MyText.mk3 [65, 65, 65] 1 20) 65) =
      advanceOf tenthHeap (MyText.mk3 [65, 65, 65] 1 20) 65 ∧
    (MyText.mk3 [65, 65, 65] 1 20).findCharacterPos tenthHeap Transform.Identity 3 =
      ⟨5033165 / 16777216, 0⟩ ∧
    (((MyText.mk3 [65, 65, 65] 1 20).m_string.take 3).map
      (advanceOf tenthHeap (MyText.mk3 [65, 65, 65] 1 20))).sum = 40265319 / 134217728 ∧
    ¬ ((MyText.mk3 [65, 65, 65] 1 20).findCharacterPos tenthHeap Transform.Identity 3 =
      ⟨(((MyText.mk3 [65, 65, 65] 1 20).m_string.take 3).map
        (advanceOf tenthHeap (MyText.mk3 [65, 65, 65] 1 20))).sum, 0⟩) :=
  ⟨by decide, by decide, fun _ _ => rfl, by decide!, by decide!, by decide!, by decide!⟩

/-- C3, amended: for a content of regular characters, a font without kerning
and the identity transform, the caret before index 0 is the origin and the
caret before index `i` is (s, 0) where s is the sum of the advances of the
first `i` characters accumulated in `float` from left to right, every addition
rounded; the caret before index 1 is (advance of the first character, 0). -/
theorem C3_caret_is_rounded_sum (heap : Nat → MyFont) (t : MyText)
    (hf : t.m_font ≠ 0)
    (hreg : ∀ c ∈ t.m_string, c ≠ 32 ∧ c ≠ 9 ∧ c ≠ 10)
    (hk : ∀ a b : Nat, (heap t.m_font).getKerning a b t.m_characterSize = 0) :
    t.findCharacterPos heap Transform.Identity 0 = ⟨0, 0⟩ ∧
    (∀ i : Nat, i ≤ t.m_string.length →
      t.findCharacterPos heap Transform.Identity i =
        ⟨floatSum ((t.m_string.take i).map (advanceOf heap t)), 0⟩) ∧
    (∀ (c : Nat) (rest : List Nat), t.m_string = c :: rest →
      t.findCharacterPos heap Transform.Identity 1 = ⟨toFloat (advanceOf heap t c), 0⟩) := by
  have key : ∀ i : Nat, i ≤ t.m_string.length →
      t.findCharacterPos heap Transform.Identity i =
        ⟨floatSum ((t.m_string.take i).map (advanceOf heap t)), 0⟩ := by
    intro i hi
    unfold MyText.findCharacterPos
    simp only [hf, if_false, gt_iff_lt, not_lt.2 hi, Transform.Identity]
    rw [caret_fold_regular _ _ _ _ _ hk _ _ roundF32_zero
      (fun c hc => hreg c (List.mem_of_mem_take hc))]
    rfl
  refine ⟨?_, key, ?_⟩
  · have := key 0 (Nat.zero_le _)
    simpa [floatSum] using this
  · intro c rest hs
    rw [key 1 (by rw [hs]; simp), hs]
    simp [floatSum, fadd_zero_left]

/-- C3, amended, at the content "A" with advance 10 and size 20: the caret
before index 0 is the origin and the caret before index 1 is (10, 0). -/
theorem C3_caret_is_rounded_sum_witness :
    (MyText.mk3 [65] 1 20).findCharacterPos monoHeap Transform.Identity 0 = ⟨0, 0⟩ ∧
    (MyText.mk3 [65] 1 20).findCharacterPos monoHeap Transform.Identity 1 = ⟨10, 0⟩ := by
  have h := C3_caret_is_rounded_sum monoHeap (MyText.mk3 [65] 1 20) (by decide)
    (by decide) (fun _ _ => rfl)
  refine ⟨h.1, ?_⟩
  rw [h.2.2 65 [] rfl]
  decide!

/-- C4: for a new value different from the current one, `setFont` and
`setCharacterSize` set the dirty flag and empty the batch map, `setString` and
`setStyle` set the dirty flag and leave the batch map unchanged; `setColor`
never changes the dirty flag. -/
theorem C4_setter_invalidation (t : MyText) :
    (∀ font : Nat, font ≠ t.m_font →
      (t.setFont font).m_geometryNeedUpdate = true ∧ (t.setFont font).m_verticesMap = []) ∧
    (∀ size : Nat, size ≠ t.m_characterSize →
      (t.setCharacterSize size).m_geometryNeedUpdate = true ∧
        (t.setCharacterSize size).m_verticesMap = []) ∧
    (∀ string : List Nat, string ≠ t.m_string →
      (t.setString string).m_geometryNeedUpdate = true ∧
        (t.setString string).m_verticesMap = t.m_verticesMap) ∧
    (∀ style : Nat, style ≠ t.m_style →
      (t.setStyle style).m_geometryNeedUpdate = true ∧
        (t.setStyle style).m_verticesMap = t.m_verticesMap) ∧
    (∀ color : Color, (t.setColor color).m_geometryNeedUpdate = t.m_geometryNeedUpdate) := by
  refine ⟨?_, ?_, ?_, ?_, ?_⟩
  · intro font h
    simp [MyText.setFont, Ne.symm h]
  · intro size h
    simp [MyText.setCharacterSize, Ne.symm h]
  · intro string h
    simp [MyText.setString, Ne.symm h]
  · intro style h
    simp [MyText.setStyle, Ne.symm h]
  · intro color
    unfold MyText.setColor
    split
    · split <;> rfl
    · rfl

/-- C4 at the laid out "A": a new font, size, content and style. -/
theorem C4_setter_invalidation_witness :
    ((laidOutA.setFont 2).m_geometryNeedUpdate = true ∧ (laidOutA.setFont 2).m_verticesMap = []) ∧
    ((laidOutA.setCharacterSize 12).m_geometryNeedUpdate = true ∧
      (laidOutA.setCharacterSize 12).m_verticesMap = []) ∧
    ((laidOutA.setString [66]).m_geometryNeedUpdate = true ∧
      (laidOutA.setString [66]).m_verticesMap = laidOutA.m_verticesMap) ∧
    ((laidOutA.setStyle 4).m_geometryNeedUpdate = true ∧
      (laidOutA.setStyle 4).m_verticesMap = laidOutA.m_verticesMap) :=
  ⟨(C4_setter_invalidation laidOutA).1 2 (by decide),
   (C4_setter_invalidation laidOutA).2.1 12 (by decide),
   (C4_setter_invalidation laidOutA).2.2.1 [66] (by decide),
   (C4_setter_invalidation laidOutA).2.2.2.1 4 (by decide)⟩

/-- C5: every setter called with the value currently stored leaves the whole
object unchanged. -/
theorem C5_setter_same_value_noop (t : MyText) :
    t.setString t.m_string = t ∧ t.setFont t.m_font = t ∧
    t.setCharacterSize t.m_characterSize = t ∧ t.setStyle t.m_style = t ∧
    t.setColor t.m_color = t := by
  simp [MyText.setString, MyText.setFont, MyText.setCharacterSize, MyText.setStyle,
    MyText.setColor]

/-- C6: in a reachable state whose geometry is not dirty, `setColor c` keeps
the batch keys, the vertex counts, every position and texture coordinate and
the bounds, and afterwards every cached vertex has the colour `c`. -/
theorem C6_setColor_fast_path (heap : Nat → MyFont) (t : MyText)
    (hr : Reachable heap t) (hfresh : t.m_geometryNeedUpdate = false) (c : Color) :
    (t.setColor c).m_verticesMap.keys = t.m_verticesMap.keys ∧
    (t.setColor c).m_verticesMap.map (fun e => e.2.getVertexCount) =
      t.m_verticesMap.map (fun e => e.2.getVertexCount) ∧
    geometryOf (t.setColor c).m_verticesMap = geometryOf t.m_verticesMap ∧
    (t.setColor c).m_bounds = t.m_bounds ∧
    (∀ e ∈ (t.setColor c).m_verticesMap, ∀ v ∈ e.2.m_vertices, v.color = c) := by
  by_cases hc : c = t.m_color
  · subst hc
    rw [(setColor_same t)]
    exact ⟨rfl, rfl, rfl, rfl, reachable_colorCoherent heap t hr hfresh⟩
  · have hset : t.setColor c =
        { t with m_color := c, m_verticesMap := recolor t.m_verticesMap c } := by
      simp [MyText.setColor, hc, hfresh]
    rw [hset]
    refine ⟨?_, ?_, ?_, rfl, allColor_recolor c _⟩
    · simp [VertexArrayMap.keys, recolor, List.map_map, Function.comp_def]
    · simp [recolor, List.map_map, Function.comp_def, VertexArray.getVertexCount]
    · simp [geometryOf, recolor, List.map_map, Function.comp_def]

/-- C6 at the laid out "A" recoloured in red. -/
theorem C6_setColor_fast_path_witness :
    laidOutA.m_geometryNeedUpdate = false ∧
    (laidOutA.setColor ⟨255, 0, 0, 255⟩).m_verticesMap.keys = laidOutA.m_verticesMap.keys ∧
    (laidOutA.setColor ⟨255, 0, 0, 255⟩).m_verticesMap.map (fun e => e.2.getVertexCount) =
      laidOutA.m_verticesMap.map (fun e => e.2.getVertexCount) ∧
    geometryOf (laidOutA.setColor ⟨255, 0, 0, 255⟩).m_verticesMap =
      geometryOf laidOutA.m_verticesMap ∧
    (laidOutA.setColor ⟨255, 0, 0, 255⟩).m_bounds = laidOutA.m_bounds ∧
    (∀ e ∈ (laidOutA.setColor ⟨255, 0, 0, 255⟩).m_verticesMap,
      ∀ v ∈ e.2.m_vertices, v.color = ⟨255, 0, 0, 255⟩) :=
  ⟨rfl, C6_setColor_fast_path monoHeap laidOutA
    (Reachable.ensureGeometryUpdate (Reachable.mk3 [65] 1 20)) rfl ⟨255, 0, 0, 255⟩⟩

/-- C7: the geometry update run twice in a row gives the object that one run
gives, two successive `getLocalBounds` calls return the same rectangle, and a
layout forced again on the laid out object (content, font, size, style and
colour unchanged) rebuilds exactly the same batches and bounds. -/
theorem C7_layout_idempotent (heap : Nat → MyFont) (t : MyText) :
    (t.ensureGeometryUpdate heap).ensureGeometryUpdate heap = t.ensureGeometryUpdate heap ∧
    ((t.getLocalBounds heap).2.getLocalBounds heap).1 = (t.getLocalBounds heap).1 ∧
    (t.m_geometryNeedUpdate = true →
      (t.ensureGeometryUpdate heap).markStale.ensureGeometryUpdate heap =
        t.ensureGeometryUpdate heap) := by
  have h1 : (t.ensureGeometryUpdate heap).ensureGeometryUpdate heap =
      t.ensureGeometryUpdate heap := ensure_clean heap _ (ensure_not_dirty heap t)
  refine ⟨h1, ?_, ?_⟩
  · show ((t.ensureGeometryUpdate heap).ensureGeometryUpdate heap).m_bounds =
      (t.ensureGeometryUpdate heap).m_bounds
    rw [h1]
  · intro hd
    by_cases hf : t.m_font = 0
    · rw [ensure_noFont heap t hd hf, ensure_noFont heap (clearedText t).markStale rfl hf]
      simp [clearedText, MyText.markStale, clearAll_clearAll]
    · by_cases hs : t.m_string = []
      · rw [ensure_noText heap t hd hs, ensure_noText heap (clearedText t).markStale rfl hs]
        simp [clearedText, MyText.markStale, clearAll_clearAll]
      · rw [ensure_layout_eq heap t hd hf hs]
        rw [ensure_markStale_layout heap]
        · simp only [clearedText, MyText.mk.injEq, true_and, and_true]
          refine ⟨?_, ?_⟩
          · exact laidOutMap_again (layoutVars (heap t.m_font) t) _ _
          · exact laidOutBounds_indep (layoutVars (heap t.m_font) t) _ _ _
        · exact hf
        · exact hs

/-- C7 at the text "A" with an underline: the forced second layout. -/
theorem C7_layout_idempotent_witness :
    (((MyText.mk3 [65] 1 20).setStyle Underlined).ensureGeometryUpdate
        monoHeap).markStale.ensureGeometryUpdate monoHeap =
      ((MyText.mk3 [65] 1 20).setStyle Underlined).ensureGeometryUpdate monoHeap :=
  (C7_layout_idempotent monoHeap ((MyText.mk3 [65] 1 20).setStyle Underlined)).2.2 rfl

/-- C8, as stated, fails: for the content "\n" of size 20 in a font whose line
spacing is the `float` nearest to 0.1, the bounds have the height
52429 / 2 ^ 19 = fl(fl(20 + 0.1) - 20), about 0.10000038, which is not the
line spacing. -/
theorem C8_counterexample :
    (MyText.mk3 [10] 1 20).m_geometryNeedUpdate = true ∧
    (MyText.mk3 [10] 1 20).m_font ≠ 0 ∧
    0 ≤ (tenthHeap (MyText.mk3 [10] 1 20).m_font).getLineSpacing
      (MyText.mk3 [10] 1 20).m_characterSize ∧
    toFloat ((tenthHeap (MyText.mk3 [10] 1 20).m_font).getLineSpacing
        (MyText.mk3 [10] 1 20).m_characterSize) =
      (tenthHeap (MyText.mk3 [10] 1 20).m_font).getLineSpacing
        (MyText.mk3 [10] 1 20).m_characterSize ∧
    ((MyText.mk3 [10] 1 20).ensureGeometryUpdate tenthHeap).m_bounds.height =
      52429 / 524288 ∧
    ¬ (((MyText.mk3 [10] 1 20).ensureGeometryUpdate tenthHeap).m_bounds.height =
      (tenthHeap (MyText.mk3 [10] 1 20).m_font).getLineSpacing
        (MyText.mk3 [10] 1 20).m_characterSize) :=
  ⟨rfl, by decide, by decide!, by decide!, by decide!, by decide!⟩

/-- C8, amended: for the content made of one newline, a font with a
non-negative line spacing and any character size, the layout puts no vertex in
a texture batch (no batch at all holds a vertex when neither decoration style
is set) and the height of the bounds is `fl(fl(size + spacing) - size)`, the
two operations in `float`; it is the line spacing whenever the sum
`size + spacing` is computed exactly. -/
theorem C8_single_newline_height (heap : Nat → MyFont) (t : MyText)
    (hd : t.m_geometryNeedUpdate = true) (hf : t.m_font ≠ 0) (hs : t.m_string = [10])
    (hv : 0 ≤ (heap t.m_font).getLineSpacing t.m_characterSize) :
    (t.ensureGeometryUpdate heap).m_bounds.height =
      fsub (fadd (toFloat (t.m_characterSize : ℚ))
          (toFloat ((heap t.m_font).getLineSpacing t.m_characterSize)))
        (toFloat (t.m_characterSize : ℚ)) ∧
    (fadd (toFloat (t.m_characterSize : ℚ))
        (toFloat ((heap t.m_font).getLineSpacing t.m_characterSize)) =
      toFloat (t.m_characterSize : ℚ) +
        toFloat ((heap t.m_font).getLineSpacing t.m_characterSize) →
      (t.ensureGeometryUpdate heap).m_bounds.height =
        toFloat ((heap t.m_font).getLineSpacing t.m_characterSize)) ∧
    (∀ e ∈ (t.ensureGeometryUpdate heap).m_verticesMap, e.1 ≠ 0 → e.2.getVertexCount = 0) ∧
    (decorationCount t.m_style = 0 →
      ∀ e ∈ (t.ensureGeometryUpdate heap).m_verticesMap, e.2.getVertexCount = 0) := by
  have hne : t.m_string ≠ [] := by rw [hs]; exact List.cons_ne_nil _ _
  have hres : layoutResult heap t =
      layoutStep (layoutVars (heap t.m_font) t)
        (layoutInit (layoutVars (heap t.m_font) t) (clearAll t.m_verticesMap)) 10 := by
    simp [layoutResult, layoutLoop, hs]
  have hheight : (t.ensureGeometryUpdate heap).m_bounds.height =
      fsub (fadd (toFloat (t.m_characterSize : ℚ))
          (toFloat ((heap t.m_font).getLineSpacing t.m_characterSize)))
        (toFloat (t.m_characterSize : ℚ)) := by
    rw [ensure_layout heap t hd hf hne]
    show fsub (layoutResult heap t).maxY (layoutResult heap t).minY = _
    rw [hres, layoutStep_newline]
    have hsz : (0 : ℚ) ≤ toFloat (t.m_characterSize : ℚ) := toFloat_nonneg (Nat.cast_nonneg _)
    have hsum : (0 : ℚ) ≤ fadd (toFloat (t.m_characterSize : ℚ))
        (toFloat ((heap t.m_font).getLineSpacing t.m_characterSize)) :=
      fadd_nonneg hsz (toFloat_nonneg hv)
    simp only [layoutInit, layoutVars, min_self]
    rw [max_eq_right hsum]
  refine ⟨hheight, ?_, ?_, ?_⟩
  · intro hex
    rw [hheight, hex]
    unfold fsub
    rw [add_sub_cancel_left]
    exact toFloat_idem _
  · rw [ensure_layout heap t hd hf hne]
    intro e he hkey
    obtain ⟨a, ha, hk, hc⟩ := mem_setTriangles_count _ e he
    rw [← hc]
    have ha' := mem_addLines_of_ne _ _ _ _ a (by rw [hk]; exact hkey) ha
    rw [hres, layoutStep_map_newline] at ha'
    exact allEmpty_clearAll _ a (mem_addLines_of_ne _ _ _ _ a (by rw [hk]; exact hkey) ha')
  · rw [ensure_layout heap t hd hf hne]
    intro hdec
    apply allEmpty_of_totalCount
    rw [totalCount_setTriangles, totalCount_addLines, hres, layoutStep_map_newline,
      totalCount_addLines, layoutVars_decorations, hdec]
    exact totalCount_clearAll _

/-- C8, amended, at the text "\n" of size 20 in the test font (line spacing
24): the sum 20 + 24 is exact and the height is 24. -/
theorem C8_single_newline_height_witness :
    ((MyText.mk3 [10] 1 20).ensureGeometryUpdate monoHeap).m_bounds.height =
      toFloat ((monoHeap (MyText.mk3 [10] 1 20).m_font).getLineSpacing
        (MyText.mk3 [10] 1 20).m_characterSize) ∧
    toFloat ((monoHeap (MyText.mk3 [10] 1 20).m_font).getLineSpacing
        (MyText.mk3 [10] 1 20).m_characterSize) = 24 ∧
    (∀ e ∈ ((MyText.mk3 [10] 1 20).ensureGeometryUpdate monoHeap).m_verticesMap,
      e.1 ≠ 0 → e.2.getVertexCount = 0) :=
  ⟨(C8_single_newline_height monoHeap (MyText.mk3 [10] 1 20) rfl (by decide) rfl
      (by decide!)).2.1 (by decide!),
   by decide!,
   (C8_single_newline_height monoHeap (MyText.mk3 [10] 1 20) rfl (by decide) rfl
      (by decide!)).2.2.1⟩

/-- C9: for a non-empty content with `n` newlines and a font whose glyphs
never lie on the no-texture key, the layout leaves exactly `6 * (n + 1) * d`
vertices in the no-texture batch, `d` being the number of decoration styles
that are set. -/
theorem C9_decoration_vertex_count (heap : Nat → MyFont) (t : MyText)
    (hd : t.m_geometryNeedUpdate = true) (hf : t.m_font ≠ 0) (hs : t.m_string ≠ [])
    (htex : ∀ (c size : Nat) (bold : Bool),
      ((heap t.m_font).getGlyph c size bold).texture ≠ 0) :
    VertexArrayMap.countAt (t.ensureGeometryUpdate heap).m_verticesMap 0 =
      6 * (t.m_string.count 10 + 1) * decorationCount t.m_style := by
  rw [ensure_layout heap t hd hf hs]
  show VertexArrayMap.countAt (setTriangles _) 0 = _
  rw [countAt_setTriangles, countAt_addLines]
  unfold layoutResult
  rw [countAt_layoutLoop, layoutVars_decorations]
  have hzero : regularCountOn (layoutVars (heap t.m_font) t).font
      (layoutVars (heap t.m_font) t).characterSize (layoutVars (heap t.m_font) t).bold 0
      t.m_string = 0 := by
    unfold regularCountOn
    rw [List.countP_eq_zero]
    intro c _
    have := htex c (layoutVars (heap t.m_font) t).characterSize
      (layoutVars (heap t.m_font) t).bold
    simp [layoutVars] at this ⊢
    intro _
    exact this
  rw [hzero]
  have hclear : VertexArrayMap.countAt
      (layoutInit (layoutVars (heap t.m_font) t) (clearAll t.m_verticesMap)).verticesMap 0
      = 0 := countAt_clearAll 0 _
  rw [hclear]
  simp only [if_true]
  ring

/-- C9 at the text "A" with only `Underlined` set: two batches, the decoration
batch with two triangles and the glyph batch (texture 7) with the glyph quad. -/
theorem C9_decoration_vertex_count_witness :
    VertexArrayMap.countAt
      (((MyText.mk3 [65] 1 20).setStyle Underlined).ensureGeometryUpdate
        monoHeap).m_verticesMap 0 = 6 ∧
    VertexArrayMap.countAt
      (((MyText.mk3 [65] 1 20).setStyle Underlined).ensureGeometryUpdate
        monoHeap).m_verticesMap 7 = 6 ∧
    (((MyText.mk3 [65] 1 20).setStyle Underlined).ensureGeometryUpdate
        monoHeap).m_verticesMap.length = 2 := by
  refine ⟨?_, by decide, by decide⟩
  have h := C9_decoration_vertex_count monoHeap
    ((MyText.mk3 [65] 1 20).setStyle Underlined) rfl (by decide) (by decide)
    (fun _ _ _ => by simp [monoHeap, monoFont])
  exact h

/-- C10: with no decoration style set, the layout of a non-empty content
leaves `6 * r` vertices in total, `r` being the number of code points other
than space, tab and newline; the batch of a texture holds 6 vertices for each
such code point whose glyph lies on that texture; a whitespace code point
leaves the batches as they are and another code point adds 6 vertices to the
batch of the texture of its glyph and to no other batch. -/
theorem C10_whitespace_emits_no_quad (heap : Nat → MyFont) (t : MyText)
    (hd : t.m_geometryNeedUpdate = true) (hf : t.m_font ≠ 0) (hs : t.m_string ≠ [])
    (hu : t.m_style &&& Underlined = 0) (hst : t.m_style &&& StrikeThrough = 0) :
    VertexArrayMap.totalCount (t.ensureGeometryUpdate heap).m_verticesMap =
      6 * regularCount t.m_string ∧
    (∀ key : Nat, VertexArrayMap.countAt (t.ensureGeometryUpdate heap).m_verticesMap key =
      6 * regularCountOn (heap t.m_font) t.m_characterSize ((t.m_style &&& Bold) != 0) key
        t.m_string) ∧
    (∀ (s : LayoutState) (c : Nat), isRegular c = false →
      (layoutStep (layoutVars (heap t.m_font) t) s c).verticesMap = s.verticesMap) ∧
    (∀ (s : LayoutState) (c key : Nat), isRegular c = true →
      VertexArrayMap.countAt (layoutStep (layoutVars (heap t.m_font) t) s c).verticesMap key =
        VertexArrayMap.countAt s.verticesMap key +
          (if ((heap t.m_font).getGlyph c t.m_characterSize
            ((t.m_style &&& Bold) != 0)).texture = key then 6 else 0)) := by
  have hdec : (layoutVars (heap t.m_font) t).decorations = 0 := by
    rw [layoutVars_decorations]
    exact decorationCount_zero _ hu hst
  refine ⟨?_, ?_, ?_, ?_⟩
  · rw [ensure_layout heap t hd hf hs]
    show VertexArrayMap.totalCount (setTriangles _) = _
    rw [totalCount_setTriangles, totalCount_addLines]
    unfold layoutResult
    rw [totalCount_layoutLoop, hdec]
    have hclear : VertexArrayMap.totalCount
        (layoutInit (layoutVars (heap t.m_font) t) (clearAll t.m_verticesMap)).verticesMap
        = 0 := totalCount_clearAll _
    rw [hclear]
    ring
  · intro key
    rw [ensure_layout heap t hd hf hs]
    show VertexArrayMap.countAt (setTriangles _) key = _
    rw [countAt_setTriangles, countAt_addLines]
    unfold layoutResult
    rw [countAt_layoutLoop, hdec]
    have hclear : VertexArrayMap.countAt
        (layoutInit (layoutVars (heap t.m_font) t) (clearAll t.m_verticesMap)).verticesMap
        key = 0 := countAt_clearAll key _
    rw [hclear]
    simp [layoutVars]
  · intro s c hc
    simp only [isRegular, decide_eq_false_iff_not, not_and_or, not_not, ne_eq] at hc
    rcases hc with h | h | h
    · exact layoutStep_map_blank _ s c (Or.inl h)
    · exact layoutStep_map_blank _ s c (Or.inr h)
    · subst h
      rw [layoutStep_map_newline, addLines_none _ _ _ _ hdec]
  · intro s c key hc
    rw [countAt_layoutStep, hdec, hc]
    simp [layoutVars]

/-- C10 at the text "A b\n" in the test font: two quads, both on texture 7. -/
theorem C10_whitespace_emits_no_quad_witness :
    VertexArrayMap.totalCount
      ((MyText.mk3 [65, 32, 98, 10] 1 20).ensureGeometryUpdate monoHeap).m_verticesMap = 12 ∧
    VertexArrayMap.countAt
      ((MyText.mk3 [65, 32, 98, 10] 1 20).ensureGeometryUpdate monoHeap).m_verticesMap 7 = 12 := by
  have h := C10_whitespace_emits_no_quad monoHeap (MyText.mk3 [65, 32, 98, 10] 1 20) rfl
    (by decide) (by decide) (by decide) (by decide)
  refine ⟨h.1, ?_⟩
  have h7 := h.2.1 7
  rw [h7]
  decide

/-- C11, as stated, fails, with fonts without kerning and the identity
transform.  With the space advance 0.1 (as a `float`): the caret after "AA "
is not the caret after "AA" moved by one space advance, the caret after "A"
and a tab is not the caret after "A" moved by four space advances, and (line
spacing 0.1) the caret after three newlines is not the caret after two
newlines lowered by one line spacing.  With the space advance 0.3 (as a
`float`): the caret after "AA" and a tab is at x = 15099495 / 2 ^ 23 and the
caret after "AA" and four spaces is at x = 7549747 / 2 ^ 22. -/
theorem C11_counterexample :
    (∀ a b : Nat, (tenthHeap 1).getKerning a b 20 = 0) ∧
    (∀ a b : Nat, (threeTenthsHeap 1).getKerning a b 20 = 0) ∧
    toFloat (advanceOf tenthHeap (MyText.mk3 [65, 65, 32] 1 20) 32) =
      advanceOf tenthHeap (MyText.mk3 [65, 65, 32] 1 20) 32 ∧
    toFloat (advanceOf threeTenthsHeap (MyText.mk3 [] 1 20) 32) =
      advanceOf threeTenthsHeap (MyText.mk3 [] 1 20) 32 ∧
    ¬ ((MyText.mk3 [65, 65, 32] 1 20).findCharacterPos tenthHeap Transform.Identity 3 =
      ⟨((MyText.mk3 [65, 65, 32] 1 20).findCharacterPos tenthHeap Transform.Identity 2).x +
          advanceOf tenthHeap (MyText.mk3 [65, 65, 32] 1 20) 32,
        ((MyText.mk3 [65, 65, 32] 1 20).findCharacterPos tenthHeap Transform.Identity 2).y⟩) ∧
    ¬ ((MyText.mk3 [65, 9] 1 20).findCharacterPos tenthHeap Transform.Identity 2 =
      ⟨((MyText.mk3 [65, 9] 1 20).findCharacterPos tenthHeap Transform.Identity 1).x +
          advanceOf tenthHeap (MyText.mk3 [65, 9] 1 20) 32 * 4,
        ((MyText.mk3 [65, 9] 1 20).findCharacterPos tenthHeap Transform.Identity 1).y⟩) ∧
    ¬ ((MyText.mk3 [10, 10, 10] 1 20).findCharacterPos tenthHeap Transform.Identity 3 =
      ⟨0, ((MyText.mk3 [10, 10, 10] 1 20).findCharacterPos tenthHeap Transform.Identity 2).y +
          (tenthHeap (MyText.mk3 [10, 10, 10] 1 20).m_font).getLineSpacing
            (MyText.mk3 [10, 10, 10] 1 20).m_characterSize⟩) ∧
    ((MyText.mk3 [] 1 20).setString ([65, 65] ++ [9])).findCharacterPos threeTenthsHeap
        Transform.Identity 3 = ⟨15099495 / 8388608, 0⟩ ∧
    ((MyText.mk3 [] 1 20).setString ([65, 65] ++ [32, 32, 32, 32])).findCharacterPos
        threeTenthsHeap Transform.Identity 6 = ⟨7549747 / 4194304, 0⟩ ∧
    ¬ (((MyText.mk3 [] 1 20).setString ([65, 65] ++ [9])).findCharacterPos threeTenthsHeap
        Transform.Identity (([65, 65] : List Nat).length + 1) =
      ((MyText.mk3 [] 1 20).setString ([65, 65] ++ [32, 32, 32, 32])).findCharacterPos
        threeTenthsHeap Transform.Identity (([65, 65] : List Nat).length + 4)) :=
  ⟨fun _ _ => rfl, fun _ _ => rfl, by decide!, by decide!, by decide!, by decide!,
    by decide!, by decide!, by decide!, by decide!⟩

/-- C11, amended: in `findCharacterPos` with the identity transform and a font
without kerning, a space moves the caret to `fl(x + h)`, a tab to
`fl(x + fl(h * 4))` and a newline to `(0, fl(y + v))`, where `h` is the space
advance, `v` the line spacing and every operation is rounded to `float`; the
caret after a tab is at `fl(x + fl(h * 4))` and the caret after four spaces at
`fl(fl(fl(fl(x + h) + h) + h) + h)`, x being the caret before them; the caret
after a content that ends in a newline has x = 0. -/
theorem C11_whitespace_advances_rounded (heap : Nat → MyFont) (t : MyText)
    (hf : t.m_font ≠ 0)
    (hk : ∀ a b : Nat, (heap t.m_font).getKerning a b t.m_characterSize = 0) :
    (∀ p rest : List Nat, t.m_string = p ++ 32 :: rest →
      t.findCharacterPos heap Transform.Identity (p.length + 1) =
        ⟨fadd (t.findCharacterPos heap Transform.Identity p.length).x
            (toFloat (advanceOf heap t 32)),
          (t.findCharacterPos heap Transform.Identity p.length).y⟩) ∧
    (∀ p rest : List Nat, t.m_string = p ++ 9 :: rest →
      t.findCharacterPos heap Transform.Identity (p.length + 1) =
        ⟨fadd (t.findCharacterPos heap Transform.Identity p.length).x
            (fmul (toFloat (advanceOf heap t 32)) 4),
          (t.findCharacterPos heap Transform.Identity p.length).y⟩) ∧
    (∀ p rest : List Nat, t.m_string = p ++ 10 :: rest →
      t.findCharacterPos heap Transform.Identity (p.length + 1) =
        ⟨0, fadd (t.findCharacterPos heap Transform.Identity p.length).y
          (toFloat ((heap t.m_font).getLineSpacing t.m_characterSize))⟩) ∧
    (∀ p : List Nat,
      (t.setString (p ++ [9])).findCharacterPos heap Transform.Identity (p.length + 1) =
        ⟨fadd ((t.setString p).findCharacterPos heap Transform.Identity p.length).x
            (fmul (toFloat (advanceOf heap t 32)) 4),
          ((t.setString p).findCharacterPos heap Transform.Identity p.length).y⟩ ∧
      (t.setString (p ++ [32, 32, 32, 32])).findCharacterPos heap Transform.Identity
          (p.length + 4) =
        ⟨fadd (fadd (fadd (fadd
            ((t.setString p).findCharacterPos heap Transform.Identity p.length).x
            (toFloat (advanceOf heap t 32))) (toFloat (advanceOf heap t 32)))
            (toFloat (advanceOf heap t 32))) (toFloat (advanceOf heap t 32)),
          ((t.setString p).findCharacterPos heap Transform.Identity p.length).y⟩) ∧
    (∀ p : List Nat, t.m_string = p ++ [10] → ∀ i : Nat, t.m_string.length ≤ i →
      (t.findCharacterPos heap Transform.Identity i).x = 0) := by
  have step : ∀ (p rest : List Nat) (c : Nat), t.m_string = p ++ c :: rest →
      t.findCharacterPos heap Transform.Identity (p.length + 1) =
        (caretStep (heap t.m_font) t.m_characterSize ((t.m_style &&& Bold) != 0)
          (toFloat (advanceOf heap t 32))
          (toFloat ((heap t.m_font).getLineSpacing t.m_characterSize))
          (caretLoop heap t p) c).1 ∧
      t.findCharacterPos heap Transform.Identity p.length = (caretLoop heap t p).1 := by
    intro p rest c hs
    have h1 := caret_prefix heap t hf (p ++ [c]) rest (by rw [hs]; simp)
    rw [List.length_append, List.length_singleton, caretLoop_snoc] at h1
    exact ⟨h1, caret_prefix heap t hf p (c :: rest) hs⟩
  have hfl : ∀ p : List Nat, fadd (caretLoop heap t p).1.x (toFloat 0) =
      (caretLoop heap t p).1.x := fun p => fadd_toFloat_zero (caretLoop_x_float heap t p)
  refine ⟨?_, ?_, ?_, ?_, ?_⟩
  · intro p rest hs
    obtain ⟨h1, h2⟩ := step p rest 32 hs
    rw [h1, h2]
    simp [caretStep, hk, hfl]
  · intro p rest hs
    obtain ⟨h1, h2⟩ := step p rest 9 hs
    rw [h1, h2]
    simp [caretStep, hk, hfl]
  · intro p rest hs
    obtain ⟨h1, h2⟩ := step p rest 10 hs
    rw [h1, h2]
    simp [caretStep, hk]
  · intro p
    have hf0 : (t.setString p).m_font ≠ 0 := by rw [setString_font]; exact hf
    have hf1 : (t.setString (p ++ [9])).m_font ≠ 0 := by rw [setString_font]; exact hf
    have hf2 : (t.setString (p ++ [32, 32, 32, 32])).m_font ≠ 0 := by
      rw [setString_font]; exact hf
    have e0 := caret_prefix heap _ hf0 p [] (by rw [setString_string]; simp)
    have e1 := caret_prefix heap _ hf1 (p ++ [9]) [] (by rw [setString_string]; simp)
    have e2 := caret_prefix heap _ hf2 (p ++ [32, 32, 32, 32]) []
      (by rw [setString_string]; simp)
    simp only [List.length_append, List.length_singleton, List.length_cons,
      List.length_nil] at e1 e2
    rw [e0, e1, e2, caretLoop_setString, caretLoop_setString, caretLoop_setString]
    have h4 : p ++ [32, 32, 32, 32] = (((p ++ [32]) ++ [32]) ++ [32]) ++ [32] := by simp
    rw [h4, caretLoop_snoc, caretLoop_snoc, caretLoop_snoc, caretLoop_snoc, caretLoop_snoc]
    have hfl2 : ∀ a b : ℚ, fadd (fadd a b) (toFloat 0) = fadd a b :=
      fun a b => fadd_toFloat_zero (fadd_idem a b)
    constructor
    · simp [caretStep, hk, hfl]
    · simp [caretStep, hk, hfl, hfl2]
  · intro p hs i hi
    have hc := (caret_clamp_identity heap t hf i hi)
    rw [hc]
    have h1 := caret_prefix heap t hf (p ++ [10]) [] (by rw [hs]; simp)
    have hl : t.m_string.length = (p ++ [10]).length := by rw [hs]
    rw [hl, h1, caretLoop_snoc]
    simp [caretStep]

/-- C11, amended, at the text "a\tb\n" of size 20 in the test font (space
advance 10): the caret after the tab is at x = 50, and the caret after the
whole text has x = 0. -/
theorem C11_whitespace_advances_rounded_witness :
    (MyText.mk3 [97, 9, 98, 10] 1 20).findCharacterPos monoHeap Transform.Identity 2 =
      ⟨fadd ((MyText.mk3 [97, 9, 98, 10] 1 20).findCharacterPos monoHeap
            Transform.Identity 1).x
          (fmul (toFloat (advanceOf monoHeap (MyText.mk3 [97, 9, 98, 10] 1 20) 32)) 4),
       ((MyText.mk3 [97, 9, 98, 10] 1 20).findCharacterPos monoHeap Transform.Identity 1).y⟩ ∧
    fadd ((MyText.mk3 [97, 9, 98, 10] 1 20).findCharacterPos monoHeap Transform.Identity 1).x
        (fmul (toFloat (advanceOf monoHeap (MyText.mk3 [97, 9, 98, 10] 1 20) 32)) 4) = 50 ∧
    ((MyText.mk3 [97, 9, 98, 10] 1 20).findCharacterPos monoHeap Transform.Identity 4).x = 0 :=
  ⟨(C11_whitespace_advances_rounded monoHeap (MyText.mk3 [97, 9, 98, 10] 1 20) (by decide)
      (fun _ _ => rfl)).2.1 [97] [98, 10] rfl,
   by decide!,
   (C11_whitespace_advances_rounded monoHeap (MyText.mk3 [97, 9, 98, 10] 1 20) (by decide)
      (fun _ _ => rfl)).2.2.2.2 [97, 9, 98] rfl 4 (by decide)⟩

/-- C12: after `setString` followed by the geometry update, every texture key
that was in the batch map is still in it; the update alone never removes a
key either. -/
theorem C12_keys_survive_relayout (heap : Nat → MyFont) (t : MyText) (string : List Nat) :
    (∀ key ∈ VertexArrayMap.keys t.m_verticesMap,
      key ∈ VertexArrayMap.keys ((t.setString string).ensureGeometryUpdate heap).m_verticesMap) ∧
    (∀ key ∈ VertexArrayMap.keys t.m_verticesMap,
      key ∈ VertexArrayMap.keys (t.ensureGeometryUpdate heap).m_verticesMap) := by
  constructor
  · intro key hk
    obtain ⟨extra, h⟩ := keys_ensure heap (t.setString string)
    rw [h, setString_map]
    exact List.mem_append_left _ hk
  · intro key hk
    obtain ⟨extra, h⟩ := keys_ensure heap t
    rw [h]
    exact List.mem_append_left _ hk

/-- C12 at the laid out "A" (key 7) whose content becomes a newline. -/
theorem C12_keys_survive_relayout_witness :
    7 ∈ VertexArrayMap.keys
      ((laidOutA.setString [10]).ensureGeometryUpdate monoHeap).m_verticesMap :=
  (C12_keys_survive_relayout monoHeap laidOutA [10]).1 7 (by decide)

/-- C13: `create` returns true exactly when the framebuffer handle given by
the driver is non-zero, the depth renderbuffer handle is non-zero if a depth
buffer was requested, and the completeness status is FRAMEBUFFER_COMPLETE;
with a null framebuffer handle it returns false and the only call issued is
`glGenFramebuffers`: no bind and no attach call. -/
theorem C13_create_result (d : GLDriver) (self : priv.RenderTextureImplFBO) (gl : GLState)
    (width height textureId : Nat) (depthBuffer : Bool) :
    ((priv.RenderTextureImplFBO.create d self gl width height textureId depthBuffer).result
        = true ↔
      createFramebufferHandle d gl ≠ 0 ∧
      (depthBuffer = true → createDepthHandle d gl ≠ 0) ∧
      createStatus d gl width height textureId depthBuffer = GLEXT_GL_FRAMEBUFFER_COMPLETE) ∧
    (createFramebufferHandle d gl = 0 →
      (priv.RenderTextureImplFBO.create d self gl width height textureId depthBuffer).result
        = false ∧
      (priv.RenderTextureImplFBO.create d self gl width height textureId depthBuffer).gl.calls
        = gl.calls ++ [GLCall.GenFramebuffers] ∧
      (priv.RenderTextureImplFBO.create d self gl width height textureId
        depthBuffer).gl.boundFramebuffer = gl.boundFramebuffer) := by
  constructor
  · by_cases hfb : createFramebufferHandle d gl = 0
    · have hfb' : (glGenFramebuffers d gl).1 = 0 := hfb
      simp [priv.RenderTextureImplFBO.create, hfb, hfb']
    · have hfb' : ¬ (glGenFramebuffers d gl).1 = 0 := hfb
      cases depthBuffer with
      | false =>
        by_cases hst : createStatus d gl width height textureId false =
            GLEXT_GL_FRAMEBUFFER_COMPLETE
        · have hst' := hst
          simp only [createStatus, createStateBeforeLink, createStateBound,
            createFramebufferHandle, Bool.false_eq_true, if_false] at hst'
          simp [priv.RenderTextureImplFBO.create, priv.RenderTextureImplFBO.linkAndCheck,
            hfb, hfb', hst, hst']
        · have hst' := hst
          simp only [createStatus, createStateBeforeLink, createStateBound,
            createFramebufferHandle, Bool.false_eq_true, if_false] at hst'
          simp [priv.RenderTextureImplFBO.create, priv.RenderTextureImplFBO.linkAndCheck,
            hfb, hfb', hst, hst']
      | true =>
        by_cases hrb : createDepthHandle d gl = 0
        · have hrb' := hrb
          simp only [createDepthHandle, createStateBound, createFramebufferHandle] at hrb'
          simp [priv.RenderTextureImplFBO.create, hfb, hfb', hrb, hrb']
        · have hrb' := hrb
          simp only [createDepthHandle, createStateBound, createFramebufferHandle] at hrb'
          by_cases hst : createStatus d gl width height textureId true =
              GLEXT_GL_FRAMEBUFFER_COMPLETE
          · have hst' := hst
            simp only [createStatus, createStateBeforeLink, createStateBound,
              createDepthHandle, createFramebufferHandle, if_true] at hst'
            simp [priv.RenderTextureImplFBO.create, priv.RenderTextureImplFBO.linkAndCheck,
              hfb, hfb', hrb, hrb', hst, hst']
          · have hst' := hst
            simp only [createStatus, createStateBeforeLink, createStateBound,
              createDepthHandle, createFramebufferHandle, if_true] at hst'
            simp [priv.RenderTextureImplFBO.create, priv.RenderTextureImplFBO.linkAndCheck,
              hfb, hfb', hrb, hrb', hst, hst']
  · intro hfb
    have h0 : d.genFramebuffer gl = 0 := hfb
    simp [priv.RenderTextureImplFBO.create, glGenFramebuffers, h0]

/-- C13 on a new context: at the driver that produces no framebuffer, and at
the test driver with a valid texture and a depth buffer. -/
theorem C13_create_result_witness :
    ((priv.RenderTextureImplFBO.create nullDriver priv.RenderTextureImplFBO.mk0
        GLState.initial 64 64 5 true).result = false ∧
      (priv.RenderTextureImplFBO.create nullDriver priv.RenderTextureImplFBO.mk0
          GLState.initial 64 64 5 true).gl.calls =
        GLState.initial.calls ++ [GLCall.GenFramebuffers] ∧
      (priv.RenderTextureImplFBO.create nullDriver priv.RenderTextureImplFBO.mk0
          GLState.initial 64 64 5 true).gl.boundFramebuffer =
        GLState.initial.boundFramebuffer) ∧
    (priv.RenderTextureImplFBO.create testDriver priv.RenderTextureImplFBO.mk0
        GLState.initial 64 64 5 true).result = true :=
  ⟨(C13_create_result nullDriver priv.RenderTextureImplFBO.mk0 GLState.initial 64 64 5
      true).2 rfl,
   (C13_create_result testDriver priv.RenderTextureImplFBO.mk0 GLState.initial 64 64 5
      true).1.2 ⟨by decide, fun _ => by decide, by decide⟩⟩

/-- C14: when `create` reaches the completeness check and the status is not
FRAMEBUFFER_COMPLETE, it returns false and leaves the framebuffer 0 bound. -/
theorem C14_incomplete_unbinds (d : GLDriver) (self : priv.RenderTextureImplFBO)
    (gl : GLState) (width height textureId : Nat) (depthBuffer : Bool)
    (hfb : createFramebufferHandle d gl ≠ 0)
    (hrb : depthBuffer = true → createDepthHandle d gl ≠ 0)
    (hst : createStatus d gl width height textureId depthBuffer ≠
      GLEXT_GL_FRAMEBUFFER_COMPLETE) :
    (priv.RenderTextureImplFBO.create d self gl width height textureId depthBuffer).result
      = false ∧
    (priv.RenderTextureImplFBO.create d self gl width height textureId
      depthBuffer).gl.boundFramebuffer = 0 := by
  obtain ⟨self1, hc⟩ := create_reaches_link d self gl width height textureId depthBuffer
    hfb hrb
  rw [hc]
  exact linkAndCheck_incomplete d self1 _ textureId hst

/-- C14 at the test driver with the invalid texture handle 0, depth buffer
requested, on a new context. -/
theorem C14_incomplete_unbinds_witness :
    (priv.RenderTextureImplFBO.create testDriver priv.RenderTextureImplFBO.mk0
        GLState.initial 64 64 0 true).result = false ∧
    (priv.RenderTextureImplFBO.create testDriver priv.RenderTextureImplFBO.mk0
        GLState.initial 64 64 0 true).gl.boundFramebuffer = 0 :=
  C14_incomplete_unbinds testDriver priv.RenderTextureImplFBO.mk0 GLState.initial 64 64 0
    true (by decide) (fun _ => by decide) (by decide)

/-- C15, as stated, fails: for the underlined text "A" of size 20 in a font
with the underline position 2 and the underline thickness 16777215 / 2 ^ 25
(a `float`), the decoration quad of the layout lies between y = 22 and
y = 23, since the `float` sum thickness + 0.5 rounds to 1, whereas
`floor(top + thickness + 1/2)` is 22 in exact arithmetic; and with the
underline position 16777215 / 2 ^ 24 (a `float`) and the thickness 1 the top
of the quad is 21, since the `float` sum 20 + position rounds to 21, whereas
`floor(y + offset - thickness/2 + 1/2)` is 20. -/
theorem C15_counterexample :
    ((MyText.mk3 [65] 1 20).setStyle Underlined).m_geometryNeedUpdate = true ∧
    ((MyText.mk3 [65] 1 20).setStyle Underlined).m_font ≠ 0 ∧
    ((MyText.mk3 [65] 1 20).setStyle Underlined).m_string ≠ [] ∧
    toFloat ((thinLineHeap 1).getUnderlineThickness 20) =
      (thinLineHeap 1).getUnderlineThickness 20 ∧
    (VertexArrayMap.verticesAt
        (((MyText.mk3 [65] 1 20).setStyle Underlined).ensureGeometryUpdate
          thinLineHeap).m_verticesMap 0).map (fun v => v.position) =
      [⟨0, 22⟩, ⟨10, 22⟩, ⟨0, 23⟩, ⟨0, 23⟩, ⟨10, 22⟩, ⟨10, 23⟩] ∧
    bandTop 20 2 ((thinLineHeap 1).getUnderlineThickness 20) = 22 ∧
    bandBottom 22 ((thinLineHeap 1).getUnderlineThickness 20) = 22 ∧
    ¬ ((((MyText.mk3 [65] 1 20).setStyle Underlined).ensureGeometryUpdate
          thinLineHeap).m_verticesMap =
      setTriangles
        (bandLines (layoutVars (thinLineHeap 1) ((MyText.mk3 [65] 1 20).setStyle Underlined))
          (layoutResult thinLineHeap ((MyText.mk3 [65] 1 20).setStyle Underlined)).x
          (layoutResult thinLineHeap ((MyText.mk3 [65] 1 20).setStyle Underlined)).y
          (layoutResult thinLineHeap
            ((MyText.mk3 [65] 1 20).setStyle Underlined)).verticesMap)) ∧
    toFloat ((lowLineHeap 1).getUnderlinePosition 20) =
      (lowLineHeap 1).getUnderlinePosition 20 ∧
    (VertexArrayMap.verticesAt
        (((MyText.mk3 [65] 1 20).setStyle Underlined).ensureGeometryUpdate
          lowLineHeap).m_verticesMap 0).map (fun v => v.position) =
      [⟨0, 21⟩, ⟨10, 21⟩, ⟨0, 22⟩, ⟨0, 22⟩, ⟨10, 21⟩, ⟨10, 22⟩] ∧
    bandTop 20 ((lowLineHeap 1).getUnderlinePosition 20)
      ((lowLineHeap 1).getUnderlineThickness 20) = 20 ∧
    ¬ ((((MyText.mk3 [65] 1 20).setStyle Underlined).ensureGeometryUpdate
          lowLineHeap).m_verticesMap =
      setTriangles
        (bandLines (layoutVars (lowLineHeap 1) ((MyText.mk3 [65] 1 20).setStyle Underlined))
          (layoutResult lowLineHeap ((MyText.mk3 [65] 1 20).setStyle Underlined)).x
          (layoutResult lowLineHeap ((MyText.mk3 [65] 1 20).setStyle Underlined)).y
          (layoutResult lowLineHeap
            ((MyText.mk3 [65] 1 20).setStyle Underlined)).verticesMap)) :=
  ⟨rfl, by decide, by decide, by decide!, by decide!, by decide!, by decide!, by decide!,
    by decide!, by decide!, by decide!, by decide!⟩

/-- C15, amended: every decoration quad of the layout, at a newline and at the
end of the text, spans x from 0 to the pen x and has its top at
`floor(fl(fl(fl(y + offset) - fl(thickness / 2)) + 0.5))` and its bottom at
`fl(top + floor(fl(thickness + 0.5)))`, every operation rounded to `float`;
`y` is the baseline of the line being closed, the thickness is the underline
thickness of the font, the offset is the underline position for an underline
and `fl(top + fl(height / 2))` of the bounds of the glyph of 'x' for a
strike-through.  When the operations of the top are exact the top is
`floor(y + offset - thickness/2 + 1/2)`, and when the two additions of the
bottom are exact the bottom of a band whose top is an integer is
`floor(top + thickness + 1/2)`. -/
theorem C15_decoration_band_rounded (heap : Nat → MyFont) (t : MyText)
    (hd : t.m_geometryNeedUpdate = true) (hf : t.m_font ≠ 0) (hs : t.m_string ≠ []) :
    (∀ s : LayoutState,
      (layoutStep (layoutVars (heap t.m_font) t) s 10).verticesMap =
        bandLinesRounded (layoutVars (heap t.m_font) t)
          (fadd s.x (toFloat ((heap t.m_font).getKerning s.prevChar 10 t.m_characterSize)))
          s.y s.verticesMap) ∧
    (t.ensureGeometryUpdate heap).m_verticesMap =
      setTriangles (bandLinesRounded (layoutVars (heap t.m_font) t) (layoutResult heap t).x
        (layoutResult heap t).y (layoutResult heap t).verticesMap) ∧
    (layoutVars (heap t.m_font) t).underlineOffset =
      toFloat ((heap t.m_font).getUnderlinePosition t.m_characterSize) ∧
    (layoutVars (heap t.m_font) t).underlineThickness =
      toFloat ((heap t.m_font).getUnderlineThickness t.m_characterSize) ∧
    (layoutVars (heap t.m_font) t).strikeThroughOffset =
      fadd (toFloat ((heap t.m_font).getGlyph 120 t.m_characterSize
          ((t.m_style &&& Bold) != 0)).bounds.top)
        (fdiv (toFloat ((heap t.m_font).getGlyph 120 t.m_characterSize
          ((t.m_style &&& Bold) != 0)).bounds.height) 2) ∧
    (∀ (x y offset thickness : ℚ) (color : Color),
      (bandQuadRounded x y offset thickness color).map (fun v => v.position) =
        [⟨0, ffloor (fadd (fsub (fadd y offset) (fdiv thickness 2)) (1 / 2))⟩,
         ⟨x, ffloor (fadd (fsub (fadd y offset) (fdiv thickness 2)) (1 / 2))⟩,
         ⟨0, fadd (ffloor (fadd (fsub (fadd y offset) (fdiv thickness 2)) (1 / 2)))
            (ffloor (fadd thickness (1 / 2)))⟩,
         ⟨0, fadd (ffloor (fadd (fsub (fadd y offset) (fdiv thickness 2)) (1 / 2)))
            (ffloor (fadd thickness (1 / 2)))⟩,
         ⟨x, ffloor (fadd (fsub (fadd y offset) (fdiv thickness 2)) (1 / 2))⟩,
         ⟨x, fadd (ffloor (fadd (fsub (fadd y offset) (fdiv thickness 2)) (1 / 2)))
            (ffloor (fadd thickness (1 / 2)))⟩]) ∧
    (∀ y offset thickness : ℚ,
      fadd y offset = y + offset → fdiv thickness 2 = thickness / 2 →
      fsub (y + offset) (thickness / 2) = y + offset - thickness / 2 →
      fadd (y + offset - thickness / 2) (1 / 2) = y + offset - thickness / 2 + 1 / 2 →
      bandTopRounded y offset thickness = bandTop y offset thickness) ∧
    (∀ (top : ℤ) (thickness : ℚ),
      fadd thickness (1 / 2) = thickness + 1 / 2 →
      fadd (top : ℚ) (ffloor (thickness + 1 / 2)) = (top : ℚ) + ffloor (thickness + 1 / 2) →
      bandBottomRounded (top : ℚ) thickness = bandBottom (top : ℚ) thickness) := by
  refine ⟨?_, ?_, rfl, rfl, rfl, ?_, ?_, ?_⟩
  · intro s
    rw [layoutStep_map_newline, addLines_eq_band]
    rfl
  · rw [ensure_layout heap t hd hf hs]
    show setTriangles (addLines _ _ _ _) = _
    rw [addLines_eq_band]
  · intro x y offset thickness color
    rfl
  · intro y offset thickness h1 h2 h3 h4
    unfold bandTopRounded bandTop
    rw [h1, h2, h3, h4]
    rfl
  · intro top thickness h1 h2
    exact lineBottom_eq_bandBottom top thickness h1 h2

/-- C15, amended, at the text "A\n" with an underline and a strike-through in
the test font, and at the band of the baseline 20 with offset 2 and thickness
1, where every operation is exact: top 22, bottom 23. -/
theorem C15_decoration_band_rounded_witness :
    (((MyText.mk3 [65, 10] 1 20).setStyle 12).ensureGeometryUpdate monoHeap).m_verticesMap =
      setTriangles
        (bandLinesRounded (layoutVars (monoHeap 1) ((MyText.mk3 [65, 10] 1 20).setStyle 12))
          (layoutResult monoHeap ((MyText.mk3 [65, 10] 1 20).setStyle 12)).x
          (layoutResult monoHeap ((MyText.mk3 [65, 10] 1 20).setStyle 12)).y
          (layoutResult monoHeap ((MyText.mk3 [65, 10] 1 20).setStyle 12)).verticesMap) ∧
    bandTopRounded 20 2 1 = bandTop 20 2 1 ∧
    bandBottomRounded ((22 : ℤ) : ℚ) 1 = bandBottom ((22 : ℤ) : ℚ) 1 ∧
    bandTop 20 2 1 = 22 ∧ bandBottom ((22 : ℤ) : ℚ) 1 = 23 :=
  ⟨(C15_decoration_band_rounded monoHeap ((MyText.mk3 [65, 10] 1 20).setStyle 12) rfl
      (by decide) (by decide)).2.1,
   (C15_decoration_band_rounded monoHeap ((MyText.mk3 [65, 10] 1 20).setStyle 12) rfl
      (by decide) (by decide)).2.2.2.2.2.2.1 20 2 1 (by decide!) (by decide!) (by decide!)
      (by decide!),
   (C15_decoration_band_rounded monoHeap ((MyText.mk3 [65, 10] 1 20).setStyle 12) rfl
      (by decide) (by decide)).2.2.2.2.2.2.2 22 1 (by decide!) (by decide!),
   by decide!, by decide!⟩

/-- C18, as stated, fails: for the text "a\nb" of size 20 in a font whose
advance and line spacing are the `float` nearest to 0.1, the caret before
index 3 is at y = 13421773 / 2 ^ 27 (the line spacing added to 0), whereas
the pen of the layout is at y = fl(20 + 0.1) and y - 20 = 52429 / 2 ^ 19. -/
theorem C18_counterexample :
    (MyText.mk3 [97, 10, 98] 1 20).m_font ≠ 0 ∧
    3 ≤ (MyText.mk3 [97, 10, 98] 1 20).m_string.length ∧
    (MyText.mk3 [97, 10, 98] 1 20).findCharacterPos tenthHeap Transform.Identity 3 =
      ⟨13421773 / 134217728, 13421773 / 134217728⟩ ∧
    (layoutLoop (layoutVars (tenthHeap 1) (MyText.mk3 [97, 10, 98] 1 20))
        (layoutInit (layoutVars (tenthHeap 1) (MyText.mk3 [97, 10, 98] 1 20)) [])
        ((MyText.mk3 [97, 10, 98] 1 20).m_string.take 3)).y -
      ((MyText.mk3 [97, 10, 98] 1 20).m_characterSize : ℚ) = 52429 / 524288 ∧
    ¬ ((MyText.mk3 [97, 10, 98] 1 20).findCharacterPos tenthHeap Transform.Identity 3 =
      ⟨(layoutLoop (layoutVars (tenthHeap (MyText.mk3 [97, 10, 98] 1 20).m_font)
            (MyText.mk3 [97, 10, 98] 1 20))
          (layoutInit (layoutVars (tenthHeap (MyText.mk3 [97, 10, 98] 1 20).m_font)
            (MyText.mk3 [97, 10, 98] 1 20)) [])
          ((MyText.mk3 [97, 10, 98] 1 20).m_string.take 3)).x,
       (layoutLoop (layoutVars (tenthHeap (MyText.mk3 [97, 10, 98] 1 20).m_font)
            (MyText.mk3 [97, 10, 98] 1 20))
          (layoutInit (layoutVars (tenthHeap (MyText.mk3 [97, 10, 98] 1 20).m_font)
            (MyText.mk3 [97, 10, 98] 1 20)) [])
          ((MyText.mk3 [97, 10, 98] 1 20).m_string.take 3)).y -
        ((MyText.mk3 [97, 10, 98] 1 20).m_characterSize : ℚ)⟩) :=
  ⟨by decide, by decide, by decide!, by decide!, by decide!⟩

/-- C18, amended: with a font and the identity transform, the caret before
index `i` (up to the content length) has the abscissa of the pen of the layout
loop after the first `i` code points, whatever batch map the loop starts from;
its ordinate is the line spacing added in `float` to 0 once for each newline
among these code points, while the ordinate of the pen is the line spacing
added in `float` to the character size as often; when there is no newline
among them the caret is `(x, y - fl(characterSize))`, `(x, y)` being the
pen. -/
theorem C18_caret_replays_pen_x (heap : Nat → MyFont) (t : MyText) (hf : t.m_font ≠ 0)
    (i : Nat) (hi : i ≤ t.m_string.length) (m : VertexArrayMap) :
    t.findCharacterPos heap Transform.Identity i =
      ⟨(layoutLoop (layoutVars (heap t.m_font) t)
          (layoutInit (layoutVars (heap t.m_font) t) m) (t.m_string.take i)).x,
       lineFeeds (toFloat ((heap t.m_font).getLineSpacing t.m_characterSize))
         ((t.m_string.take i).count 10) 0⟩ ∧
    (layoutLoop (layoutVars (heap t.m_font) t)
        (layoutInit (layoutVars (heap t.m_font) t) m) (t.m_string.take i)).y =
      lineFeeds (toFloat ((heap t.m_font).getLineSpacing t.m_characterSize))
        ((t.m_string.take i).count 10) (toFloat (t.m_characterSize : ℚ)) ∧
    (10 ∉ t.m_string.take i →
      t.findCharacterPos heap Transform.Identity i =
        ⟨(layoutLoop (layoutVars (heap t.m_font) t)
            (layoutInit (layoutVars (heap t.m_font) t) m) (t.m_string.take i)).x,
         (layoutLoop (layoutVars (heap t.m_font) t)
            (layoutInit (layoutVars (heap t.m_font) t) m) (t.m_string.take i)).y -
          toFloat (t.m_characterSize : ℚ)⟩) := by
  have h := pen_loop (layoutVars (heap t.m_font) t) (t.m_string.take i)
    (layoutInit (layoutVars (heap t.m_font) t) m) (⟨0, 0⟩, 0) rfl rfl
  have h1 : t.findCharacterPos heap Transform.Identity i =
      ⟨(layoutLoop (layoutVars (heap t.m_font) t)
          (layoutInit (layoutVars (heap t.m_font) t) m) (t.m_string.take i)).x,
       lineFeeds (toFloat ((heap t.m_font).getLineSpacing t.m_characterSize))
         ((t.m_string.take i).count 10) 0⟩ := by
    rw [findCharacterPos_eq_caretLoop heap t hf i hi]
    exact h.1
  have h2 : (layoutLoop (layoutVars (heap t.m_font) t)
        (layoutInit (layoutVars (heap t.m_font) t) m) (t.m_string.take i)).y =
      lineFeeds (toFloat ((heap t.m_font).getLineSpacing t.m_characterSize))
        ((t.m_string.take i).count 10) (toFloat (t.m_characterSize : ℚ)) := h.2
  refine ⟨h1, h2, ?_⟩
  intro hno
  rw [h1, h2, List.count_eq_zero.2 hno]
  simp [lineFeeds]

/-- C18, amended, at the text "a\nb" of size 20 in the test font: the caret
before index 3 is (10, 24), the pen after the three code points is (10, 44);
and before index 1 the caret is the pen lowered by the character size. -/
theorem C18_caret_replays_pen_x_witness :
    (MyText.mk3 [97, 10, 98] 1 20).findCharacterPos monoHeap Transform.Identity 3 =
      ⟨(layoutLoop (layoutVars (monoHeap (MyText.mk3 [97, 10, 98] 1 20).m_font)
            (MyText.mk3 [97, 10, 98] 1 20))
          (layoutInit (layoutVars (monoHeap (MyText.mk3 [97, 10, 98] 1 20).m_font)
            (MyText.mk3 [97, 10, 98] 1 20)) [])
          ((MyText.mk3 [97, 10, 98] 1 20).m_string.take 3)).x,
       lineFeeds (toFloat ((monoHeap (MyText.mk3 [97, 10, 98] 1 20).m_font).getLineSpacing
            (MyText.mk3 [97, 10, 98] 1 20).m_characterSize))
         (((MyText.mk3 [97, 10, 98] 1 20).m_string.take 3).count 10) 0⟩ ∧
    (MyText.mk3 [97, 10, 98] 1 20).findCharacterPos monoHeap Transform.Identity 3 =
      ⟨10, 24⟩ ∧
    (MyText.mk3 [97, 10, 98] 1 20).findCharacterPos monoHeap Transform.Identity 1 =
      ⟨(layoutLoop (layoutVars (monoHeap (MyText.mk3 [97, 10, 98] 1 20).m_font)
            (MyText.mk3 [97, 10, 98] 1 20))
          (layoutInit (layoutVars (monoHeap (MyText.mk3 [97, 10, 98] 1 20).m_font)
            (MyText.mk3 [97, 10, 98] 1 20)) [])
          ((MyText.mk3 [97, 10, 98] 1 20).m_string.take 1)).x,
       (layoutLoop (layoutVars (monoHeap (MyText.mk3 [97, 10, 98] 1 20).m_font)
            (MyText.mk3 [97, 10, 98] 1 20))
          (layoutInit (layoutVars (monoHeap (MyText.mk3 [97, 10, 98] 1 20).m_font)
            (MyText.mk3 [97, 10, 98] 1 20)) [])
          ((MyText.mk3 [97, 10, 98] 1 20).m_string.take 1)).y -
        toFloat ((MyText.mk3 [97, 10, 98] 1 20).m_characterSize : ℚ)⟩ :=
  ⟨(C18_caret_replays_pen_x monoHeap (MyText.mk3 [97, 10, 98] 1 20) (by decide) 3
      (by decide) []).1,
   by decide!,
   (C18_caret_replays_pen_x monoHeap (MyText.mk3 [97, 10, 98] 1 20) (by decide) 1
      (by decide) []).2.2 (by decide)⟩

/-- C20: in every reachable state whose dirty flag is false, the cached bounds
and the cached batches (vertices with position, texture coordinate and colour,
per texture key, no key twice) are those of a layout of the current content,
font, size, style and colour on an empty cache, that is of the object built
by the constructor, `setStyle` and `setColor`; and `setColor` leaves the
geometry that a full relayout of the recoloured object gives. -/
theorem C20_cache_coherence (heap : Nat → MyFont) (t : MyText) (hr : Reachable heap t)
    (hfresh : t.m_geometryNeedUpdate = false) :
    freshLayout heap t =
      (((MyText.mk3 t.m_string t.m_font t.m_characterSize).setStyle t.m_style).setColor
        t.m_color).ensureGeometryUpdate heap ∧
    t.m_bounds = (freshLayout heap t).m_bounds ∧
    (∀ key : Nat, VertexArrayMap.verticesAt t.m_verticesMap key =
      VertexArrayMap.verticesAt (freshLayout heap t).m_verticesMap key) ∧
    (VertexArrayMap.keys t.m_verticesMap).Nodup ∧
    (∀ c : Color,
      (t.setColor c).m_bounds =
        ((t.setColor c).markStale.ensureGeometryUpdate heap).m_bounds ∧
      ∀ key : Nat, VertexArrayMap.verticesAt (t.setColor c).m_verticesMap key =
        VertexArrayMap.verticesAt
          ((t.setColor c).markStale.ensureGeometryUpdate heap).m_verticesMap key) := by
  obtain ⟨hb, hm⟩ := reachable_cacheCoherent heap t hr hfresh
  refine ⟨?_, hb, hm, reachable_keys_nodup heap t hr, ?_⟩
  · unfold freshLayout
    rw [freshText_eq_constructed]
  · intro c
    have hr1 : Reachable heap (t.setColor c) := Reachable.setColor c hr
    have hf1 : (t.setColor c).m_geometryNeedUpdate = false := by
      have h := (setColor_flag t c)
      rw [h]; exact hfresh
    obtain ⟨hb1, hm1⟩ := reachable_cacheCoherent heap _ hr1 hf1
    obtain ⟨hb2, hm2⟩ := ensure_eq_fresh heap (t.setColor c).markStale rfl
    have hfl : freshLayout heap (t.setColor c).markStale = freshLayout heap (t.setColor c) :=
      rfl
    rw [hfl] at hb2 hm2
    refine ⟨by rw [hb1, hb2], fun key => ?_⟩
    rw [hm1 key, hm2 key]

/-- C20 at the laid out "A" (fresh cache) recoloured in red. -/
theorem C20_cache_coherence_witness :
    laidOutA.m_bounds = (freshLayout monoHeap laidOutA).m_bounds ∧
    (laidOutA.setColor ⟨255, 0, 0, 255⟩).m_bounds =
      ((laidOutA.setColor ⟨255, 0, 0, 255⟩).markStale.ensureGeometryUpdate monoHeap).m_bounds ∧
    (∀ key : Nat,
      VertexArrayMap.verticesAt (laidOutA.setColor ⟨255, 0, 0, 255⟩).m_verticesMap key =
        VertexArrayMap.verticesAt
          ((laidOutA.setColor ⟨255, 0, 0, 255⟩).markStale.ensureGeometryUpdate
            monoHeap).m_verticesMap key) :=
  ⟨(C20_cache_coherence monoHeap laidOutA
      (Reachable.ensureGeometryUpdate (Reachable.mk3 [65] 1 20)) rfl).2.1,
   ((C20_cache_coherence monoHeap laidOutA
      (Reachable.ensureGeometryUpdate (Reachable.mk3 [65] 1 20)) rfl).2.2.2.2
      ⟨255, 0, 0, 255⟩).1,
   ((C20_cache_coherence monoHeap laidOutA
      (Reachable.ensureGeometryUpdate (Reachable.mk3 [65] 1 20)) rfl).2.2.2.2
      ⟨255, 0, 0, 255⟩).2⟩

/-- C22, as stated, fails: for the italic text " " of size 20 in a font with
the space advance 1 and the glyph bounds (-1, 0, 0, 1), the bounds are
(0, 20, 1, 0) with the right edge at 1; after appending "A" they are
(-3489661 / 2 ^ 24, 20, 5066719 / 2 ^ 22, 1) with the right edge at
16777215 / 2 ^ 24 < 1, the width being the rounded difference
fl(1 - left). -/
theorem C22_counterexample :
    ((MyText.mk3 [32] 1 20).setStyle Italic).m_string ≠ [] ∧
    ((MyText.mk3 [32] 1 20).setStyle Italic).m_geometryNeedUpdate = true ∧
    (((MyText.mk3 [32] 1 20).setStyle Italic).ensureGeometryUpdate leftBoxHeap).m_bounds =
      ⟨0, 20, 1, 0⟩ ∧
    ((((MyText.mk3 [32] 1 20).setStyle Italic).setString
        (((MyText.mk3 [32] 1 20).setStyle Italic).m_string ++ [65])).ensureGeometryUpdate
        leftBoxHeap).m_bounds = ⟨-3489661 / 16777216, 20, 5066719 / 4194304, 1⟩ ∧
    ¬ rectContains
      ((((MyText.mk3 [32] 1 20).setStyle Italic).setString
        (((MyText.mk3 [32] 1 20).setStyle Italic).m_string ++ [65])).ensureGeometryUpdate
        leftBoxHeap).m_bounds
      (((MyText.mk3 [32] 1 20).setStyle Italic).ensureGeometryUpdate leftBoxHeap).m_bounds := by
  have h1 : (((MyText.mk3 [32] 1 20).setStyle Italic).ensureGeometryUpdate
      leftBoxHeap).m_bounds = ⟨0, 20, 1, 0⟩ := by decide!
  have h2 : ((((MyText.mk3 [32] 1 20).setStyle Italic).setString
      (((MyText.mk3 [32] 1 20).setStyle Italic).m_string ++ [65])).ensureGeometryUpdate
      leftBoxHeap).m_bounds = ⟨-3489661 / 16777216, 20, 5066719 / 4194304, 1⟩ := by decide!
  refine ⟨by decide, rfl, h1, h2, ?_⟩
  rw [h1, h2]
  unfold rectContains
  norm_num

/-- C22, amended: for a non-empty content and any code point `c`, with the
font, size and style fixed, the bounds of the layout of the content followed
by `c` extend the bounds of the layout of the content: left and top do not
increase, width and height do not decrease; both for the update of a stale
object and for `getLocalBounds` in a reachable state. -/
theorem C22_bounds_extend_on_append (heap : Nat → MyFont) (t : MyText) (c : Nat)
    (hs : t.m_string ≠ []) :
    (t.m_geometryNeedUpdate = true →
      rectExtends
        ((t.setString (t.m_string ++ [c])).ensureGeometryUpdate heap).m_bounds
        (t.ensureGeometryUpdate heap).m_bounds) ∧
    (Reachable heap t →
      rectExtends ((t.setString (t.m_string ++ [c])).getLocalBounds heap).1
        (t.getLocalBounds heap).1) := by
  have hfresh := freshLayout_bounds_snoc heap t c hs
  constructor
  · intro hd
    rw [(ensure_eq_fresh heap t hd).1,
      (ensure_eq_fresh heap _ (setString_dirty t _ hd)).1]
    exact hfresh
  · intro hr
    rw [getLocalBounds_fresh heap t hr,
      getLocalBounds_fresh heap _ (Reachable.setString _ hr)]
    exact hfresh

/-- C22, amended, at the text "A" of size 20 in the test font followed by a
space: the box of "A " extends the box of "A". -/
theorem C22_bounds_extend_on_append_witness :
    rectExtends
      (((MyText.mk3 [65] 1 20).setString ((MyText.mk3 [65] 1 20).m_string ++
        [32])).ensureGeometryUpdate monoHeap).m_bounds
      ((MyText.mk3 [65] 1 20).ensureGeometryUpdate monoHeap).m_bounds :=
  (C22_bounds_extend_on_append monoHeap (MyText.mk3 [65] 1 20) 32 (by decide)).1 rfl

end sf
